import Mathlib

/-!
# The chess rules engine of `src/app.js`

A shallow embedding of the rules engine of the click-to-move chess board
(`src/app.js`): the board, the attack detector, the move generator with its
self-check filter, the move applier, the game-end evaluator, the commands of
the board and of the engine and the FEN export, followed by theorems about
them.  The class `ChessGame` of `src/chess.js` is embedded as well.

Conventions of the embedding.

* The module-level variables of `app.js` (`board`, `whiteToMove`, `enPassant`,
  `castle`, `gameOver`, ...) are the fields of `State`; a function that
  assigns to them takes a `State` and returns the new one.
* A cell is the one-character string the source stores, as a `Char`;
  `toLowerCase`/`toUpperCase` are `Char.toLower`/`Char.toUpper`, which agree
  with JavaScript on the FEN letters and on `'.'`.
* Row and column indices are `Int` (the source computes `r + dr` with negative
  offsets and `findKing` may return `[-1,-1]`).  `board[r][c]` is
  `b.get r c`.  The theorems index the board at squares with `isInside r c`
  unless they say otherwise; off the board the source reads `undefined` (in a
  row that exists) or raises a `TypeError` (in a row that does not), and the
  functions that can be handed such squares (`applyEngineMove`) return an
  `Option`, `none` standing for the error.
* DOM rendering, the clocks and the engine worker are not part of the
  embedding; `statusEl.textContent` is kept as the field `status`.
* Loops that walk a ray carry a step budget (`fuel`); 8 steps are always enough
  on an 8x8 board, and the characterisation theorems below do not mention it.
-/

namespace Chess

/-! ## Data model -/

/-- A square `[r, c]` (row 0 is Black's back rank, column 0 is file a). -/
abbrev Square := Int × Int

/-- The variable `board`: the cell at each row and column. -/
structure Board where
  /-- The cell `board[r][c]`. -/
  get : Int → Int → Char

/-- The assignment `board[r][c] = v`. -/
def Board.set (b : Board) (r c : Int) (v : Char) : Board :=
  ⟨fun r' c' => if r' = r ∧ c' = c then v else b.get r' c'⟩

/-- What the embedding reads off the board, where the source reads `undefined`:
the character U+0000, which is neither `'.'` nor a letter. -/
def undefinedCell : Char := Char.ofNat 0

/-- The board held by an array of rows, as `START.map(row => row.split(''))` builds it. -/
def Board.ofRows (rows : List (List Char)) : Board :=
  ⟨fun r c =>
    if 0 ≤ r ∧ 0 ≤ c then (rows.getD r.toNat []).getD c.toNat undefinedCell
    else undefinedCell⟩

/-- The constant `START`. -/
def START : List (List Char) :=
  [ ['r', 'n', 'b', 'q', 'k', 'b', 'n', 'r'],
    ['p', 'p', 'p', 'p', 'p', 'p', 'p', 'p'],
    ['.', '.', '.', '.', '.', '.', '.', '.'],
    ['.', '.', '.', '.', '.', '.', '.', '.'],
    ['.', '.', '.', '.', '.', '.', '.', '.'],
    ['.', '.', '.', '.', '.', '.', '.', '.'],
    ['P', 'P', 'P', 'P', 'P', 'P', 'P', 'P'],
    ['R', 'N', 'B', 'Q', 'K', 'B', 'N', 'R'] ]

/-- The variable `castle`. -/
structure CastleRights where
  wK : Bool
  wQ : Bool
  bK : Bool
  bQ : Bool
deriving DecidableEq

/-- The variable `checkState`. -/
structure CheckState where
  whiteInCheck : Bool
  blackInCheck : Bool
deriving DecidableEq

/-- The record `promotionPending = {sr, sc, tr, tc, white}`. -/
structure PromotionPending where
  sr : Int
  sc : Int
  tr : Int
  tc : Int
  white : Bool
deriving DecidableEq

/-- The record `premove = {from, to, white}` (`src` is `from`, `dst` is `to`). -/
structure Premove where
  src : Square
  dst : Square
  white : Bool
deriving DecidableEq

/-- The record `pendingJustMoved` (`src` is `from`, `dst` is `to`). -/
structure PendingMove where
  src : Square
  dst : Square
  piece : Char
  capture : Bool
  promo : Option Char
  castle : Option Char
  pieceClass : String
deriving DecidableEq

/-- An entry of `moveHistory` (`src` is `from`, `dst` is `to`). -/
structure HistoryEntry where
  num : Nat
  color : String
  text : String
  san : String
  pieceClass : String
  src : Square
  dst : Square
deriving DecidableEq

/-- The module-level game state of `app.js`. -/
structure State where
  board : Board
  whiteToMove : Bool
  selected : Option Square
  highlighted : List Square
  enPassant : Option Square
  gameOver : Bool
  checkState : CheckState
  castle : CastleRights
  promotionPending : Option PromotionPending
  premove : Option Premove
  dragFrom : Option Square
  lastMove : Option (Square × Square)
  pendingJustMoved : Option PendingMove
  moveHistory : List HistoryEntry
  plyCount : Nat
  /-- The text of `statusEl`. -/
  status : String

/-- The state the module starts in (and `resetGame` restores). -/
def initialState : State where
  board := Board.ofRows START
  whiteToMove := true
  selected := none
  highlighted := []
  enPassant := none
  gameOver := false
  checkState := ⟨false, false⟩
  castle := ⟨true, true, true, true⟩
  promotionPending := none
  premove := none
  dragFrom := none
  lastMove := none
  pendingJustMoved := none
  moveHistory := []
  plyCount := 0
  status := ""

/-- `isInside(r,c)`. -/
def isInside (r c : Int) : Bool :=
  decide (0 ≤ r) && decide (r < 8) && decide (0 ≤ c) && decide (c < 8)

/-- `isWhite(ch)` for a cell. -/
def isWhite (ch : Char) : Bool := ch != '.' && ch == ch.toUpper

/-- `isBlack(ch)` for a cell. -/
def isBlack (ch : Char) : Bool := ch != '.' && ch == ch.toLower

/-- The row (and column) indices `0..7` in loop order. -/
def idx : List Int := [0, 1, 2, 3, 4, 5, 6, 7]

/-- All squares in the order of `for r ... for c ...`. -/
def allSquares : List Square := idx.flatMap fun r => idx.map fun c => (r, c)

/-! ## Attack detector -/

/-- The knight offsets `kD` (also `deltas` of `legalMoves`). -/
def knightDeltas : List (Int × Int) :=
  [(2, 1), (2, -1), (-2, 1), (-2, -1), (1, 2), (1, -2), (-1, 2), (-1, -2)]

/-- The diagonal directions. -/
def diagDirs : List (Int × Int) := [(1, 1), (1, -1), (-1, 1), (-1, -1)]

/-- The orthogonal directions. -/
def orthoDirs : List (Int × Int) := [(1, 0), (-1, 0), (0, 1), (0, -1)]

/-- The offsets visited by `for dr=-1..1, for dc=-1..1, skip (0,0)`. -/
def kingDeltas : List (Int × Int) :=
  [(-1, -1), (-1, 0), (-1, 1), (0, -1), (0, 1), (1, -1), (1, 0), (1, 1)]

/-- One ray of `isSquareAttacked`: the `while(isInside(nr,nc))` loop started at
`(nr,nc)`, looking for a piece of the attacking colour whose lower-case letter
is `k1` or `k2`. -/
def attackRay (b : Board) (byWhite : Bool) (k1 k2 : Char) (dr dc : Int) :
    Nat → Int → Int → Bool
  | 0, _, _ => false
  | fuel + 1, nr, nc =>
    if isInside nr nc then
      let p := b.get nr nc
      if p != '.' then
        (if byWhite then isWhite p else isBlack p) && (p.toLower == k1 || p.toLower == k2)
      else attackRay b byWhite k1 k2 dr dc fuel (nr + dr) (nc + dc)
    else false

/-- `isSquareAttacked(r,c, byWhite, defendingWhite)`. -/
def isSquareAttacked (b : Board) (r c : Int) (byWhite defendingWhite : Bool) : Bool :=
  let _ := defendingWhite
  -- Pawns
  ([-1, 1].any fun (dc : Int) =>
      let pr := if byWhite then r + 1 else r - 1
      let pc := c + dc
      isInside pr pc && b.get pr pc == (if byWhite then 'P' else 'p'))
  -- Knights
  || (knightDeltas.any fun (d : Int × Int) =>
      let nr := r + d.1
      let nc := c + d.2
      isInside nr nc &&
        (let p := b.get nr nc
         p != '.' && (if byWhite then isWhite p else isBlack p) && p.toLower == 'n'))
  -- Bishops/Queens (diagonals)
  || (diagDirs.any fun (d : Int × Int) =>
      attackRay b byWhite 'b' 'q' d.1 d.2 8 (r + d.1) (c + d.2))
  -- Rooks/Queens (straight)
  || (orthoDirs.any fun (d : Int × Int) =>
      attackRay b byWhite 'r' 'q' d.1 d.2 8 (r + d.1) (c + d.2))
  -- King (adjacent)
  || (kingDeltas.any fun (d : Int × Int) =>
      let nr := r + d.1
      let nc := c + d.2
      isInside nr nc &&
        (let p := b.get nr nc
         p != '.' && (if byWhite then isWhite p else isBlack p) && p.toLower == 'k'))

/-- `findKing(white)`: the first square in row-major order holding the king, or `[-1,-1]`. -/
def findKing (b : Board) (white : Bool) : Square :=
  let target := if white then 'K' else 'k'
  match allSquares.find? (fun sq => b.get sq.1 sq.2 == target) with
  | some sq => sq
  | none => (-1, -1)

/-- `isOwnKingInCheck(white)`. -/
def isOwnKingInCheck (b : Board) (white : Bool) : Bool :=
  let k := findKing b white
  isSquareAttacked b k.1 k.2 (!white) white

/-! ## Trial application and the self-check filter -/

/-- `applyMoveForTest(sr,sc,tr,tc)`: only `board` is assigned. -/
def applyMoveForTest (s : State) (sr sc tr tc : Int) : State :=
  let piece := s.board.get sr sc
  let white := isWhite piece
  let dir : Int := if white then -1 else 1
  -- en passant capture
  let b1 :=
    if piece.toLower == 'p' && sc != tc && s.board.get tr tc == '.'
        && s.enPassant == some (tr, tc) then
      s.board.set (tr - dir) tc '.'
    else s.board
  -- castling
  let b2 :=
    if piece.toLower == 'k' && (tc - sc).natAbs == 2 then
      if tc == 6 && white then
        let b := (b1.set 7 6 piece).set 7 4 '.'
        (b.set 7 5 (b.get 7 7)).set 7 7 '.'
      else if tc == 2 && white then
        let b := (b1.set 7 2 piece).set 7 4 '.'
        (b.set 7 3 (b.get 7 0)).set 7 0 '.'
      else if tc == 6 && !white then
        let b := (b1.set 0 6 piece).set 0 4 '.'
        (b.set 0 5 (b.get 0 7)).set 0 7 '.'
      else if tc == 2 && !white then
        let b := (b1.set 0 2 piece).set 0 4 '.'
        (b.set 0 3 (b.get 0 0)).set 0 0 '.'
      else b1
    else (b1.set tr tc piece).set sr sc '.'
  -- Promotion assumed to queen for test
  let b3 := if piece == 'P' && tr == 0 then b2.set tr tc 'Q' else b2
  let b4 := if piece == 'p' && tr == 7 then b3.set tr tc 'q' else b3
  { s with board := b4 }

/-- The object `makeSnapshot()` returns. -/
structure Snapshot where
  board : Board
  enPassant : Option Square
  whiteToMove : Bool
  castle : CastleRights

/-- `makeSnapshot()`. -/
def makeSnapshot (s : State) : Snapshot :=
  ⟨s.board, s.enPassant, s.whiteToMove, s.castle⟩

/-- `restoreSnapshot(s)`. -/
def restoreSnapshot (s : State) (snap : Snapshot) : State :=
  { s with board := snap.board, enPassant := snap.enPassant,
           whiteToMove := snap.whiteToMove, castle := snap.castle }

/-- The loop of `filterSelfCheckMoves(r,c,moves)`, threading the state through
snapshot, trial move and restore; returns the final state and `legal`. -/
def filterSelfCheckLoop (s : State) (r c : Int) (moves : List Square) : State × List Square :=
  let piece := s.board.get r c
  moves.foldl
    (fun (acc : State × List Square) (m : Square) =>
      let snap := makeSnapshot acc.1
      let s1 := applyMoveForTest acc.1 r c m.1 m.2
      let inCheck := isOwnKingInCheck s1.board (isWhite piece)
      let s2 := restoreSnapshot s1 snap
      (s2, if !inCheck then acc.2 ++ [m] else acc.2))
    (s, [])

/-- `filterSelfCheckMoves(r,c,moves)`: the list it returns. -/
def filterSelfCheckMoves (s : State) (r c : Int) (moves : List Square) : List Square :=
  (filterSelfCheckLoop s r c moves).2

/-! ## Move generator -/

/-- The closure `add` of `legalMoves`: pushes `[tr,tc]` when it is on the board
and empty or held by the other colour. -/
def add (b : Board) (white : Bool) (moves : List Square) (tr tc : Int) : List Square :=
  if !isInside tr tc then moves
  else
    let target := b.get tr tc
    if target == '.' || (if white then isBlack target else isWhite target) then
      moves ++ [(tr, tc)]
    else moves

/-- The `case 'p'` block of `legalMoves`. -/
def pawnMoves (b : Board) (enPassant : Option Square) (r c : Int) (white : Bool) :
    List Square :=
  let dir : Int := if white then -1 else 1
  -- forward
  let fr := r + dir
  let moves : List Square :=
    if isInside fr c && b.get fr c == '.' then
      let moves := add b white [] fr c
      let startRow : Int := if white then 6 else 1
      let fr2 := r + 2 * dir
      if r == startRow && b.get fr2 c == '.' then add b white moves fr2 c else moves
    else []
  -- captures
  [-1, 1].foldl
    (fun (moves : List Square) (dc : Int) =>
      let tr := r + dir
      let tc := c + dc
      if isInside tr tc then
        let t := b.get tr tc
        let moves :=
          if t != '.' && (if white then isBlack t else isWhite t) then add b white moves tr tc
          else moves
        -- en passant capture into empty square
        if t == '.' && enPassant == some (tr, tc) then add b white moves tr tc else moves
      else moves)
    moves

/-- The `case 'n'` block of `legalMoves`. -/
def knightMoves (b : Board) (r c : Int) (white : Bool) : List Square :=
  knightDeltas.foldl (fun moves d => add b white moves (r + d.1) (c + d.2)) []

/-- One ray of the `case 'b'` / `case 'r'` blocks: the `while(isInside(tr,tc))`
loop started at `(tr,tc)`. -/
def slideLoop (b : Board) (white : Bool) (dr dc : Int) :
    Nat → Int → Int → List Square → List Square
  | 0, _, _, moves => moves
  | fuel + 1, tr, tc, moves =>
    if isInside tr tc then
      if b.get tr tc == '.' then
        slideLoop b white dr dc fuel (tr + dr) (tc + dc) (moves ++ [(tr, tc)])
      else if (if white then isBlack (b.get tr tc) else isWhite (b.get tr tc)) then
        moves ++ [(tr, tc)]
      else moves
    else moves

/-- The `case 'b'` and `case 'r'` blocks of `legalMoves`, for the given directions. -/
def slideMoves (b : Board) (r c : Int) (white : Bool) (dirs : List (Int × Int)) :
    List Square :=
  dirs.foldl (fun moves d => slideLoop b white d.1 d.2 8 (r + d.1) (c + d.2) moves) []

/-- The closure `push` of `legalMovesFor`: the new list and the value returned
(an off-board square returns `undefined`, which the caller treats as `false`). -/
def legalMovesForPush (b : Board) (white : Bool) (moves : List Square) (tr tc : Int) :
    List Square × Bool :=
  if !isInside tr tc then (moves, false)
  else
    let t := b.get tr tc
    if t == '.' then (moves ++ [(tr, tc)], true)
    else if (if white then isBlack t else isWhite t) then (moves ++ [(tr, tc)], false)
    else (moves, false)

/-- One ray of `legalMovesFor`. -/
def legalMovesForLoop (b : Board) (white : Bool) (dr dc : Int) :
    Nat → Int → Int → List Square → List Square
  | 0, _, _, moves => moves
  | fuel + 1, tr, tc, moves =>
    if isInside tr tc then
      let res := legalMovesForPush b white moves tr tc
      if !res.2 then res.1
      else legalMovesForLoop b white dr dc fuel (tr + dr) (tc + dc) res.1
    else moves

/-- `legalMovesFor(kind,r,c,white)`. -/
def legalMovesFor (b : Board) (kind : Char) (r c : Int) (white : Bool) : List Square :=
  let dirs := if kind == 'r' then orthoDirs else diagDirs
  dirs.foldl (fun moves d => legalMovesForLoop b white d.1 d.2 8 (r + d.1) (c + d.2) moves) []

/-- The `case 'k'` block of `legalMoves`. -/
def kingMoves (b : Board) (castle : CastleRights) (r c : Int) (white : Bool) : List Square :=
  let moves : List Square :=
    kingDeltas.foldl (fun moves d => add b white moves (r + d.1) (c + d.2)) []
  -- Castling: squares must be empty and not attacked, and rights available
  if white then
    let moves :=
      if castle.wK && b.get 7 5 == '.' && b.get 7 6 == '.'
          && !isSquareAttacked b 7 4 false true && !isSquareAttacked b 7 5 false true
          && !isSquareAttacked b 7 6 false true then
        moves ++ [(7, 6)]
      else moves
    if castle.wQ && b.get 7 1 == '.' && b.get 7 2 == '.' && b.get 7 3 == '.'
        && !isSquareAttacked b 7 4 false true && !isSquareAttacked b 7 3 false true
        && !isSquareAttacked b 7 2 false true then
      moves ++ [(7, 2)]
    else moves
  else
    let moves :=
      if castle.bK && b.get 0 5 == '.' && b.get 0 6 == '.'
          && !isSquareAttacked b 0 4 true false && !isSquareAttacked b 0 5 true false
          && !isSquareAttacked b 0 6 true false then
        moves ++ [(0, 6)]
      else moves
    if castle.bQ && b.get 0 1 == '.' && b.get 0 2 == '.' && b.get 0 3 == '.'
        && !isSquareAttacked b 0 4 true false && !isSquareAttacked b 0 3 true false
        && !isSquareAttacked b 0 2 true false then
      moves ++ [(0, 2)]
    else moves

/-- The candidate list `legalMoves(r,c)` hands to `filterSelfCheckMoves`: the
`switch(ch.toLowerCase())` on the piece of an occupied square. -/
def pseudoLegalMoves (s : State) (r c : Int) : List Square :=
  let ch := s.board.get r c
  let white := isWhite ch
  let kind := ch.toLower
  if kind == 'p' then pawnMoves s.board s.enPassant r c white
  else if kind == 'n' then knightMoves s.board r c white
  else if kind == 'b' then slideMoves s.board r c white diagDirs
  else if kind == 'r' then slideMoves s.board r c white orthoDirs
  else if kind == 'q' then
    legalMovesFor s.board 'r' r c white ++ legalMovesFor s.board 'b' r c white
  else if kind == 'k' then kingMoves s.board s.castle r c white
  else []

/-- `legalMoves(r,c)`. -/
def legalMoves (s : State) (r c : Int) : List Square :=
  if s.board.get r c == '.' then []
  else filterSelfCheckMoves s r c (pseudoLegalMoves s r c)

/-- `hasAnyLegalMoves(forWhite)`. -/
def hasAnyLegalMoves (s : State) (forWhite : Bool) : Bool :=
  idx.any fun r => idx.any fun c =>
    let p := s.board.get r c
    if p == '.' then false
    else if forWhite && !isWhite p then false
    else if !forWhite && !isBlack p then false
    else decide ((legalMoves s r c).length > 0)

/-! ## Move applier -/

/-- The castling-rights part of `move` that looks at the destination corner
(also the whole rights update of `finishPromotion`). -/
def revokeOnCapture (b : Board) (tr tc : Int) (ca : CastleRights) : CastleRights :=
  let ca := if tr == 7 && tc == 0 && b.get tr tc != 'R' then { ca with wQ := false } else ca
  let ca := if tr == 7 && tc == 7 && b.get tr tc != 'R' then { ca with wK := false } else ca
  let ca := if tr == 0 && tc == 0 && b.get tr tc != 'r' then { ca with bQ := false } else ca
  if tr == 0 && tc == 7 && b.get tr tc != 'r' then { ca with bK := false } else ca

/-- `move(sr,sc,tr,tc)`. -/
def move (s : State) (sr sc tr tc : Int) : State :=
  let piece := s.board.get sr sc
  let white := isWhite piece
  let dir : Int := if white then -1 else 1
  let capture0 := s.board.get tr tc != '.'
  -- En passant capture
  let isEp := piece.toLower == 'p' && sc != tc && s.board.get tr tc == '.'
      && s.enPassant == some (tr, tc)
  let b1 := if isEp then s.board.set (tr - dir) tc '.' else s.board
  let capture := if isEp then true else capture0
  -- Castling move (king two squares)
  let b2 :=
    if piece.toLower == 'k' && (tc - sc).natAbs == 2 then
      if tc == 6 && white then
        let b := (b1.set tr tc piece).set sr sc '.'
        (b.set 7 5 (b.get 7 7)).set 7 7 '.'
      else if tc == 2 && white then
        let b := (b1.set tr tc piece).set sr sc '.'
        (b.set 7 3 (b.get 7 0)).set 7 0 '.'
      else if tc == 6 && !white then
        let b := (b1.set tr tc piece).set sr sc '.'
        (b.set 0 5 (b.get 0 7)).set 0 7 '.'
      else if tc == 2 && !white then
        let b := (b1.set tr tc piece).set sr sc '.'
        (b.set 0 3 (b.get 0 0)).set 0 0 '.'
      else b1
    else (b1.set tr tc piece).set sr sc '.'
  -- Promotion (auto-queen)
  let b3 := if piece == 'P' && tr == 0 then b2.set tr tc 'Q' else b2
  let b4 := if piece == 'p' && tr == 7 then b3.set tr tc 'q' else b3
  -- Set/clear en passant
  let ep : Option Square :=
    if piece.toLower == 'p' && (tr - sr).natAbs == 2 then some (sr + dir, sc) else none
  -- Update castling rights
  let ca := s.castle
  let ca := if piece == 'K' then { ca with wK := false, wQ := false } else ca
  let ca := if piece == 'k' then { ca with bK := false, bQ := false } else ca
  let ca := if piece == 'R' && sr == 7 && sc == 0 then { ca with wQ := false } else ca
  let ca := if piece == 'R' && sr == 7 && sc == 7 then { ca with wK := false } else ca
  let ca := if piece == 'r' && sr == 0 && sc == 0 then { ca with bQ := false } else ca
  let ca := if piece == 'r' && sr == 0 && sc == 7 then { ca with bK := false } else ca
  -- If a rook was captured, update rights as well
  let ca := revokeOnCapture b4 tr tc ca
  -- track last move and pending notation
  let isCastle : Option Char :=
    if piece.toUpper == 'K' && (tc - sc).natAbs == 2 then
      some (if tc > sc then 'K' else 'Q')
    else none
  let colorCode := if isWhite piece then "w" else "b"
  let promoType : Option Char :=
    if piece == 'P' && tr == 0 then some 'Q'
    else if piece == 'p' && tr == 7 then some 'q'
    else none
  let pieceTypeAfter : Char :=
    match promoType with
    | some t => t.toUpper
    | none => piece.toUpper
  { s with
    board := b4
    enPassant := ep
    castle := ca
    lastMove := some ((sr, sc), (tr, tc))
    pendingJustMoved := some
      { src := (sr, sc), dst := (tr, tc), piece := piece, capture := capture,
        promo := promoType, castle := isCastle,
        pieceClass := colorCode ++ String.singleton pieceTypeAfter } }

/-- The squares `move(sr,sc,tr,tc)` indexes are all on the board: source and
destination, and the square cleared by an en-passant capture when that branch
is taken (the source raises a `TypeError` when that row does not exist). -/
def moveInBounds (s : State) (sr sc tr tc : Int) : Bool :=
  let piece := s.board.get sr sc
  let dir : Int := if isWhite piece then -1 else 1
  isInside sr sc && isInside tr tc &&
    (if piece.toLower == 'p' && sc != tc && s.board.get tr tc == '.'
        && s.enPassant == some (tr, tc) then isInside (tr - dir) tc else true)

/-! ## Game-end evaluator -/

/-- `updateStatus()`, the part of `render()` that writes to the state. -/
def updateStatus (s : State) : State :=
  if s.gameOver then s
  else
    let side := if s.whiteToMove then "White" else "Black"
    if (s.whiteToMove && s.checkState.whiteInCheck)
        || (!s.whiteToMove && s.checkState.blackInCheck) then
      { s with status := side ++ " to move • Check" }
    else { s with status := side ++ " to move" }

/-- `render()`: apart from the DOM it only calls `updateStatus()`. -/
def render (s : State) : State := updateStatus s

/-- `squareName(r,c)` for a square of the board. -/
def squareName (r c : Int) : String :=
  String.singleton (Char.ofNat (97 + c.toNat)) ++ toString (8 - r)

/-- `annotateAndRecordLastMove(isCheck, isMate)`. -/
def annotateAndRecordLastMove (s : State) (isCheck isMate : Bool) : State :=
  match s.pendingJustMoved with
  | none => s
  | some pm =>
    let fromSq := squareName pm.src.1 pm.src.2
    let toSq := squareName pm.dst.1 pm.dst.2
    -- Build SAN-like
    let san : String :=
      match pm.castle with
      | some side => if side == 'K' then "O-O" else "O-O-O"
      | none =>
        let pieceType := pm.piece.toUpper
        let isPawn := pieceType == 'P'
        let san := ""
        let san :=
          if !isPawn then
            san ++ (if ['R', 'N', 'B', 'Q', 'K'].contains pieceType then
              String.singleton pieceType else "")
          else san
        let san :=
          if pm.capture then
            (if isPawn then san ++ (fromSq.take 1) else san) ++ "x"
          else san
        let san := san ++ toSq
        match pm.promo with
        | some t => san ++ "=" ++ String.singleton t.toUpper
        | none => san
    let san := if isMate then san ++ "#" else if isCheck then san ++ "+" else san
    let color := if isWhite pm.piece then "white" else "black"
    let num := if color == "white" then s.plyCount / 2 + 1 else (s.plyCount + 1) / 2
    let text := fromSq ++ (if pm.capture then "x" else "-") ++ toSq
    { s with
      pendingJustMoved := none
      moveHistory := s.moveHistory ++
        [{ num := num, color := color, text := text, san := san,
           pieceClass := pm.pieceClass, src := pm.src, dst := pm.dst }]
      plyCount := s.plyCount + 1 }

/-- The body of `postMoveUpdate()` up to and including the call of
`annotateAndRecordLastMove`: the side to move flips, both check flags are
recomputed and a side without a legal move ends the game.  (Clock and engine
calls are outside the embedding.) -/
def postMoveEvaluate (s : State) : State :=
  -- Toggle side
  let s := { s with whiteToMove := !s.whiteToMove }
  -- Update check state for side to move
  let s := { s with checkState :=
    { whiteInCheck := isOwnKingInCheck s.board true
      blackInCheck := isOwnKingInCheck s.board false } }
  -- Determine if side to move has any legal moves
  let anyMoves := hasAnyLegalMoves s s.whiteToMove
  let s :=
    if !anyMoves then
      let inCheck := if s.whiteToMove then s.checkState.whiteInCheck
        else s.checkState.blackInCheck
      if inCheck then
        { s with gameOver := true
                 status := (if s.whiteToMove then "Black" else "White") ++ " wins • Checkmate" }
      else { s with gameOver := true, status := "Draw • Stalemate" }
    else s
  -- Record move notation for the move that just happened
  annotateAndRecordLastMove s
    (!s.gameOver && (if s.whiteToMove then s.checkState.whiteInCheck
      else s.checkState.blackInCheck))
    (!anyMoves)

/-- `openPromotion(white, moveInfo)`. -/
def openPromotion (s : State) (white : Bool) (sr sc tr tc : Int) : State :=
  { s with promotionPending := some ⟨sr, sc, tr, tc, white⟩ }

/-- `clearPremove()`. -/
def clearPremove (s : State) : State := render { s with premove := none }

/-- `tryApplyPremove()`, with the `postMoveUpdate` it calls passed as `post`:
the new state and the value returned. -/
def tryApplyPremove (post : State → State) (s : State) : State × Bool :=
  match s.premove with
  | none => (s, false)
  | some pm =>
    let myTurnNow := (s.whiteToMove && pm.white) || (!s.whiteToMove && !pm.white)
    if !myTurnNow then (s, false)
    else
      let sr := pm.src.1
      let sc := pm.src.2
      let tr := pm.dst.1
      let tc := pm.dst.2
      if s.board.get sr sc == '.' || isWhite (s.board.get sr sc) != pm.white then
        (clearPremove s, false)
      else
        let moves := legalMoves s sr sc
        if moves.any (fun m => m.1 == tr && m.2 == tc) then
          let moving := s.board.get sr sc
          let isPromo := (moving == 'P' && tr == 0) || (moving == 'p' && tr == 7)
          if isPromo then
            (clearPremove (openPromotion s (isWhite moving) sr sc tr tc), true)
          else
            (post (clearPremove (move s sr sc tr tc)), true)
        else (clearPremove s, false)

/-- `postMoveUpdate()` with a budget for its recursion through
`tryApplyPremove()` (a premove is cleared when it is applied, so the nested
call finds none and the recursion stops at depth 2). -/
def postMoveUpdateAux : Nat → State → State
  | 0, s => s
  | fuel + 1, s =>
    let s := postMoveEvaluate s
    -- If no end, attempt premove
    if !s.gameOver then
      let res := tryApplyPremove (postMoveUpdateAux fuel) s
      if res.2 then res.1 else render res.1
    else render s

/-- `postMoveUpdate()`. -/
def postMoveUpdate (s : State) : State := postMoveUpdateAux 2 s

/-- The body of `finishPromotion(type)` for the pending promotion `p`, up to its
call of `postMoveUpdate()`: the state that call starts from. -/
def promotionPlaced (s : State) (p : PromotionPending) (type : Char) : State :=
  let moving := s.board.get p.sr p.sc
  let dir : Int := if p.white then -1 else 1
  let capture0 := s.board.get p.tr p.tc != '.'
  let isEp := moving.toLower == 'p' && p.sc != p.tc && s.board.get p.tr p.tc == '.'
      && s.enPassant == some (p.tr, p.tc)
  let b1 := if isEp then s.board.set (p.tr - dir) p.tc '.' else s.board
  let capture := if isEp then true else capture0
  let b2 := b1.set p.tr p.tc (if p.white then type else type.toLower)
  let b3 := b2.set p.sr p.sc '.'
  let colorCode := if p.white then "w" else "b"
  { s with
    board := b3
    -- Clear en passant
    enPassant := none
    -- Update castling rights if rook captured on rook squares
    castle := revokeOnCapture b3 p.tr p.tc s.castle
    selected := none
    highlighted := []
    promotionPending := none
    lastMove := some ((p.sr, p.sc), (p.tr, p.tc))
    pendingJustMoved := some
      { src := (p.sr, p.sc), dst := (p.tr, p.tc), piece := moving, capture := capture,
        promo := some (if p.white then type else type.toLower), castle := none,
        pieceClass := colorCode ++ String.singleton type } }

/-- `finishPromotion(type)`. -/
def finishPromotion (s : State) (type : Char) : State :=
  match s.promotionPending with
  | none => s
  | some p => postMoveUpdate (promotionPlaced s p type)

/-! ## Reachable positions -/

/-- The piece on `(r,c)` belongs to the side to move. -/
def ownPiece (s : State) (r c : Int) : Bool :=
  let ch := s.board.get r c
  ch != '.' && ((s.whiteToMove && isWhite ch) || (!s.whiteToMove && isBlack ch))

/-- The move `(sr,sc) -> (tr,tc)` carries a pawn to its final rank. -/
def isPromo (s : State) (sr sc tr : Int) : Bool :=
  (s.board.get sr sc == 'P' && tr == 0) || (s.board.get sr sc == 'p' && tr == 7)

/-- The states reached from the initial position by legal moves of the side to
move: a ply is `move` followed by `postMoveUpdate` (as the click, drop, premove
and engine paths run it, a pawn reaching its final rank becoming a queen), or,
for a pawn reaching its final rank, `openPromotion` followed by
`finishPromotion` with one of the four offered piece types. -/
inductive Reachable : State → Prop
  | init : Reachable initialState
  | ply (s : State) (sr sc tr tc : Int) :
      Reachable s → isInside sr sc = true → ownPiece s sr sc = true →
      (tr, tc) ∈ legalMoves s sr sc →
      Reachable (postMoveUpdate (move s sr sc tr tc))
  | promote (s : State) (sr sc tr tc : Int) (type : Char) :
      Reachable s → isInside sr sc = true → ownPiece s sr sc = true →
      (tr, tc) ∈ legalMoves s sr sc → isPromo s sr sc tr = true →
      type ∈ ['Q', 'R', 'B', 'N'] →
      Reachable (finishPromotion
        (openPromotion s (isWhite (s.board.get sr sc)) sr sc tr tc) type)

/-! ## The attack relation in the words of the specification -/

/-- The cell of a piece of kind `kind` (a lower-case letter) of the given colour:
upper case for White, lower case for Black. -/
def pieceOf (white : Bool) (kind : Char) : Char := if white then kind.toUpper else kind

/-- The square `(r,c)` is attacked by the colour `byWhite` in the sense of the
specification: the board holds a piece of that colour that is a pawn one row
below `(r,c)` (White) or above it (Black) on an adjacent file; or a knight at
an L-shaped offset; or a bishop or queen on a diagonal ray from `(r,c)`, or a
rook or queen on an orthogonal ray, with every square strictly between empty;
or a king on an adjacent square. -/
def AttackedSpec (b : Board) (r c : Int) (byWhite : Bool) : Prop :=
  (∃ pc : Int, (pc = c - 1 ∨ pc = c + 1) ∧
      isInside (if byWhite then r + 1 else r - 1) pc = true ∧
      b.get (if byWhite then r + 1 else r - 1) pc = pieceOf byWhite 'p')
  ∨ (∃ dr dc : Int, ((dr.natAbs = 1 ∧ dc.natAbs = 2) ∨ (dr.natAbs = 2 ∧ dc.natAbs = 1)) ∧
      isInside (r + dr) (c + dc) = true ∧ b.get (r + dr) (c + dc) = pieceOf byWhite 'n')
  ∨ (∃ (dr dc : Int) (k : Nat), dr.natAbs = 1 ∧ dc.natAbs = 1 ∧ 1 ≤ k ∧
      isInside (r + k * dr) (c + k * dc) = true ∧
      (b.get (r + k * dr) (c + k * dc) = pieceOf byWhite 'b' ∨
        b.get (r + k * dr) (c + k * dc) = pieceOf byWhite 'q') ∧
      ∀ j : Nat, 1 ≤ j → j < k → b.get (r + j * dr) (c + j * dc) = '.')
  ∨ (∃ (dr dc : Int) (k : Nat), dr.natAbs + dc.natAbs = 1 ∧ 1 ≤ k ∧
      isInside (r + k * dr) (c + k * dc) = true ∧
      (b.get (r + k * dr) (c + k * dc) = pieceOf byWhite 'r' ∨
        b.get (r + k * dr) (c + k * dc) = pieceOf byWhite 'q') ∧
      ∀ j : Nat, 1 ≤ j → j < k → b.get (r + j * dr) (c + j * dc) = '.')
  ∨ (∃ dr dc : Int, dr.natAbs ≤ 1 ∧ dc.natAbs ≤ 1 ∧ (dr ≠ 0 ∨ dc ≠ 0) ∧
      isInside (r + dr) (c + dc) = true ∧ b.get (r + dr) (c + dc) = pieceOf byWhite 'k')

/-! ## The phases of the board update, named for the proofs -/

/-- The board after the en-passant phase shared by `move`, `applyMoveForTest`
and `finishPromotion`. -/
def epStage (b : Board) (ep : Option Square) (piece : Char) (dir sc tr tc : Int) : Board :=
  if piece.toLower == 'p' && sc != tc && b.get tr tc == '.' && ep == some (tr, tc) then
    b.set (tr - dir) tc '.'
  else b

/-- The board after the castling-or-plain phase of `move`. -/
def placeStage (b1 : Board) (piece : Char) (white : Bool) (sr sc tr tc : Int) : Board :=
  if piece.toLower == 'k' && (tc - sc).natAbs == 2 then
    if tc == 6 && white then
      let b := (b1.set tr tc piece).set sr sc '.'
      (b.set 7 5 (b.get 7 7)).set 7 7 '.'
    else if tc == 2 && white then
      let b := (b1.set tr tc piece).set sr sc '.'
      (b.set 7 3 (b.get 7 0)).set 7 0 '.'
    else if tc == 6 && !white then
      let b := (b1.set tr tc piece).set sr sc '.'
      (b.set 0 5 (b.get 0 7)).set 0 7 '.'
    else if tc == 2 && !white then
      let b := (b1.set tr tc piece).set sr sc '.'
      (b.set 0 3 (b.get 0 0)).set 0 0 '.'
    else b1
  else (b1.set tr tc piece).set sr sc '.'

/-- The board after the castling-or-plain phase of `applyMoveForTest`. -/
def placeStageTest (b1 : Board) (piece : Char) (white : Bool) (sr sc tr tc : Int) : Board :=
  if piece.toLower == 'k' && (tc - sc).natAbs == 2 then
    if tc == 6 && white then
      let b := (b1.set 7 6 piece).set 7 4 '.'
      (b.set 7 5 (b.get 7 7)).set 7 7 '.'
    else if tc == 2 && white then
      let b := (b1.set 7 2 piece).set 7 4 '.'
      (b.set 7 3 (b.get 7 0)).set 7 0 '.'
    else if tc == 6 && !white then
      let b := (b1.set 0 6 piece).set 0 4 '.'
      (b.set 0 5 (b.get 0 7)).set 0 7 '.'
    else if tc == 2 && !white then
      let b := (b1.set 0 2 piece).set 0 4 '.'
      (b.set 0 3 (b.get 0 0)).set 0 0 '.'
    else b1
  else (b1.set tr tc piece).set sr sc '.'

/-- The board after the auto-queen phase of `move` and `applyMoveForTest`. -/
def queenStage (b2 : Board) (piece : Char) (tr tc : Int) : Board :=
  let b3 := if piece == 'P' && tr == 0 then b2.set tr tc 'Q' else b2
  if piece == 'p' && tr == 7 then b3.set tr tc 'q' else b3

/-- The castling rights after the part of `move` that looks at the moved piece
and its source square. -/
def castleAfterSource (ca : CastleRights) (piece : Char) (sr sc : Int) : CastleRights :=
  let ca := if piece == 'K' then { ca with wK := false, wQ := false } else ca
  let ca := if piece == 'k' then { ca with bK := false, bQ := false } else ca
  let ca := if piece == 'R' && sr == 7 && sc == 0 then { ca with wQ := false } else ca
  let ca := if piece == 'R' && sr == 7 && sc == 7 then { ca with wK := false } else ca
  let ca := if piece == 'r' && sr == 0 && sc == 0 then { ca with bQ := false } else ca
  if piece == 'r' && sr == 0 && sc == 7 then { ca with bK := false } else ca

/-- The direction `dir` of a piece: `-1` for a white cell, `1` otherwise. -/
def dirOf (piece : Char) : Int := if isWhite piece then -1 else 1

/-! ## The invariant of reachable states -/

/-- What every reachable state satisfies: no premove is stored; an en-passant
target lies on row 5 behind a white pawn on row 4 with Black to move, or on row
2 behind a black pawn on row 3 with White to move, and is empty; while White
holds a castling right the only white king is on e1, and likewise for Black on
e8. -/
structure Inv (s : State) : Prop where
  premove_none : s.premove = none
  ep_ok : ∀ r c, s.enPassant = some (r, c) → 0 ≤ c ∧ c < 8 ∧
    ((r = 5 ∧ s.whiteToMove = false ∧ s.board.get 4 c = 'P' ∧ s.board.get 5 c = '.') ∨
     (r = 2 ∧ s.whiteToMove = true ∧ s.board.get 3 c = 'p' ∧ s.board.get 2 c = '.'))
  white_king_home : (s.castle.wK = true ∨ s.castle.wQ = true) →
    ∀ r c, isInside r c = true → s.board.get r c = 'K' → r = 7 ∧ c = 4
  black_king_home : (s.castle.bK = true ∨ s.castle.bQ = true) →
    ∀ r c, isInside r c = true → s.board.get r c = 'k' → r = 0 ∧ c = 4

/-! ## Commands from the board and from the engine -/

/-- `highlightMoves([r,c])`. -/
def highlightMoves (s : State) (r c : Int) : State :=
  { s with highlighted := legalMoves s r c }

/-- `setPremove(from,to)`. -/
def setPremove (s : State) (src dst : Square) : State :=
  let p := s.board.get src.1 src.2
  if p == '.' then s
  else
    let meWhite := isWhite p
    -- only allow setting premove if it's opponent's turn
    if (meWhite && s.whiteToMove) || (!meWhite && !s.whiteToMove) then s
    else render { s with premove := some ⟨src, dst, meWhite⟩ }

/-- `onSquareClick(e)` for the square `(r,c)` of the clicked element. -/
def onSquareClick (s : State) (r c : Int) : State :=
  if s.gameOver || s.promotionPending.isSome then s
  else
    let ch := s.board.get r c
    match s.selected with
    | none =>
      if ch == '.' then s
      else
        let s := { s with selected := some (r, c) }
        let s :=
          if (s.whiteToMove && isWhite ch) || (!s.whiteToMove && isBlack ch) then
            highlightMoves s r c
          else { s with highlighted := [] }
        render s
    | some (sr, sc) =>
      if sr == r && sc == c then render { s with selected := none }
      else
        let moves := legalMoves s sr sc
        if moves.any (fun m => m.1 == r && m.2 == c) then
          let moving := s.board.get sr sc
          let movingWhite := isWhite moving
          let isMyTurnNow := (s.whiteToMove && movingWhite) || (!s.whiteToMove && !movingWhite)
          if isMyTurnNow then
            let isPromo := (moving == 'P' && r == 0) || (moving == 'p' && r == 7)
            if isPromo then openPromotion s (isWhite moving) sr sc r c
            else
              postMoveUpdate { move s sr sc r c with selected := none, highlighted := [] }
          else
            -- Not your turn: store/overwrite single premove
            render { setPremove s (sr, sc) (r, c) with selected := none, highlighted := [] }
        else
          -- allow reselect own piece
          if (s.whiteToMove && isWhite ch) || (!s.whiteToMove && isBlack ch) then
            render (highlightMoves { s with selected := some (r, c) } r c)
          else
            let selPiece := s.board.get sr sc
            let selWhite := isWhite selPiece
            if selPiece != '.' && selWhite != s.whiteToMove then
              render { setPremove s (sr, sc) (r, c) with selected := none, highlighted := [] }
            else s

/-- `onDragStart(e,r,c)` (cells of the board are never the empty string, so
`if(!ch) return` does not fire). -/
def onDragStart (s : State) (r c : Int) : State :=
  if s.gameOver || s.promotionPending.isSome then s
  else { s with dragFrom := some (r, c) }

/-- `onDrop(e,r,c)`. -/
def onDrop (s : State) (r c : Int) : State :=
  match s.dragFrom with
  | none => s
  | some (sr, sc) =>
    let s := { s with dragFrom := none }
    if s.gameOver || s.promotionPending.isSome then s
    else
      let moves := legalMoves s sr sc
      if moves.any (fun m => m.1 == r && m.2 == c) then
        let moving := s.board.get sr sc
        let movingWhite := isWhite moving
        let isMyTurnNow := (s.whiteToMove && movingWhite) || (!s.whiteToMove && !movingWhite)
        if isMyTurnNow then
          let isPromo := (moving == 'P' && r == 0) || (moving == 'p' && r == 7)
          if isPromo then openPromotion s (isWhite moving) sr sc r c
          else
            postMoveUpdate { move s sr sc r c with selected := none, highlighted := [] }
        else
          -- Not your turn: store/overwrite single premove
          setPremove s (sr, sc) (r, c)
      else
        -- Not legal now: if not your turn, treat as premove attempt
        let moving := s.board.get sr sc
        let movingWhite := isWhite moving
        let isMyTurnNow := (s.whiteToMove && movingWhite) || (!s.whiteToMove && !movingWhite)
        if !isMyTurnNow then setPremove s (sr, sc) (r, c) else s

/-- `coordFromAlg(sq)` on the characters of `sq`: row `8 - rank` and column
`file`, each `none` where the source computes `NaN` (the character is missing). -/
def coordFromAlg (sq : List Char) : Option Int × Option Int :=
  let file : Option Int := (sq.get? 0).map fun ch => (ch.toNat : Int) - 97
  let rank : Option Int := (sq.get? 1).map fun ch => (ch.toNat : Int) - 48
  (rank.map fun k => 8 - k, file)

/-- `algFromCoord(r,c)` for a square of the board. -/
def algFromCoord (r c : Int) : String :=
  String.singleton (Char.ofNat (97 + c.toNat)) ++ toString (8 - r)

/-- `applyEngineMove(uci)` on the characters of `uci`; `none` stands for the
`TypeError` the source raises when it indexes a row that does not exist
(`board[sr]`, `board[tr]` or, in an en-passant capture, `board[tr - dir]`).  A
column off the board reads `undefined` (`undefinedCell`, the falsy value of the
test `!moving`) until a write there adds an element to the row. -/
def applyEngineMove (s : State) (uci : List Char) : Option State :=
  let src := coordFromAlg (uci.take 2)
  let dst := coordFromAlg ((uci.drop 2).take 2)
  let promo : Option Char := if uci.length > 4 then uci.get? 4 else none
  match src.1, src.2 with
  | some sr, some sc =>
    if !(decide (0 ≤ sr) && decide (sr < 8)) then none
    else
      let moving := s.board.get sr sc
      if moving == undefinedCell || moving == '.' then some s
      else
        match dst.1, dst.2 with
        | some tr, some tc =>
          if !(decide (0 ≤ tr) && decide (tr < 8)) then none
          else
            let dir : Int := if isWhite moving then -1 else 1
            if moving.toLower == 'p' && sc != tc && s.board.get tr tc == '.'
                && s.enPassant == some (tr, tc)
                && !(decide (0 ≤ tr - dir) && decide (tr - dir < 8)) then none
            else
              let isPromo := (moving == 'P' && tr == 0) || (moving == 'p' && tr == 7)
              let s1 := move s sr sc tr tc
              let s2 :=
                match promo with
                | some pr =>
                  if isPromo then
                    { s1 with board :=
                        s1.board.set tr tc (if moving == 'P' then pr.toUpper else pr.toLower) }
                  else s1
                | none => s1
              some (postMoveUpdate s2)
        | _, _ => none
  | _, _ => none

/-- Every castling right held in `a` is held in `b`. -/
def CastleRights.le (a b : CastleRights) : Prop :=
  (a.wK = true → b.wK = true) ∧ (a.wQ = true → b.wQ = true) ∧
  (a.bK = true → b.bK = true) ∧ (a.bQ = true → b.bQ = true)

/-! ## Positions used by the scenario theorems -/

/-- The position after 1.f3. -/
def foolsMate1 : State := postMoveUpdate (move initialState 6 5 5 5)

/-- The position after 1.f3 e5. -/
def foolsMate2 : State := postMoveUpdate (move foolsMate1 1 4 3 4)

/-- The position after 1.f3 e5 2.g4. -/
def foolsMate3 : State := postMoveUpdate (move foolsMate2 6 6 4 6)

/-- The position after 1.f3 e5 2.g4 Qh4. -/
def foolsMate4 : State := postMoveUpdate (move foolsMate3 0 3 4 7)

/-- White king a1, black king a3, black pawn a2; no castling rights, no
en-passant target; the side to move is given. -/
def kingPawnStalemate (whiteToMove : Bool) : State :=
  { initialState with
    board := Board.ofRows
      [ ['.', '.', '.', '.', '.', '.', '.', '.'],
        ['.', '.', '.', '.', '.', '.', '.', '.'],
        ['.', '.', '.', '.', '.', '.', '.', '.'],
        ['.', '.', '.', '.', '.', '.', '.', '.'],
        ['.', '.', '.', '.', '.', '.', '.', '.'],
        ['k', '.', '.', '.', '.', '.', '.', '.'],
        ['p', '.', '.', '.', '.', '.', '.', '.'],
        ['K', '.', '.', '.', '.', '.', '.', '.'] ]
    whiteToMove := whiteToMove
    castle := ⟨false, false, false, false⟩ }

/-- The position after 1.e4 (Black to move, en-passant target e3). -/
def afterE4 : State := postMoveUpdate (move initialState 6 4 4 4)

/-- The position after 1.e4 a6. -/
def afterE4A6 : State := postMoveUpdate (move afterE4 1 0 2 0)

/-- The position after 1.e4 a6 2.e5. -/
def afterE4A6E5 : State := postMoveUpdate (move afterE4A6 4 4 3 4)

/-- The position after 1.e4 a6 2.e5 d5 (White to move, en-passant target d6). -/
def epReady : State := postMoveUpdate (move afterE4A6E5 1 3 3 3)

/-- White king e1, black king g6, white pawn a7 with its promotion on a8
pending, and Black's stored premove h7-h5. -/
def promotionWithPremove : State :=
  { initialState with
    board := Board.ofRows
      [ ['.', '.', '.', '.', '.', '.', '.', '.'],
        ['P', '.', '.', '.', '.', '.', '.', 'p'],
        ['.', '.', '.', '.', '.', '.', 'k', '.'],
        ['.', '.', '.', '.', '.', '.', '.', '.'],
        ['.', '.', '.', '.', '.', '.', '.', '.'],
        ['.', '.', '.', '.', '.', '.', '.', '.'],
        ['.', '.', '.', '.', '.', '.', '.', '.'],
        ['.', '.', '.', '.', 'K', '.', '.', '.'] ]
    castle := ⟨false, false, false, false⟩
    promotionPending := some ⟨1, 0, 0, 0, true⟩
    premove := some ⟨(1, 7), (3, 7), false⟩ }

/-- Kings on e1 and e8, white rooks on a1 and h1, black rooks on b8 and f8, all
castling rights held, White to move: b1 and f1 are attacked by Black. -/
def castleProbe : State :=
  { initialState with
    board := Board.ofRows
      [ ['.', 'r', '.', '.', 'k', 'r', '.', '.'],
        ['.', '.', '.', '.', '.', '.', '.', '.'],
        ['.', '.', '.', '.', '.', '.', '.', '.'],
        ['.', '.', '.', '.', '.', '.', '.', '.'],
        ['.', '.', '.', '.', '.', '.', '.', '.'],
        ['.', '.', '.', '.', '.', '.', '.', '.'],
        ['.', '.', '.', '.', '.', '.', '.', '.'],
        ['R', '.', '.', '.', 'K', '.', '.', 'R'] ] }

/-! ## The generator as the source runs it: the state is threaded through -/

/-- `legalMoves(r,c)` with the state it leaves behind: the module variables
after the call, and the list returned. -/
def legalMovesRun (s : State) (r c : Int) : State × List Square :=
  if s.board.get r c == '.' then (s, [])
  else filterSelfCheckLoop s r c (pseudoLegalMoves s r c)

/-- `hasAnyLegalMoves(forWhite)` with the state it leaves behind: the two loops
run over the squares in order and stop at the first piece of the colour that
has a legal move. -/
def hasAnyLegalMovesRun (s : State) (forWhite : Bool) : State × Bool :=
  allSquares.foldl
    (fun (acc : State × Bool) (sq : Square) =>
      if acc.2 then acc
      else
        let p := acc.1.board.get sq.1 sq.2
        if p == '.' then acc
        else if forWhite && !isWhite p then acc
        else if !forWhite && !isBlack p then acc
        else
          let res := legalMovesRun acc.1 sq.1 sq.2
          (res.1, decide (res.2.length > 0)))
    (s, false)

/-- The position held by the state: the board, the side to move, the castling
rights, the en-passant target and `gameOver`. -/
def positionOf (s : State) : Board × Bool × CastleRights × Option Square × Bool :=
  (s.board, s.whiteToMove, s.castle, s.enPassant, s.gameOver)

/-- The inner loop of `toFEN` over the cells of one row: the characters of
`row` and the counter `empty` when the loop ends (`row += empty` appends the
decimal digits of the counter). -/
def fenRowLoop (cells : List Char) : List Char × Nat :=
  cells.foldl
    (fun (acc : List Char × Nat) (ch : Char) =>
      if ch == '.' then (acc.1, acc.2 + 1)
      else ((if acc.2 != 0 then acc.1 ++ Nat.toDigits 10 acc.2 else acc.1) ++ [ch], 0))
    ([], 0)

/-- The cells `board[r][0..7]`. -/
def rowCells (b : Board) (r : Int) : List Char := idx.map fun c => b.get r c

/-- The string pushed to `rows` for row `r`. -/
def fenRow (b : Board) (r : Int) : List Char :=
  let res := fenRowLoop (rowCells b r)
  if res.2 != 0 then res.1 ++ Nat.toDigits 10 res.2 else res.1

/-- The value of `placement`: `rows.join('/')`. -/
def fenPlacement (b : Board) : List Char :=
  List.intercalate ['/'] (idx.map fun r => fenRow b r)

/-- The value of `rights`. -/
def fenRights (ca : CastleRights) : List Char :=
  let rights : List Char := []
  let rights := if ca.wK then rights ++ ['K'] else rights
  let rights := if ca.wQ then rights ++ ['Q'] else rights
  let rights := if ca.bK then rights ++ ['k'] else rights
  let rights := if ca.bQ then rights ++ ['q'] else rights
  if rights.isEmpty then ['-'] else rights

/-- The value of `ep`. -/
def fenEnPassant (ep : Option Square) : List Char :=
  match ep with
  | some (r, c) => (algFromCoord r c).toList
  | none => ['-']

/-- The characters of the string `toFEN()` returns. -/
def toFENChars (s : State) : List Char :=
  let placement := fenPlacement s.board
  let side : List Char := if s.whiteToMove then ['w'] else ['b']
  let rights := fenRights s.castle
  let ep := fenEnPassant s.enPassant
  let half : Nat := 0
  let full : Nat := 1 + s.plyCount / 2
  placement ++ [' '] ++ side ++ [' '] ++ rights ++ [' '] ++ ep ++ [' ']
    ++ Nat.toDigits 10 half ++ [' '] ++ Nat.toDigits 10 full

/-- `toFEN()`. -/
def toFEN (s : State) : String := String.mk (toFENChars s)

/-- A cell of a chess board: a piece letter or `'.'`. -/
def isCell (ch : Char) : Bool :=
  ['.', 'p', 'r', 'n', 'b', 'q', 'k', 'P', 'R', 'N', 'B', 'Q', 'K'].contains ch

/-- Every square of the board holds a piece letter or `'.'`. -/
def ValidBoard (b : Board) : Prop :=
  ∀ r c : Int, isInside r c = true → isCell (b.get r c) = true

/-- The placement in the words of the specification, for one row: a piece
letter stands for itself, and each maximal run of `n` empty squares (one that is
not followed by another empty square) is written as the decimal digits of `n`. -/
inductive IsRunLength : List Char → List Char → Prop
  | nil : IsRunLength [] []
  | piece (ch : Char) (cells out : List Char) :
      ch ≠ '.' → IsRunLength cells out → IsRunLength (ch :: cells) (ch :: out)
  | run (n : Nat) (cells out : List Char) :
      1 ≤ n → cells.head? ≠ some '.' → IsRunLength cells out →
      IsRunLength (List.replicate n '.' ++ cells) (Nat.toDigits 10 n ++ out)

/-- Reading a rank string back: every digit `d` is replaced by `d` copies of `'.'`. -/
def expandRank (rank : List Char) : List Char :=
  rank.flatMap fun ch => if ch.isDigit then List.replicate (ch.toNat - 48) '.' else [ch]

/-- The encoding of a row whose first `n` squares are empty and whose other
squares are `cells`: the loop of `toFEN` with the counter at `n`, as a
recursion over the cells. -/
def fenFrom : Nat → List Char → List Char
  | n, [] => if n != 0 then Nat.toDigits 10 n else []
  | n, ch :: rest =>
    if ch == '.' then fenFrom (n + 1) rest
    else (if n != 0 then Nat.toDigits 10 n else []) ++ ch :: fenFrom 0 rest

/-! ## The class `ChessGame` of `src/chess.js` -/

/-- The fields of a `ChessGame` that its methods read and write: `board` is an
array of eight strings (`[...STARTING_POSITION]`). -/
structure ChessGame where
  board : List (List Char)
  currentTurn : String
  gameOver : Bool
deriving DecidableEq

/-- `new ChessGame()`. -/
def ChessGame.new : ChessGame where
  board := START
  currentTurn := "white"
  gameOver := false

/-- `this.board[r]`: `none` is `undefined`. -/
def ChessGame.row (g : ChessGame) (r : Int) : Option (List Char) :=
  if 0 ≤ r then g.board.get? r.toNat else none

/-- `row[c]` for a row string: `none` is `undefined`. -/
def charAt (row : List Char) (c : Int) : Option Char :=
  if 0 ≤ c then row.get? c.toNat else none

/-- The path loop of the rook and bishop cases of `isValidMove`: `some true`
when no square `from + i * dir`, `i` from `i` up to `n - 1`, holds a truthy
value, `some false` when one does, `none` when a row index leaves the board
(`TypeError`).  A character of a string is always truthy. -/
def pathClear (g : ChessGame) (fromRow fromCol dirRow dirCol : Int) (n : Nat) :
    Nat → Nat → Option Bool
  | 0, _ => some true
  | steps + 1, i =>
    if i < n then
      match g.row (fromRow + dirRow * i) with
      | none => none
      | some row =>
        match charAt row (fromCol + dirCol * i) with
        | some _ => some false
        | none => pathClear g fromRow fromCol dirRow dirCol n steps (i + 1)
    else some true

/-- `isValidMove(from, to)`: `none` is an exception (a `TypeError` from
indexing a row that does not exist, or the call stack running out in the queen
case, which calls `isValidMove` again; `fuel` bounds the depth of the calls). -/
def ChessGame.isValidMove (g : ChessGame) : Nat → Square → Square → Option Bool
  | 0, _, _ => none
  | fuel + 1, src, dst =>
    if g.gameOver then some false
    else
      match g.row src.1 with
      | none => none
      | some srcRow =>
        match charAt srcRow src.2 with
        | none => some false
        | some piece =>
          if some piece.toLower != g.currentTurn.toList.head? then some false
          else
            let fromRow := src.1
            let fromCol := src.2
            let toRow := dst.1
            let toCol := dst.2
            let pieceType := piece.toLower
            match g.row toRow with
            | none => none
            | some dstRow =>
              let targetPiece := charAt dstRow toCol
              if targetPiece.map Char.toLower == some pieceType then some false
              else if pieceType == 'p' then
                if piece == 'P' then
                  if fromRow == 6 && toRow == 4 && fromCol == toCol && targetPiece.isNone then
                    some true
                  else if fromRow - toRow == 1 && fromCol == toCol && targetPiece.isNone then
                    some true
                  else if fromRow - toRow == 1 && (fromCol - toCol).natAbs == 1
                      && targetPiece.isSome then some true
                  else some false
                else
                  if fromRow == 1 && toRow == 3 && fromCol == toCol && targetPiece.isNone then
                    some true
                  else if toRow - fromRow == 1 && fromCol == toCol && targetPiece.isNone then
                    some true
                  else if toRow - fromRow == 1 && (fromCol - toCol).natAbs == 1
                      && targetPiece.isSome then some true
                  else some false
              else if pieceType == 'r' then
                if fromRow == toRow || fromCol == toCol then
                  let rowDiff := (toRow - fromRow).natAbs
                  let colDiff := (toCol - fromCol).natAbs
                  let dirRow : Int := if toRow > fromRow then 1 else -1
                  let dirCol : Int := if toCol > fromCol then 1 else -1
                  pathClear g fromRow fromCol dirRow dirCol (max rowDiff colDiff)
                    (max rowDiff colDiff) 1
                else some false
              else if pieceType == 'n' then
                let rowDiff := (toRow - fromRow).natAbs
                let colDiff := (toCol - fromCol).natAbs
                some ((rowDiff == 2 && colDiff == 1) || (rowDiff == 1 && colDiff == 2))
              else if pieceType == 'b' then
                if (toRow - fromRow).natAbs == (toCol - fromCol).natAbs then
                  let dirRow : Int := if toRow > fromRow then 1 else -1
                  let dirCol : Int := if toCol > fromCol then 1 else -1
                  pathClear g fromRow fromCol dirRow dirCol (toRow - fromRow).natAbs
                    (toRow - fromRow).natAbs 1
                else some false
              else if pieceType == 'q' then
                match g.isValidMove fuel src (toRow, fromCol) with
                | none => none
                | some true => some true
                | some false =>
                  match g.isValidMove fuel src (fromRow, toCol) with
                  | none => none
                  | some true => some true
                  | some false => g.isValidMove fuel src (toRow, toCol)
              else if pieceType == 'k' then
                some (decide ((toRow - fromRow).natAbs ≤ 1) && decide ((toCol - fromCol).natAbs ≤ 1))
              else some false

/-- `makeMove(from, to)`: the game afterwards and the value returned; `none` is
an exception.  When `isValidMove` returns `true` the method goes on to assign
to a character of a row, `this.board[to[0]][to[1]] = ...`; the rows are
strings and the body of a class is strict code, so that assignment raises a
`TypeError`. -/
def ChessGame.makeMove (g : ChessGame) (fuel : Nat) (src dst : Square) :
    Option (ChessGame × Bool) :=
  match g.isValidMove fuel src dst with
  | none => none
  | some false => some (g, false)
  | some true => none

/-- A sequence of calls of `makeMove`, one for each pair of squares: the game
after them and the values they returned, `none` when one of them raises. -/
def ChessGame.play (fuel : Nat) : ChessGame → List (Square × Square) →
    Option (ChessGame × List Bool)
  | g, [] => some (g, [])
  | g, m :: rest =>
    match g.makeMove fuel m.1 m.2 with
    | none => none
    | some res => (ChessGame.play fuel res.1 rest).map fun out => (out.1, res.2 :: out.2)

/-! ## More positions used by the scenario theorems -/

/-- White king a1, black king b3, black pawn a2, Black to move, no castling
rights: the king move b3-a3 leaves White without a legal move and not in check. -/
def beforeStalemate : State :=
  { initialState with
    board := Board.ofRows
      [ ['.', '.', '.', '.', '.', '.', '.', '.'],
        ['.', '.', '.', '.', '.', '.', '.', '.'],
        ['.', '.', '.', '.', '.', '.', '.', '.'],
        ['.', '.', '.', '.', '.', '.', '.', '.'],
        ['.', '.', '.', '.', '.', '.', '.', '.'],
        ['.', 'k', '.', '.', '.', '.', '.', '.'],
        ['p', '.', '.', '.', '.', '.', '.', '.'],
        ['K', '.', '.', '.', '.', '.', '.', '.'] ]
    whiteToMove := false
    castle := ⟨false, false, false, false⟩ }

/-- White king e1, black king g6, white pawn a7, White to move, no castling
rights, nothing pending. -/
def pawnOnSeventh : State :=
  { initialState with
    board := Board.ofRows
      [ ['.', '.', '.', '.', '.', '.', '.', '.'],
        ['P', '.', '.', '.', '.', '.', '.', 'p'],
        ['.', '.', '.', '.', '.', '.', 'k', '.'],
        ['.', '.', '.', '.', '.', '.', '.', '.'],
        ['.', '.', '.', '.', '.', '.', '.', '.'],
        ['.', '.', '.', '.', '.', '.', '.', '.'],
        ['.', '.', '.', '.', '.', '.', '.', '.'],
        ['.', '.', '.', '.', 'K', '.', '.', '.'] ]
    castle := ⟨false, false, false, false⟩ }

/-! # Theorems -/

/-! ## The board -/

@[simp] theorem Board.get_set (b : Board) (r c : Int) (v : Char) (r' c' : Int) :
    (b.set r c v).get r' c' = if r' = r ∧ c' = c then v else b.get r' c' := rfl

theorem isInside_iff (r c : Int) :
    isInside r c = true ↔ 0 ≤ r ∧ r < 8 ∧ 0 ≤ c ∧ c < 8 := by
  simp [isInside, and_assoc]

theorem mem_idx_iff (r : Int) : r ∈ idx ↔ 0 ≤ r ∧ r < 8 := by
  simp only [idx, List.mem_cons, List.mem_singleton, List.not_mem_nil, or_false]
  omega

theorem mem_allSquares_iff (sq : Square) :
    sq ∈ allSquares ↔ isInside sq.1 sq.2 = true := by
  obtain ⟨r, c⟩ := sq
  simp only [allSquares, List.mem_flatMap, List.mem_map, Prod.mk.injEq, isInside_iff]
  constructor
  · rintro ⟨a, ha, b, hb, rfl, rfl⟩
    rw [mem_idx_iff] at ha hb
    omega
  · intro h
    exact ⟨r, (mem_idx_iff r).2 ⟨h.1, h.2.1⟩, c, (mem_idx_iff c).2 ⟨h.2.2.1, h.2.2.2⟩, rfl, rfl⟩

/-! ## The self-check filter restores the state -/

theorem restore_applyMoveForTest (s : State) (sr sc tr tc : Int) :
    restoreSnapshot (applyMoveForTest s sr sc tr tc) (makeSnapshot s) = s := rfl

theorem foldl_filter_state {σ α : Type} (s : σ) (p : α → Bool) (f : σ × List α → α → σ × List α)
    (hf : ∀ acc m, f (s, acc) m = (s, if p m then acc ++ [m] else acc)) (l : List α) :
    ∀ acc, l.foldl f (s, acc) = (s, acc ++ l.filter p) := by
  induction l with
  | nil => intro acc; simp
  | cons m rest ih =>
    intro acc
    rw [List.foldl_cons, hf, ih, List.filter_cons]
    by_cases hp : p m = true <;> simp [hp]

theorem filterSelfCheckLoop_eq (s : State) (r c : Int) (moves : List Square) :
    filterSelfCheckLoop s r c moves =
      (s, moves.filter fun m =>
        !isOwnKingInCheck (applyMoveForTest s r c m.1 m.2).board (isWhite (s.board.get r c))) := by
  have h := foldl_filter_state s
    (fun m => !isOwnKingInCheck (applyMoveForTest s r c m.1 m.2).board (isWhite (s.board.get r c)))
    (fun (acc : State × List Square) (m : Square) =>
      let snap := makeSnapshot acc.1
      let s1 := applyMoveForTest acc.1 r c m.1 m.2
      let inCheck := isOwnKingInCheck s1.board (isWhite (s.board.get r c))
      let s2 := restoreSnapshot s1 snap
      (s2, if !inCheck then acc.2 ++ [m] else acc.2))
    (fun _ _ => rfl) moves []
  simpa [filterSelfCheckLoop] using h

theorem mem_filterSelfCheckMoves (s : State) (r c : Int) (moves : List Square) (m : Square) :
    m ∈ filterSelfCheckMoves s r c moves ↔
      m ∈ moves ∧
        isOwnKingInCheck (applyMoveForTest s r c m.1 m.2).board (isWhite (s.board.get r c))
          = false := by
  simp [filterSelfCheckMoves, filterSelfCheckLoop_eq, List.mem_filter]

/-! ## What the generator and the evaluator read and write -/

theorem applyMoveForTest_board_congr (s s' : State) (hb : s.board = s'.board)
    (he : s.enPassant = s'.enPassant) (sr sc tr tc : Int) :
    (applyMoveForTest s sr sc tr tc).board = (applyMoveForTest s' sr sc tr tc).board := by
  simp only [applyMoveForTest, hb, he]

theorem legalMoves_eq_filter (s : State) (r c : Int) :
    legalMoves s r c =
      if s.board.get r c == '.' then []
      else (pseudoLegalMoves s r c).filter fun m =>
        !isOwnKingInCheck (applyMoveForTest s r c m.1 m.2).board (isWhite (s.board.get r c)) := by
  simp only [legalMoves, filterSelfCheckMoves, filterSelfCheckLoop_eq]

theorem legalMoves_congr (s s' : State) (hb : s.board = s'.board)
    (he : s.enPassant = s'.enPassant) (hc : s.castle = s'.castle) (r c : Int) :
    legalMoves s r c = legalMoves s' r c := by
  simp only [legalMoves_eq_filter, pseudoLegalMoves, hb, he, hc,
    applyMoveForTest_board_congr s s' hb he]

theorem hasAnyLegalMoves_congr (s s' : State) (hb : s.board = s'.board)
    (he : s.enPassant = s'.enPassant) (hc : s.castle = s'.castle) (w : Bool) :
    hasAnyLegalMoves s w = hasAnyLegalMoves s' w := by
  simp only [hasAnyLegalMoves, hb, legalMoves_congr s s' hb he hc]

theorem mem_legalMoves (s : State) (r c : Int) (m : Square) :
    m ∈ legalMoves s r c ↔
      s.board.get r c ≠ '.' ∧ m ∈ pseudoLegalMoves s r c ∧
        isOwnKingInCheck (applyMoveForTest s r c m.1 m.2).board (isWhite (s.board.get r c))
          = false := by
  rw [legalMoves_eq_filter]
  by_cases h : s.board.get r c = '.'
  · simp [h]
  · simp [h, List.mem_filter]

theorem annotate_fields (s : State) (isCheck isMate : Bool) :
    (annotateAndRecordLastMove s isCheck isMate).board = s.board ∧
    (annotateAndRecordLastMove s isCheck isMate).whiteToMove = s.whiteToMove ∧
    (annotateAndRecordLastMove s isCheck isMate).enPassant = s.enPassant ∧
    (annotateAndRecordLastMove s isCheck isMate).castle = s.castle ∧
    (annotateAndRecordLastMove s isCheck isMate).gameOver = s.gameOver ∧
    (annotateAndRecordLastMove s isCheck isMate).status = s.status ∧
    (annotateAndRecordLastMove s isCheck isMate).checkState = s.checkState ∧
    (annotateAndRecordLastMove s isCheck isMate).premove = s.premove ∧
    (annotateAndRecordLastMove s isCheck isMate).promotionPending = s.promotionPending := by
  unfold annotateAndRecordLastMove
  cases s.pendingJustMoved <;> simp

theorem updateStatus_fields (s : State) :
    (updateStatus s).board = s.board ∧
    (updateStatus s).whiteToMove = s.whiteToMove ∧
    (updateStatus s).enPassant = s.enPassant ∧
    (updateStatus s).castle = s.castle ∧
    (updateStatus s).gameOver = s.gameOver ∧
    (updateStatus s).checkState = s.checkState ∧
    (updateStatus s).premove = s.premove ∧
    (updateStatus s).promotionPending = s.promotionPending ∧
    (s.gameOver = true → (updateStatus s).status = s.status) := by
  unfold updateStatus
  split_ifs <;> simp_all

/-- The state `postMoveEvaluate` produces, field by field. -/
theorem postMoveEvaluate_fields (s : State) :
    (postMoveEvaluate s).board = s.board ∧
    (postMoveEvaluate s).whiteToMove = (!s.whiteToMove) ∧
    (postMoveEvaluate s).enPassant = s.enPassant ∧
    (postMoveEvaluate s).castle = s.castle ∧
    (postMoveEvaluate s).premove = s.premove ∧
    (postMoveEvaluate s).promotionPending = s.promotionPending ∧
    (postMoveEvaluate s).checkState =
      ⟨isOwnKingInCheck s.board true, isOwnKingInCheck s.board false⟩ ∧
    (postMoveEvaluate s).gameOver =
      (s.gameOver || !hasAnyLegalMoves s (!s.whiteToMove)) ∧
    (postMoveEvaluate s).status =
      (if hasAnyLegalMoves s (!s.whiteToMove) then s.status
       else if isOwnKingInCheck s.board (!s.whiteToMove) then
         (if s.whiteToMove then "White" else "Black") ++ " wins • Checkmate"
       else "Draw • Stalemate") := by
  have hcongr : hasAnyLegalMoves
      { s with whiteToMove := !s.whiteToMove,
               checkState := ⟨isOwnKingInCheck s.board true, isOwnKingInCheck s.board false⟩ }
      (!s.whiteToMove) = hasAnyLegalMoves s (!s.whiteToMove) :=
    by apply hasAnyLegalMoves_congr <;> rfl
  simp only [postMoveEvaluate, annotate_fields, hcongr]
  cases hm : hasAnyLegalMoves s (!s.whiteToMove) <;> cases hw : s.whiteToMove <;>
    cases hk : isOwnKingInCheck s.board true <;> cases hk' : isOwnKingInCheck s.board false <;>
    simp [hm, hw, hk, hk']

theorem clearPremove_premove (s : State) : (clearPremove s).premove = none := by
  simp [clearPremove, render, updateStatus_fields]

theorem postMoveUpdateAux_succ (n : Nat) (s : State) :
    postMoveUpdateAux (n + 1) s =
      if (postMoveEvaluate s).gameOver = true then render (postMoveEvaluate s)
      else if (tryApplyPremove (postMoveUpdateAux n) (postMoveEvaluate s)).2 = true then
        (tryApplyPremove (postMoveUpdateAux n) (postMoveEvaluate s)).1
      else render (tryApplyPremove (postMoveUpdateAux n) (postMoveEvaluate s)).1 := by
  show (if (!(postMoveEvaluate s).gameOver) = true then _ else _) = _
  cases (postMoveEvaluate s).gameOver <;> rfl

theorem tryApplyPremove_none (post : State → State) (s : State) (h : s.premove = none) :
    tryApplyPremove post s = (s, false) := by
  unfold tryApplyPremove
  rw [h]

/-- With no stored premove, `postMoveUpdate` is the evaluation step followed by `render`. -/
theorem postMoveUpdateAux_no_premove (n : Nat) (s : State) (h : s.premove = none) :
    postMoveUpdateAux (n + 1) s = render (postMoveEvaluate s) := by
  have hp : (postMoveEvaluate s).premove = none := by
    rw [(postMoveEvaluate_fields s).2.2.2.2.1, h]
  rw [postMoveUpdateAux_succ, tryApplyPremove_none _ _ hp]
  simp

theorem tryApplyPremove_congr (post post' : State → State)
    (h : ∀ t, t.premove = none → post t = post' t) (s : State) :
    tryApplyPremove post s = tryApplyPremove post' s := by
  unfold tryApplyPremove
  cases s.premove with
  | none => rfl
  | some pm =>
    simp only
    rw [h _ (clearPremove_premove _)]

/-- The recursion budget of `postMoveUpdate` is enough: a larger one gives the same state. -/
theorem postMoveUpdateAux_fuel (n : Nat) (s : State) :
    postMoveUpdateAux (n + 2) s = postMoveUpdate s := by
  have hc : ∀ t, tryApplyPremove (postMoveUpdateAux (n + 1)) t
      = tryApplyPremove (postMoveUpdateAux 1) t := by
    intro t
    apply tryApplyPremove_congr
    intro u hu
    rw [postMoveUpdateAux_no_premove n u hu, postMoveUpdateAux_no_premove 0 u hu]
  show postMoveUpdateAux (n + 1 + 1) s = postMoveUpdateAux (1 + 1) s
  rw [postMoveUpdateAux_succ, postMoveUpdateAux_succ, hc]

theorem postMoveUpdate_no_premove (s : State) (h : s.premove = none) :
    postMoveUpdate s = render (postMoveEvaluate s) :=
  postMoveUpdateAux_no_premove 1 s h

theorem postMoveUpdate_of_gameOver (s : State) (h : (postMoveEvaluate s).gameOver = true) :
    postMoveUpdate s = postMoveEvaluate s := by
  show postMoveUpdateAux (1 + 1) s = _
  rw [postMoveUpdateAux_succ, if_pos h]
  simp [render, updateStatus, h]

theorem hasAnyLegalMoves_iff (s : State) (w : Bool) :
    hasAnyLegalMoves s w = true ↔
      ∃ r c, isInside r c = true ∧
        (if w then isWhite (s.board.get r c) else isBlack (s.board.get r c)) = true ∧
        legalMoves s r c ≠ [] := by
  simp only [hasAnyLegalMoves, List.any_eq_true]
  constructor
  · rintro ⟨r, hr, c, hc, h⟩
    refine ⟨r, c, ?_, ?_, ?_⟩
    · rw [mem_idx_iff] at hr hc
      rw [isInside_iff]; omega
    · revert h
      cases w <;> cases hw : isWhite (s.board.get r c) <;> cases hb : isBlack (s.board.get r c)
        <;> simp
    · intro hnil
      revert h
      simp [hnil]
  · rintro ⟨r, c, hin, hcol, hne⟩
    rw [isInside_iff] at hin
    refine ⟨r, (mem_idx_iff r).2 ⟨hin.1, hin.2.1⟩, c, (mem_idx_iff c).2 ⟨hin.2.2.1, hin.2.2.2⟩, ?_⟩
    have hlen : 0 < (legalMoves s r c).length := List.length_pos.2 hne
    have hdot : s.board.get r c ≠ '.' := by
      intro hd
      rw [hd] at hcol
      revert hcol
      cases w <;> decide
    cases w
    · have hcol' : isBlack (s.board.get r c) = true := by simpa using hcol
      simp [hdot, hcol', hlen]
    · have hcol' : isWhite (s.board.get r c) = true := by simpa using hcol
      simp [hdot, hcol', hlen]

/-! ## Letters -/

theorem toNat_ofNat_small (n : Nat) (h : n < 55296) : (Char.ofNat n).toNat = n := by
  have hv : n.isValidChar := Or.inl h
  simp only [Char.ofNat, hv, dite_true]
  rfl

theorem char_eq_iff (a b : Char) : a = b ↔ a.toNat = b.toNat := by
  constructor
  · intro h; rw [h]
  · intro h
    have := congrArg Char.ofNat h
    simpa using this

theorem toNat_toLower (p : Char) :
    p.toLower.toNat = if 65 ≤ p.toNat ∧ p.toNat ≤ 90 then p.toNat + 32 else p.toNat := by
  unfold Char.toLower
  by_cases h : 65 ≤ p.toNat ∧ p.toNat ≤ 90
  · simp only [ge_iff_le, h, and_self, if_true]
    exact toNat_ofNat_small _ (by omega)
  · simp only [ge_iff_le, h, if_false]

theorem toNat_toUpper (p : Char) :
    p.toUpper.toNat = if 97 ≤ p.toNat ∧ p.toNat ≤ 122 then p.toNat - 32 else p.toNat := by
  unfold Char.toUpper
  by_cases h : 97 ≤ p.toNat ∧ p.toNat ≤ 122
  · simp only [ge_iff_le, h, and_self, if_true]
    exact toNat_ofNat_small _ (by omega)
  · simp only [ge_iff_le, h, if_false]

/-- A white cell whose lower-case letter is the lower-case letter `k` is the
upper-case letter of `k`. -/
theorem isWhite_and_toLower (p k : Char) (hk : 97 ≤ k.toNat ∧ k.toNat ≤ 122) :
    (isWhite p = true ∧ p.toLower = k) ↔ p = k.toUpper := by
  simp only [isWhite, Bool.and_eq_true, bne_iff_ne, ne_eq, beq_iff_eq, char_eq_iff,
    toNat_toLower, toNat_toUpper]
  have h3 : '.'.toNat = 46 := rfl
  rw [h3]
  split_ifs <;> omega

/-- A black cell whose lower-case letter is the lower-case letter `k` is `k`. -/
theorem isBlack_and_toLower (p k : Char) (hk : 97 ≤ k.toNat ∧ k.toNat ≤ 122) :
    (isBlack p = true ∧ p.toLower = k) ↔ p = k := by
  simp only [isBlack, Bool.and_eq_true, bne_iff_ne, ne_eq, beq_iff_eq, char_eq_iff,
    toNat_toLower]
  have h3 : '.'.toNat = 46 := rfl
  rw [h3]
  split_ifs <;> omega

theorem toLower_eq_p_iff (p : Char) : p.toLower = 'p' ↔ p = 'P' ∨ p = 'p' := by
  simp only [char_eq_iff, toNat_toLower]
  have h1 : 'p'.toNat = 112 := rfl
  have h2 : 'P'.toNat = 80 := rfl
  rw [h1, h2]
  split_ifs <;> omega

theorem toLower_eq_k_iff (p : Char) : p.toLower = 'k' ↔ p = 'K' ∨ p = 'k' := by
  simp only [char_eq_iff, toNat_toLower]
  have h1 : 'k'.toNat = 107 := rfl
  have h2 : 'K'.toNat = 75 := rfl
  rw [h1, h2]
  split_ifs <;> omega

/-! ## Scenarios -/

/-- C5: from the initial position the moves f2-f3, e7-e5, g2-g4 and Qd8-h4 are
each among the legal moves of their source square when played; after them
White is to move, has no legal move, is recorded as in check, and the game is
over with the status "Black wins • Checkmate". -/
theorem fools_mate_is_checkmate :
    ((5, 5) : Square) ∈ legalMoves initialState 6 5 ∧
    ((3, 4) : Square) ∈ legalMoves foolsMate1 1 4 ∧
    ((4, 6) : Square) ∈ legalMoves foolsMate2 6 6 ∧
    ((4, 7) : Square) ∈ legalMoves foolsMate3 0 3 ∧
    foolsMate4.whiteToMove = true ∧
    hasAnyLegalMoves foolsMate4 true = false ∧
    foolsMate4.checkState.whiteInCheck = true ∧
    foolsMate4.gameOver = true ∧
    foolsMate4.status = "Black wins • Checkmate" := by
  decide!

/-- C6: with only a white king on a1, a black king on a3 and a black pawn on
a2, White to move, no castling rights and no en-passant target, the king has no
legal move, White has no legal move at all and is not in check; the game-end
evaluator, run when Black has just moved into this position, ends the game with
the status "Draw • Stalemate" (a stalemate, not a checkmate). -/
theorem king_pawn_stalemate :
    (kingPawnStalemate true).board.get 7 0 = 'K' ∧
    (kingPawnStalemate true).board.get 5 0 = 'k' ∧
    (kingPawnStalemate true).board.get 6 0 = 'p' ∧
    (∀ sq ∈ allSquares, sq ≠ (7, 0) → sq ≠ (5, 0) → sq ≠ (6, 0) →
      (kingPawnStalemate true).board.get sq.1 sq.2 = '.') ∧
    (kingPawnStalemate true).castle = ⟨false, false, false, false⟩ ∧
    (kingPawnStalemate true).enPassant = none ∧
    legalMoves (kingPawnStalemate true) 7 0 = [] ∧
    hasAnyLegalMoves (kingPawnStalemate true) true = false ∧
    isOwnKingInCheck (kingPawnStalemate true).board true = false ∧
    (postMoveUpdate (kingPawnStalemate false)).whiteToMove = true ∧
    (postMoveUpdate (kingPawnStalemate false)).gameOver = true ∧
    (postMoveUpdate (kingPawnStalemate false)).status = "Draw • Stalemate" := by
  decide!

/-- C10 (the code at the failing input): after 1.e4, a position reached by one
legal move with Black to move and the en-passant target on e3, `legalMoves` of
the white pawn on d2 contains the empty diagonal square e3, although the pawn
that just advanced two squares (now on e4) is White's own; the square `move`
would clear for that capture, e2, holds no pawn, and `move` would still record
a capture. -/
theorem en_passant_offered_to_own_colour :
    Reachable afterE4 ∧
    afterE4.whiteToMove = false ∧
    afterE4.enPassant = some (5, 4) ∧
    afterE4.board.get 4 4 = 'P' ∧
    afterE4.board.get 6 3 = 'P' ∧
    afterE4.board.get 5 4 = '.' ∧
    ((5, 4) : Square) ∈ legalMoves afterE4 6 3 ∧
    afterE4.board.get 6 4 = '.' ∧
    (move afterE4 6 3 5 4).board.get 5 4 = 'P' ∧
    (move afterE4 6 3 5 4).pendingJustMoved.map (fun pm => pm.capture) = some true :=
  ⟨Reachable.ply initialState 6 4 4 4 Reachable.init (by decide!) (by decide!) (by decide!),
    by decide!⟩

/-! ## Game end -/

/-- C4: after `postMoveUpdate` has flipped the side to move: when the side now
to move has no legal move and its king is attacked, the game is over with the
status "<side that just moved> wins • Checkmate"; when it has no legal move and
its king is not attacked, the game is over with the status "Draw • Stalemate";
when it has a legal move, the evaluation step leaves `gameOver` as it was.
`hasAnyLegalMoves(side)` is true exactly when some square of the board holds a
piece of that colour whose `legalMoves` list is not empty. -/
theorem postMoveUpdate_game_end (s : State) :
    (hasAnyLegalMoves s (!s.whiteToMove) = false →
      isOwnKingInCheck s.board (!s.whiteToMove) = true →
        (postMoveUpdate s).whiteToMove = (!s.whiteToMove) ∧
        (postMoveUpdate s).gameOver = true ∧
        (postMoveUpdate s).status =
          (if s.whiteToMove then "White" else "Black") ++ " wins • Checkmate") ∧
    (hasAnyLegalMoves s (!s.whiteToMove) = false →
      isOwnKingInCheck s.board (!s.whiteToMove) = false →
        (postMoveUpdate s).whiteToMove = (!s.whiteToMove) ∧
        (postMoveUpdate s).gameOver = true ∧
        (postMoveUpdate s).status = "Draw • Stalemate") ∧
    (hasAnyLegalMoves s (!s.whiteToMove) = true →
        (postMoveEvaluate s).whiteToMove = (!s.whiteToMove) ∧
        (postMoveEvaluate s).gameOver = s.gameOver ∧
        (s.premove = none → (postMoveUpdate s).gameOver = s.gameOver)) ∧
    (∀ w : Bool, hasAnyLegalMoves s w = true ↔
      ∃ r c, isInside r c = true ∧
        (if w then isWhite (s.board.get r c) else isBlack (s.board.get r c)) = true ∧
        legalMoves s r c ≠ []) := by
  obtain ⟨-, hturn, -, -, -, -, -, hover, hstatus⟩ := postMoveEvaluate_fields s
  refine ⟨?_, ?_, ?_, hasAnyLegalMoves_iff s⟩
  · intro hm hk
    have hg : (postMoveEvaluate s).gameOver = true := by rw [hover, hm]; simp
    rw [postMoveUpdate_of_gameOver s hg, hturn, hg, hstatus, hm, hk]
    simp
  · intro hm hk
    have hg : (postMoveEvaluate s).gameOver = true := by rw [hover, hm]; simp
    rw [postMoveUpdate_of_gameOver s hg, hturn, hg, hstatus, hm, hk]
    simp
  · intro hm
    have hg : (postMoveEvaluate s).gameOver = s.gameOver := by rw [hover, hm]; simp
    refine ⟨hturn, hg, ?_⟩
    intro hp
    rw [postMoveUpdate_no_premove s hp, render, (updateStatus_fields _).2.2.2.2.1, hg]

/-- C4, applied to the queen move that ends the fool's mate: White has no legal
move and is in check, and Black is declared the winner. -/
theorem postMoveUpdate_game_end_witness :
    (postMoveUpdate (move foolsMate3 0 3 4 7)).whiteToMove
      = (!(move foolsMate3 0 3 4 7).whiteToMove) ∧
    (postMoveUpdate (move foolsMate3 0 3 4 7)).gameOver = true ∧
    (postMoveUpdate (move foolsMate3 0 3 4 7)).status =
      (if (move foolsMate3 0 3 4 7).whiteToMove then "White" else "Black")
        ++ " wins • Checkmate" :=
  (postMoveUpdate_game_end (move foolsMate3 0 3 4 7)).1 (by decide!) (by decide!)

/-! ## Membership in the candidate lists -/
theorem mem_add (b : Board) (w : Bool) (moves : List Square) (tr tc : Int) (m : Square) :
    m ∈ add b w moves tr tc ↔
      m ∈ moves ∨ (m = (tr, tc) ∧ isInside tr tc = true ∧
        (b.get tr tc == '.' || (if w then isBlack (b.get tr tc) else isWhite (b.get tr tc))) = true) := by
  unfold add
  by_cases hin : isInside tr tc = true
  · by_cases ht : (b.get tr tc == '.' || (if w then isBlack (b.get tr tc) else isWhite (b.get tr tc))) = true
    · simp only [hin, ht]; simp
    · simp only [hin, ht]; simp
  · simp only [hin]; simp

theorem mem_foldl_of_step {α : Type} (f : List Square → α → List Square) (P : Square → Prop)
    (l : List α) (hstep : ∀ moves a, a ∈ l → ∀ m, m ∈ f moves a → m ∈ moves ∨ P m) :
    ∀ moves m, m ∈ l.foldl f moves → m ∈ moves ∨ P m := by
  induction l with
  | nil => intro moves m h; exact Or.inl h
  | cons a rest ih =>
    intro moves m h
    rw [List.foldl_cons] at h
    rcases ih (fun mv x hx => hstep mv x (List.mem_cons_of_mem _ hx)) _ _ h with h1 | h1
    · exact hstep moves a (List.mem_cons_self _ _) m h1
    · exact Or.inr h1

theorem mem_pawnMoves_aux (b : Board) (ep : Option Square) (r c : Int) (w : Bool) (m : Square)
    (dir startRow : Int)
    (h : m ∈ List.foldl
      (fun (moves : List Square) (dc : Int) =>
        if isInside (r + dir) (c + dc) = true then
          if (b.get (r + dir) (c + dc) == '.' && ep == some (r + dir, c + dc)) = true then
            add b w
              (if (b.get (r + dir) (c + dc) != '.' &&
                  if w = true then isBlack (b.get (r + dir) (c + dc))
                  else isWhite (b.get (r + dir) (c + dc))) = true then
                add b w moves (r + dir) (c + dc)
              else moves)
              (r + dir) (c + dc)
          else
            if (b.get (r + dir) (c + dc) != '.' &&
                if w = true then isBlack (b.get (r + dir) (c + dc))
                else isWhite (b.get (r + dir) (c + dc))) = true then
              add b w moves (r + dir) (c + dc)
            else moves
        else moves)
      (if (isInside (r + dir) c && b.get (r + dir) c == '.') = true then
        if (r == startRow && b.get (r + 2 * dir) c == '.') = true then
          add b w (add b w [] (r + dir) c) (r + 2 * dir) c
        else add b w [] (r + dir) c
      else [])
      [-1, 1]) :
    isInside m.1 m.2 = true ∧
    ((m.1 = r + dir ∧ (m.2 = c ∨ m.2 = c + 1 ∨ m.2 = c - 1)) ∨
     (m.1 = r + 2 * dir ∧ m.2 = c ∧ r = startRow ∧
        b.get (r + dir) c = '.' ∧ b.get (r + 2 * dir) c = '.')) := by
  have h1 := mem_foldl_of_step _
    (fun m => isInside m.1 m.2 = true ∧ m.1 = r + dir ∧ (m.2 = c + 1 ∨ m.2 = c - 1))
    _ ?_ _ _ h
  · rcases h1 with h1 | h1
    · split_ifs at h1 with ha hb
      · simp only [mem_add, List.not_mem_nil, false_or] at h1
        simp only [Bool.and_eq_true, beq_iff_eq] at ha hb
        rcases h1 with ⟨rfl, hin, -⟩ | ⟨rfl, hin, -⟩
        · exact ⟨hin, Or.inl ⟨rfl, Or.inl rfl⟩⟩
        · exact ⟨hin, Or.inr ⟨rfl, rfl, hb.1, ha.2, hb.2⟩⟩
      · simp only [mem_add, List.not_mem_nil, false_or] at h1
        obtain ⟨rfl, hin, -⟩ := h1
        exact ⟨hin, Or.inl ⟨rfl, Or.inl rfl⟩⟩
      · simp at h1
    · exact ⟨h1.1, Or.inl ⟨h1.2.1, Or.inr h1.2.2⟩⟩
  · intro moves dc hdc m hm
    have hdc' : c + dc = c + 1 ∨ c + dc = c - 1 := by
      simp only [List.mem_cons, List.mem_singleton, List.not_mem_nil, or_false] at hdc
      omega
    simp only at hm
    split_ifs at hm
    all_goals try simp only [mem_add] at hm
    all_goals first
      | exact Or.inl hm
      | (rcases hm with hm | ⟨rfl, hin, -⟩
         · exact Or.inl hm
         · exact Or.inr ⟨hin, rfl, hdc'⟩)
      | (rcases hm with (hm | ⟨rfl, hin, -⟩) | ⟨rfl, hin, -⟩
         · exact Or.inl hm
         · exact Or.inr ⟨hin, rfl, hdc'⟩
         · exact Or.inr ⟨hin, rfl, hdc'⟩)

theorem mem_pawnMoves (b : Board) (ep : Option Square) (r c : Int) (w : Bool) (m : Square)
    (h : m ∈ pawnMoves b ep r c w) :
    isInside m.1 m.2 = true ∧
    ((m.1 = r + (if w then -1 else 1) ∧ (m.2 = c ∨ m.2 = c + 1 ∨ m.2 = c - 1)) ∨
     (m.1 = r + 2 * (if w then -1 else 1) ∧ m.2 = c ∧ r = (if w then 6 else 1) ∧
        b.get (r + (if w then -1 else 1)) c = '.' ∧
        b.get (r + 2 * (if w then -1 else 1)) c = '.')) :=
  mem_pawnMoves_aux b ep r c w m _ _ h

theorem mem_kingMoves_iff (b : Board) (ca : CastleRights) (r c : Int) (w : Bool) (m : Square) :
    m ∈ kingMoves b ca r c w ↔
      m ∈ kingDeltas.foldl (fun moves d => add b w moves (r + d.1) (c + d.2)) [] ∨
      (w = true ∧ m = (7, 6) ∧
        (ca.wK && b.get 7 5 == '.' && b.get 7 6 == '.'
          && !isSquareAttacked b 7 4 false true && !isSquareAttacked b 7 5 false true
          && !isSquareAttacked b 7 6 false true) = true) ∨
      (w = true ∧ m = (7, 2) ∧
        (ca.wQ && b.get 7 1 == '.' && b.get 7 2 == '.' && b.get 7 3 == '.'
          && !isSquareAttacked b 7 4 false true && !isSquareAttacked b 7 3 false true
          && !isSquareAttacked b 7 2 false true) = true) ∨
      (w = false ∧ m = (0, 6) ∧
        (ca.bK && b.get 0 5 == '.' && b.get 0 6 == '.'
          && !isSquareAttacked b 0 4 true false && !isSquareAttacked b 0 5 true false
          && !isSquareAttacked b 0 6 true false) = true) ∨
      (w = false ∧ m = (0, 2) ∧
        (ca.bQ && b.get 0 1 == '.' && b.get 0 2 == '.' && b.get 0 3 == '.'
          && !isSquareAttacked b 0 4 true false && !isSquareAttacked b 0 3 true false
          && !isSquareAttacked b 0 2 true false) = true) := by
  unfold kingMoves
  generalize kingDeltas.foldl (fun moves d => add b w moves (r + d.1) (c + d.2)) [] = steps
  cases w
  · simp only [Bool.false_eq_true, if_false, false_and, or_false, false_or, true_and]
    split_ifs with h1 h2 h2 <;> simp [h1, h2]
  · simp only [if_true, true_and, Bool.true_eq_false, false_and, or_false]
    split_ifs with h1 h2 h2 <;> simp [h1, h2]

theorem mem_kingSteps (b : Board) (r c : Int) (w : Bool) (m : Square)
    (h : m ∈ kingDeltas.foldl (fun moves d => add b w moves (r + d.1) (c + d.2)) []) :
    isInside m.1 m.2 = true ∧ (m.2 - c).natAbs ≤ 1 ∧ (m.1 - r).natAbs ≤ 1 := by
  have h1 := mem_foldl_of_step _
    (fun m => isInside m.1 m.2 = true ∧ (m.2 - c).natAbs ≤ 1 ∧ (m.1 - r).natAbs ≤ 1) _ ?_ _ _ h
  · simpa using h1
  · intro moves d hd m hm
    rw [mem_add] at hm
    rcases hm with hm | ⟨rfl, hin, -⟩
    · exact Or.inl hm
    · refine Or.inr ⟨hin, ?_⟩
      simp only [kingDeltas, List.mem_cons, List.mem_singleton, List.not_mem_nil, or_false] at hd
      rcases hd with rfl | rfl | rfl | rfl | rfl | rfl | rfl | rfl <;> simp

/-! ## The board after `move` and after the trial move -/

theorem move_board (s : State) (sr sc tr tc : Int) :
    (move s sr sc tr tc).board =
      queenStage
        (placeStage
          (epStage s.board s.enPassant (s.board.get sr sc) (dirOf (s.board.get sr sc)) sc tr tc)
          (s.board.get sr sc) (isWhite (s.board.get sr sc)) sr sc tr tc)
        (s.board.get sr sc) tr tc := rfl

theorem applyMoveForTest_board (s : State) (sr sc tr tc : Int) :
    (applyMoveForTest s sr sc tr tc).board =
      queenStage
        (placeStageTest
          (epStage s.board s.enPassant (s.board.get sr sc) (dirOf (s.board.get sr sc)) sc tr tc)
          (s.board.get sr sc) (isWhite (s.board.get sr sc)) sr sc tr tc)
        (s.board.get sr sc) tr tc := rfl

theorem epStage_get (b : Board) (ep : Option Square) (piece : Char) (dir sc tr tc : Int)
    (x : Char) (hx : x ≠ '.') (r c : Int)
    (h : (epStage b ep piece dir sc tr tc).get r c = x) : b.get r c = x := by
  unfold epStage at h
  split_ifs at h
  · rw [Board.get_set] at h
    split_ifs at h
    · exact absurd h.symm hx
    · exact h
  · exact h

theorem queenStage_get (b : Board) (piece : Char) (tr tc : Int)
    (x : Char) (hx : x ≠ 'Q' ∧ x ≠ 'q') (r c : Int)
    (h : (queenStage b piece tr tc).get r c = x) : b.get r c = x := by
  unfold queenStage at h
  simp only at h
  split_ifs at h <;> (try simp only [Board.get_set] at h) <;> (try split_ifs at h) <;>
    first
      | exact h
      | exact absurd h.symm hx.1
      | exact absurd h.symm hx.2

theorem placeStage_get (b : Board) (piece : Char) (white : Bool) (sr sc tr tc : Int)
    (x : Char) (hx : x ≠ '.') (r c : Int)
    (h : (placeStage b piece white sr sc tr tc).get r c = x) :
    b.get r c = x ∨ piece = x ∨ b.get 7 7 = x ∨ b.get 7 0 = x ∨ b.get 0 7 = x ∨
      b.get 0 0 = x := by
  unfold placeStage at h
  simp only at h
  split_ifs at h <;> (try simp only [Board.get_set] at h) <;> (try split_ifs at h) <;>
    first
      | exact absurd h.symm hx
      | exact Or.inl h
      | exact Or.inr (Or.inl h)
      | exact Or.inr (Or.inr (Or.inl h))
      | exact Or.inr (Or.inr (Or.inr (Or.inl h)))
      | exact Or.inr (Or.inr (Or.inr (Or.inr (Or.inl h))))
      | exact Or.inr (Or.inr (Or.inr (Or.inr (Or.inr h))))

/-- A letter other than `'.'`, `'Q'`, `'q'` found on the board after `move` was
on that square before, or is the moved piece, or stood on a corner. -/
theorem move_board_letter (s : State) (sr sc tr tc : Int) (x : Char)
    (hx : x ≠ '.' ∧ x ≠ 'Q' ∧ x ≠ 'q') (r c : Int)
    (h : (move s sr sc tr tc).board.get r c = x) :
    s.board.get r c = x ∨ s.board.get sr sc = x ∨ s.board.get 7 7 = x ∨ s.board.get 7 0 = x ∨
      s.board.get 0 7 = x ∨ s.board.get 0 0 = x := by
  rw [move_board] at h
  have h2 := placeStage_get _ _ _ _ _ _ _ x hx.1 r c (queenStage_get _ _ _ _ x hx.2 r c h)
  rcases h2 with h2 | h2 | h2 | h2 | h2 | h2
  · exact Or.inl (epStage_get _ _ _ _ _ _ _ x hx.1 _ _ h2)
  · exact Or.inr (Or.inl h2)
  · exact Or.inr (Or.inr (Or.inl (epStage_get _ _ _ _ _ _ _ x hx.1 _ _ h2)))
  · exact Or.inr (Or.inr (Or.inr (Or.inl (epStage_get _ _ _ _ _ _ _ x hx.1 _ _ h2))))
  · exact Or.inr (Or.inr (Or.inr (Or.inr (Or.inl (epStage_get _ _ _ _ _ _ _ x hx.1 _ _ h2)))))
  · exact Or.inr (Or.inr (Or.inr (Or.inr (Or.inr (epStage_get _ _ _ _ _ _ _ x hx.1 _ _ h2)))))

/-! ## The state after `move` -/
theorem move_castle (s : State) (sr sc tr tc : Int) :
    (move s sr sc tr tc).castle =
      revokeOnCapture (move s sr sc tr tc).board tr tc
        (castleAfterSource s.castle (s.board.get sr sc) sr sc) := rfl

theorem move_enPassant (s : State) (sr sc tr tc : Int) :
    (move s sr sc tr tc).enPassant =
      if (s.board.get sr sc).toLower == 'p' && (tr - sr).natAbs == 2 then
        some (sr + dirOf (s.board.get sr sc), sc)
      else none := rfl

theorem move_premove (s : State) (sr sc tr tc : Int) :
    (move s sr sc tr tc).premove = s.premove := rfl

theorem move_whiteToMove (s : State) (sr sc tr tc : Int) :
    (move s sr sc tr tc).whiteToMove = s.whiteToMove := rfl

theorem revokeOnCapture_le (b : Board) (tr tc : Int) (ca : CastleRights) :
    ((revokeOnCapture b tr tc ca).wK = true → ca.wK = true) ∧
    ((revokeOnCapture b tr tc ca).wQ = true → ca.wQ = true) ∧
    ((revokeOnCapture b tr tc ca).bK = true → ca.bK = true) ∧
    ((revokeOnCapture b tr tc ca).bQ = true → ca.bQ = true) := by
  unfold revokeOnCapture
  simp only
  split_ifs <;> simp

theorem castleAfterSource_le (ca : CastleRights) (piece : Char) (sr sc : Int) :
    ((castleAfterSource ca piece sr sc).wK = true → ca.wK = true ∧ piece ≠ 'K') ∧
    ((castleAfterSource ca piece sr sc).wQ = true → ca.wQ = true ∧ piece ≠ 'K') ∧
    ((castleAfterSource ca piece sr sc).bK = true → ca.bK = true ∧ piece ≠ 'k') ∧
    ((castleAfterSource ca piece sr sc).bQ = true → ca.bQ = true ∧ piece ≠ 'k') := by
  unfold castleAfterSource
  simp only
  split_ifs <;> simp_all


/-! ## The invariant is kept by every ply -/
theorem pseudoLegalMoves_pawn (s : State) (r c : Int) (h : (s.board.get r c).toLower = 'p') :
    pseudoLegalMoves s r c = pawnMoves s.board s.enPassant r c (isWhite (s.board.get r c)) := by
  simp [pseudoLegalMoves, h]

theorem pseudoLegalMoves_king (s : State) (r c : Int) (h : (s.board.get r c).toLower = 'k') :
    pseudoLegalMoves s r c = kingMoves s.board s.castle r c (isWhite (s.board.get r c)) := by
  simp [pseudoLegalMoves, h]

theorem white_pawn (p : Char) (h : p.toLower = 'p') (hw : isWhite p = true) : p = 'P' :=
  (isWhite_and_toLower p 'p' (by decide)).1 ⟨hw, h⟩

theorem not_white_pawn (p : Char) (h : p.toLower = 'p') (hw : isWhite p = false) : p = 'p' := by
  rcases (toLower_eq_p_iff p).1 h with rfl | rfl
  · exact absurd hw (by decide)
  · rfl

/-- The board after a pawn's double step. -/
theorem move_board_double_step (s : State) (sr sc tr : Int)
    (hp : (s.board.get sr sc).toLower = 'p') (htr : tr ≠ 0 ∧ tr ≠ 7) :
    (move s sr sc tr sc).board = (s.board.set tr sc (s.board.get sr sc)).set sr sc '.' := by
  rw [move_board]
  simp [epStage, placeStage, queenStage, hp, htr.1, htr.2]

theorem inv_ep_after_move (s : State) (sr sc tr tc : Int)
    (hin : isInside sr sc = true) (hown : ownPiece s sr sc = true)
    (hleg : (tr, tc) ∈ legalMoves s sr sc) (r c : Int)
    (hep : (move s sr sc tr tc).enPassant = some (r, c)) :
    0 ≤ c ∧ c < 8 ∧
    ((r = 5 ∧ s.whiteToMove = true ∧ (move s sr sc tr tc).board.get 4 c = 'P'
        ∧ (move s sr sc tr tc).board.get 5 c = '.') ∨
     (r = 2 ∧ s.whiteToMove = false ∧ (move s sr sc tr tc).board.get 3 c = 'p'
        ∧ (move s sr sc tr tc).board.get 2 c = '.')) := by
  rw [move_enPassant] at hep
  split_ifs at hep with hcond
  simp only [Bool.and_eq_true, beq_iff_eq] at hcond
  obtain ⟨hp, h2⟩ := hcond
  simp only [Option.some.injEq, Prod.mk.injEq] at hep
  obtain ⟨rfl, rfl⟩ := hep
  rw [mem_legalMoves, pseudoLegalMoves_pawn s sr sc hp] at hleg
  have hm := mem_pawnMoves _ _ _ _ _ _ hleg.2.1
  rw [isInside_iff] at hin
  simp only [ownPiece, Bool.and_eq_true, Bool.or_eq_true, bne_iff_ne, Bool.not_eq_true'] at hown
  cases hw : isWhite (s.board.get sr sc)
  · have hpc := not_white_pawn _ hp hw
    simp only [hw, Bool.false_eq_true, if_false] at hm
    have hturn : s.whiteToMove = false := by
      rcases hown.2 with h | h
      · rw [hw] at h; exact absurd h.2 (by decide)
      · exact h.1
    rcases hm.2 with ⟨h1, -⟩ | ⟨h1, h3, h4, h5, h6⟩
    · omega
    · have htr : tr = 3 := by omega
      subst h3 h4 htr
      have hb := move_board_double_step s 1 tc 3 hp (by omega)
      refine ⟨hin.2.2.1, hin.2.2.2, Or.inr ⟨by simp [dirOf, hw], hturn, ?_, ?_⟩⟩
      · rw [hb]; simp [hpc]
      · rw [hb]; simpa using h5
  · have hpc := white_pawn _ hp hw
    simp only [hw, if_true] at hm
    have hturn : s.whiteToMove = true := by
      rcases hown.2 with h | h
      · exact h.1
      · rw [hpc] at h; exact absurd h.2 (by decide)
    rcases hm.2 with ⟨h1, -⟩ | ⟨h1, h3, h4, h5, h6⟩
    · omega
    · have htr : tr = 4 := by omega
      subst h3 h4 htr
      have hb := move_board_double_step s 6 tc 4 hp (by omega)
      refine ⟨hin.2.2.1, hin.2.2.2, Or.inl ⟨by simp [dirOf, hw], hturn, ?_, ?_⟩⟩
      · rw [hb]; simp [hpc]
      · rw [hb]; simpa using h5
theorem king_home_of_letter (b : Board) (x : Char) (hr hc : Int)
    (hold : ∀ r c, isInside r c = true → b.get r c = x → r = hr ∧ c = hc)
    (hhome : hc = 4) (piece : Char) (hpiece : piece ≠ x) (r c : Int)
    (hin : isInside r c = true)
    (h : b.get r c = x ∨ piece = x ∨ b.get 7 7 = x ∨ b.get 7 0 = x ∨ b.get 0 7 = x ∨
      b.get 0 0 = x) : r = hr ∧ c = hc := by
  rcases h with h | h | h | h | h | h
  · exact hold r c hin h
  · exact absurd h hpiece
  · have := hold 7 7 (by decide) h; omega
  · have := hold 7 0 (by decide) h; omega
  · have := hold 0 7 (by decide) h; omega
  · have := hold 0 0 (by decide) h; omega

theorem inv_white_king_after_move (s : State) (h : Inv s) (sr sc tr tc : Int)
    (hr : (move s sr sc tr tc).castle.wK = true ∨ (move s sr sc tr tc).castle.wQ = true)
    (r c : Int) (hin : isInside r c = true)
    (hK : (move s sr sc tr tc).board.get r c = 'K') : r = 7 ∧ c = 4 := by
  rw [move_castle] at hr
  have h1 := revokeOnCapture_le (move s sr sc tr tc).board tr tc
    (castleAfterSource s.castle (s.board.get sr sc) sr sc)
  have h2 := castleAfterSource_le s.castle (s.board.get sr sc) sr sc
  have hold : (s.castle.wK = true ∨ s.castle.wQ = true) ∧ s.board.get sr sc ≠ 'K' := by
    rcases hr with hr | hr
    · exact ⟨Or.inl (h2.1 (h1.1 hr)).1, (h2.1 (h1.1 hr)).2⟩
    · exact ⟨Or.inr (h2.2.1 (h1.2.1 hr)).1, (h2.2.1 (h1.2.1 hr)).2⟩
  exact king_home_of_letter s.board 'K' 7 4 (h.white_king_home hold.1) rfl _ hold.2 r c hin
    (move_board_letter s sr sc tr tc 'K' (by decide) r c hK)

theorem inv_black_king_after_move (s : State) (h : Inv s) (sr sc tr tc : Int)
    (hr : (move s sr sc tr tc).castle.bK = true ∨ (move s sr sc tr tc).castle.bQ = true)
    (r c : Int) (hin : isInside r c = true)
    (hK : (move s sr sc tr tc).board.get r c = 'k') : r = 0 ∧ c = 4 := by
  rw [move_castle] at hr
  have h1 := revokeOnCapture_le (move s sr sc tr tc).board tr tc
    (castleAfterSource s.castle (s.board.get sr sc) sr sc)
  have h2 := castleAfterSource_le s.castle (s.board.get sr sc) sr sc
  have hold : (s.castle.bK = true ∨ s.castle.bQ = true) ∧ s.board.get sr sc ≠ 'k' := by
    rcases hr with hr | hr
    · exact ⟨Or.inl (h2.2.2.1 (h1.2.2.1 hr)).1, (h2.2.2.1 (h1.2.2.1 hr)).2⟩
    · exact ⟨Or.inr (h2.2.2.2 (h1.2.2.2 hr)).1, (h2.2.2.2 (h1.2.2.2 hr)).2⟩
  exact king_home_of_letter s.board 'k' 0 4 (h.black_king_home hold.1) rfl _ hold.2 r c hin
    (move_board_letter s sr sc tr tc 'k' (by decide) r c hK)

/-- The position fields of `render (postMoveEvaluate s)`. -/
theorem render_evaluate_fields (s : State) :
    (render (postMoveEvaluate s)).board = s.board ∧
    (render (postMoveEvaluate s)).whiteToMove = (!s.whiteToMove) ∧
    (render (postMoveEvaluate s)).enPassant = s.enPassant ∧
    (render (postMoveEvaluate s)).castle = s.castle ∧
    (render (postMoveEvaluate s)).premove = s.premove := by
  obtain ⟨h1, h2, h3, h4, h5, -⟩ := postMoveEvaluate_fields s
  obtain ⟨g1, g2, g3, g4, -, -, g7, -⟩ := updateStatus_fields (postMoveEvaluate s)
  exact ⟨g1.trans h1, g2.trans h2, g3.trans h3, g4.trans h4, g7.trans h5⟩

theorem inv_after_move (s : State) (h : Inv s) (sr sc tr tc : Int)
    (hin : isInside sr sc = true) (hown : ownPiece s sr sc = true)
    (hleg : (tr, tc) ∈ legalMoves s sr sc) :
    Inv (postMoveUpdate (move s sr sc tr tc)) := by
  have hpm : (move s sr sc tr tc).premove = none := h.premove_none
  rw [postMoveUpdate_no_premove _ hpm]
  obtain ⟨g1, g2, g3, g4, g5⟩ := render_evaluate_fields (move s sr sc tr tc)
  refine ⟨g5.trans hpm, ?_, ?_, ?_⟩
  · intro r c hep
    rw [g3] at hep
    rw [g1, g2, move_whiteToMove]
    have := inv_ep_after_move s sr sc tr tc hin hown hleg r c hep
    cases hw : s.whiteToMove <;> simpa [hw] using this
  · intro hr r c hrc hK
    rw [g4] at hr
    rw [g1] at hK
    exact inv_white_king_after_move s h sr sc tr tc hr r c hrc hK
  · intro hr r c hrc hK
    rw [g4] at hr
    rw [g1] at hK
    exact inv_black_king_after_move s h sr sc tr tc hr r c hrc hK
/-- `finishPromotion` on a pending promotion: the state it hands to `postMoveUpdate`. -/
theorem finishPromotion_pending (s : State) (p : PromotionPending) (type : Char)
    (hp : s.promotionPending = some p) :
    ∃ s' : State, finishPromotion s type = postMoveUpdate s' ∧
      s'.board = ((epStage s.board s.enPassant (s.board.get p.sr p.sc)
          (if p.white then -1 else 1) p.sc p.tr p.tc).set p.tr p.tc
            (if p.white then type else type.toLower)).set p.sr p.sc '.' ∧
      s'.enPassant = none ∧
      s'.castle = revokeOnCapture s'.board p.tr p.tc s.castle ∧
      s'.premove = s.premove ∧
      s'.whiteToMove = s.whiteToMove ∧
      s'.promotionPending = none ∧
      s'.gameOver = s.gameOver := by
  unfold finishPromotion
  rw [hp]
  exact ⟨_, rfl, rfl, rfl, rfl, rfl, rfl, rfl, rfl⟩

theorem finishPromotion_open (s : State) (w : Bool) (sr sc tr tc : Int) (type : Char) :
    ∃ s' : State, finishPromotion (openPromotion s w sr sc tr tc) type = postMoveUpdate s' ∧
      s'.board = ((epStage s.board s.enPassant (s.board.get sr sc)
          (if w then -1 else 1) sc tr tc).set tr tc
            (if w then type else type.toLower)).set sr sc '.' ∧
      s'.enPassant = none ∧
      s'.castle = revokeOnCapture s'.board tr tc s.castle ∧
      s'.premove = s.premove ∧
      s'.whiteToMove = s.whiteToMove :=
  ⟨_, rfl, rfl, rfl, rfl, rfl, rfl⟩

theorem inv_after_promote (s : State) (h : Inv s) (sr sc tr tc : Int) (w : Bool) (type : Char)
    (htype : type ∈ ['Q', 'R', 'B', 'N']) :
    Inv (finishPromotion (openPromotion s w sr sc tr tc) type) := by
  obtain ⟨s', heq, hb, hep, hca, hpm, hturn⟩ := finishPromotion_open s w sr sc tr tc type
  have hpm' : s'.premove = none := hpm.trans h.premove_none
  rw [heq, postMoveUpdate_no_premove _ hpm']
  obtain ⟨g1, g2, g3, g4, g5⟩ := render_evaluate_fields s'
  have hT : (if w then type else type.toLower) ≠ 'K' ∧ (if w then type else type.toLower) ≠ 'k' := by
    simp only [List.mem_cons, List.mem_singleton, List.not_mem_nil, or_false] at htype
    rcases htype with rfl | rfl | rfl | rfl <;> cases w <;> decide
  generalize (if w then type else type.toLower) = T at hb hT
  have hletter : ∀ x : Char, x ≠ '.' → T ≠ x →
      ∀ r c, s'.board.get r c = x → s.board.get r c = x := by
    intro x hx hTx r c hget
    rw [hb] at hget
    simp only [Board.get_set] at hget
    split_ifs at hget
    all_goals first
      | exact absurd hget.symm hx
      | exact absurd hget hTx
      | exact epStage_get _ _ _ _ _ _ _ x hx r c hget
  have hle := revokeOnCapture_le s'.board tr tc s.castle
  refine ⟨g5.trans hpm', ?_, ?_, ?_⟩
  · intro r c he
    rw [g3, hep] at he
    exact absurd he (by simp)
  · intro hr r c hrc hK
    rw [g4, hca] at hr
    rw [g1] at hK
    have hold : s.castle.wK = true ∨ s.castle.wQ = true := by
      rcases hr with hr | hr
      · exact Or.inl (hle.1 hr)
      · exact Or.inr (hle.2.1 hr)
    exact h.white_king_home hold r c hrc (hletter 'K' (by decide) hT.1 r c hK)
  · intro hr r c hrc hK
    rw [g4, hca] at hr
    rw [g1] at hK
    have hold : s.castle.bK = true ∨ s.castle.bQ = true := by
      rcases hr with hr | hr
      · exact Or.inl (hle.2.2.1 hr)
      · exact Or.inr (hle.2.2.2 hr)
    exact h.black_king_home hold r c hrc (hletter 'k' (by decide) hT.2 r c hK)

theorem inv_initial : Inv initialState := by
  refine ⟨rfl, ?_, ?_, ?_⟩
  · intro r c h
    exact absurd h (by simp [initialState])
  · intro _ r c hin hK
    have hmem := (mem_allSquares_iff (r, c)).2 hin
    have hall : ∀ sq ∈ allSquares, initialState.board.get sq.1 sq.2 = 'K' → sq.1 = 7 ∧ sq.2 = 4 := by
      decide!
    exact hall (r, c) hmem hK
  · intro _ r c hin hK
    have hmem := (mem_allSquares_iff (r, c)).2 hin
    have hall : ∀ sq ∈ allSquares, initialState.board.get sq.1 sq.2 = 'k' → sq.1 = 0 ∧ sq.2 = 4 := by
      decide!
    exact hall (r, c) hmem hK

/-- Every reachable state satisfies the invariant. -/
theorem reachable_inv (s : State) (h : Reachable s) : Inv s := by
  induction h with
  | init => exact inv_initial
  | ply s sr sc tr tc _ hin hown hleg ih => exact inv_after_move s ih sr sc tr tc hin hown hleg
  | promote s sr sc tr tc type _ _ _ _ _ htype ih =>
    exact inv_after_promote s ih sr sc tr tc _ type htype

/-! ## Legal moves keep the own king safe; the en-passant target -/
theorem placeStage_eq_test (b : Board) (piece : Char) (white : Bool) (sr sc tr tc : Int)
    (h : ¬((piece.toLower == 'k' && (tc - sc).natAbs == 2) = true) ∨
      (sr = (if white then 7 else 0) ∧ sc = 4 ∧ tr = sr)) :
    placeStage b piece white sr sc tr tc = placeStageTest b piece white sr sc tr tc := by
  unfold placeStage placeStageTest
  rcases h with h | ⟨h1, h2, h3⟩
  · rw [if_neg h, if_neg h]
  · subst h2 h3
    cases white
    · simp only [Bool.false_eq_true, if_false] at h1
      subst h1
      simp only [Bool.and_false, Bool.false_eq_true, if_false, Bool.not_false, Bool.and_true]
      split_ifs with h4 h5 h6
      · simp only [beq_iff_eq] at h5; subst h5; rfl
      · simp only [beq_iff_eq] at h6; subst h6; rfl
      · rfl
      · rfl
    · simp only [if_true] at h1
      subst h1
      simp only [Bool.and_true, Bool.not_true, Bool.and_false, Bool.false_eq_true, if_false]
      split_ifs with h4 h5 h6
      · simp only [beq_iff_eq] at h5; subst h5; rfl
      · simp only [beq_iff_eq] at h6; subst h6; rfl
      · rfl
      · rfl

theorem king_letter (p : Char) (h : p.toLower = 'k') :
    (isWhite p = true → p = 'K') ∧ (isWhite p = false → p = 'k') := by
  rcases (toLower_eq_k_iff p).1 h with rfl | rfl
  · exact ⟨fun _ => rfl, fun hw => absurd hw (by decide)⟩
  · exact ⟨fun hw => absurd hw (by decide), fun _ => rfl⟩

/-- In a state satisfying the invariant, a legal two-file king move starts from
the king's home square and stays on the home row. -/
theorem legal_castle_from_home (s : State) (h : Inv s) (sr sc tr tc : Int)
    (hin : isInside sr sc = true) (hleg : (tr, tc) ∈ legalMoves s sr sc)
    (hk : ((s.board.get sr sc).toLower == 'k' && (tc - sc).natAbs == 2) = true) :
    sr = (if isWhite (s.board.get sr sc) then 7 else 0) ∧ sc = 4 ∧ tr = sr := by
  simp only [Bool.and_eq_true, beq_iff_eq] at hk
  obtain ⟨hkk, h2⟩ := hk
  rw [mem_legalMoves, pseudoLegalMoves_king s sr sc hkk, mem_kingMoves_iff] at hleg
  have hlet := king_letter _ hkk
  rcases hleg.2.1 with hs | ⟨hw, hm, hc⟩ | ⟨hw, hm, hc⟩ | ⟨hw, hm, hc⟩ | ⟨hw, hm, hc⟩
  · have := (mem_kingSteps _ _ _ _ _ hs).2.1
    simp only at this
    omega
  · simp only [Bool.and_eq_true] at hc
    have hhome := h.white_king_home (Or.inl hc.1.1.1.1.1) sr sc hin (hlet.1 hw)
    simp only [Prod.mk.injEq] at hm
    rw [hw]; simp only [if_true]; omega
  · simp only [Bool.and_eq_true] at hc
    have hhome := h.white_king_home (Or.inr hc.1.1.1.1.1.1) sr sc hin (hlet.1 hw)
    simp only [Prod.mk.injEq] at hm
    rw [hw]; simp only [if_true]; omega
  · simp only [Bool.and_eq_true] at hc
    have hhome := h.black_king_home (Or.inl hc.1.1.1.1.1) sr sc hin (hlet.2 hw)
    simp only [Prod.mk.injEq] at hm
    rw [hw]; simp only [Bool.false_eq_true, if_false]; omega
  · simp only [Bool.and_eq_true] at hc
    have hhome := h.black_king_home (Or.inr hc.1.1.1.1.1.1) sr sc hin (hlet.2 hw)
    simp only [Prod.mk.injEq] at hm
    rw [hw]; simp only [Bool.false_eq_true, if_false]; omega

/-- For a legal move in a state satisfying the invariant, `move` and the trial
move of the self-check filter produce the same board. -/
theorem move_board_eq_test_of_legal (s : State) (h : Inv s) (sr sc tr tc : Int)
    (hin : isInside sr sc = true) (hleg : (tr, tc) ∈ legalMoves s sr sc) :
    (move s sr sc tr tc).board = (applyMoveForTest s sr sc tr tc).board := by
  rw [move_board, applyMoveForTest_board, placeStage_eq_test]
  by_cases hk : ((s.board.get sr sc).toLower == 'k' && (tc - sc).natAbs == 2) = true
  · exact Or.inr (legal_castle_from_home s h sr sc tr tc hin hleg hk)
  · exact Or.inl hk

theorem reachable_afterE4 : Reachable afterE4 :=
  Reachable.ply initialState 6 4 4 4 Reachable.init (by decide!) (by decide!) (by decide!)

/-- C1: in every state reachable from the initial position by legal moves, for
every occupied square `(sr,sc)` of the board and every destination `(tr,tc)`
returned by `legalMoves(sr,sc)` (an empty square has none), after
`move(sr,sc,tr,tc)` the king of the moved piece's colour is not attacked:
`isOwnKingInCheck` of that colour is false. -/
theorem legal_move_keeps_own_king_safe (s : State) (h : Reachable s) (sr sc tr tc : Int)
    (hin : isInside sr sc = true) (hleg : (tr, tc) ∈ legalMoves s sr sc) :
    isOwnKingInCheck (move s sr sc tr tc).board (isWhite (s.board.get sr sc)) = false := by
  rw [move_board_eq_test_of_legal s (reachable_inv s h) sr sc tr tc hin hleg]
  exact ((mem_legalMoves s sr sc (tr, tc)).1 hleg).2.2

/-- C1 after 1.e4: the black e-pawn may advance to e5, and the black king is
then not in check. -/
theorem legal_move_keeps_own_king_safe_witness :
    isOwnKingInCheck (move afterE4 1 4 3 4).board (isWhite (afterE4.board.get 1 4)) = false :=
  legal_move_keeps_own_king_safe afterE4 reachable_afterE4 1 4 3 4 (by decide!) (by decide!)

/-- C9: in every state reachable from the initial position by legal moves, an
en-passant target, when present, lies on row 5 or on row 2 and is an empty
square of the board; on row 5 the square beyond it, on row 4 of the same file,
holds a white pawn and White has just moved; on row 2 the square on row 3 holds
a black pawn and Black has just moved. -/
theorem reachable_enPassant_target (s : State) (h : Reachable s) (r c : Int)
    (hep : s.enPassant = some (r, c)) :
    (r = 5 ∨ r = 2) ∧ isInside r c = true ∧ s.board.get r c = '.' ∧
    (r = 5 → s.board.get 4 c = 'P' ∧ s.whiteToMove = false) ∧
    (r = 2 → s.board.get 3 c = 'p' ∧ s.whiteToMove = true) := by
  obtain ⟨hc0, hc8, hcase⟩ := (reachable_inv s h).ep_ok r c hep
  rcases hcase with ⟨rfl, ht, hp, he⟩ | ⟨rfl, ht, hp, he⟩
  · refine ⟨Or.inl rfl, ?_, he, fun _ => ⟨hp, ht⟩, fun h52 => absurd h52 (by decide)⟩
    rw [isInside_iff]; omega
  · refine ⟨Or.inr rfl, ?_, he, fun h25 => absurd h25 (by decide), fun _ => ⟨hp, ht⟩⟩
    rw [isInside_iff]; omega

/-- C9 after 1.e4: the target e3 is empty and the pawn on e4 is White's. -/
theorem reachable_enPassant_target_witness :
    ((5 : Int) = 5 ∨ (5 : Int) = 2) ∧ isInside 5 4 = true ∧ afterE4.board.get 5 4 = '.' ∧
    ((5 : Int) = 5 → afterE4.board.get 4 4 = 'P' ∧ afterE4.whiteToMove = false) ∧
    ((5 : Int) = 2 → afterE4.board.get 3 4 = 'p' ∧ afterE4.whiteToMove = true) :=
  reachable_enPassant_target afterE4 reachable_afterE4 5 4 (by decide!)

/-! ## En-passant capture -/
theorem move_capture (s : State) (sr sc tr tc : Int) :
    (move s sr sc tr tc).pendingJustMoved.map (fun pm => pm.capture) =
      some (if ((s.board.get sr sc).toLower == 'p' && sc != tc && s.board.get tr tc == '.'
          && s.enPassant == some (tr, tc)) = true then true
        else s.board.get tr tc != '.') := rfl

/-- The board after an en-passant capture that does not end on a final rank. -/
theorem move_board_en_passant (s : State) (sr sc tr tc : Int)
    (hp : (s.board.get sr sc).toLower = 'p') (hcol : sc ≠ tc) (hempty : s.board.get tr tc = '.')
    (hep : s.enPassant = some (tr, tc)) (htr : tr ≠ 0 ∧ tr ≠ 7) :
    (move s sr sc tr tc).board =
      ((s.board.set (tr - dirOf (s.board.get sr sc)) tc '.').set tr tc (s.board.get sr sc)).set
        sr sc '.' := by
  rw [move_board]
  simp [epStage, placeStage, queenStage, hp, htr.1, htr.2, hcol, hempty, hep]

/-- C7: in a state reachable by legal moves, when a pawn moves diagonally (one
row forward, one file aside) onto an empty square that is the current
en-passant target, `move` empties the square one rank behind the destination,
`(tr - dir, tc)`, which is the square beside the pawn's source on the
destination file, puts the pawn on the destination, empties the source, leaves
every other square as it was and records the move as a capture; when the pawn
belongs to the side to move, the emptied square held an enemy pawn. -/
theorem move_en_passant_capture (s : State) (h : Reachable s) (sr sc tr tc : Int)
    (hin : isInside sr sc = true)
    (hp : (s.board.get sr sc).toLower = 'p')
    (hrow : tr = sr + dirOf (s.board.get sr sc)) (hcol : tc = sc + 1 ∨ tc = sc - 1)
    (hempty : s.board.get tr tc = '.') (hep : s.enPassant = some (tr, tc)) :
    moveInBounds s sr sc tr tc = true ∧
    tr - dirOf (s.board.get sr sc) = sr ∧
    (move s sr sc tr tc).board.get (tr - dirOf (s.board.get sr sc)) tc = '.' ∧
    (move s sr sc tr tc).board.get tr tc = s.board.get sr sc ∧
    (move s sr sc tr tc).board.get sr sc = '.' ∧
    (∀ r c, ¬(r = tr - dirOf (s.board.get sr sc) ∧ c = tc) → ¬(r = tr ∧ c = tc) →
      ¬(r = sr ∧ c = sc) → (move s sr sc tr tc).board.get r c = s.board.get r c) ∧
    (move s sr sc tr tc).pendingJustMoved.map (fun pm => pm.capture) = some true ∧
    (ownPiece s sr sc = true →
      s.board.get (tr - dirOf (s.board.get sr sc)) tc
        = (if isWhite (s.board.get sr sc) then 'p' else 'P')) := by
  obtain ⟨hc0, hc8, hcase⟩ := (reachable_inv s h).ep_ok tr tc hep
  have htr : tr ≠ 0 ∧ tr ≠ 7 := by rcases hcase with ⟨h5, -⟩ | ⟨h2, -⟩ <;> omega
  have hne : sc ≠ tc := by omega
  have hdir : dirOf (s.board.get sr sc) = 1 ∨ dirOf (s.board.get sr sc) = -1 := by
    unfold dirOf; split_ifs <;> simp
  have hb := move_board_en_passant s sr sc tr tc hp hne hempty hep htr
  have hin' := (isInside_iff sr sc).1 hin
  have hin2 : isInside tr tc = true := by
    rw [isInside_iff]; rcases hcase with ⟨h5, -⟩ | ⟨h2, -⟩ <;> omega
  refine ⟨?_, by omega, ?_, ?_, ?_, ?_, ?_, ?_⟩
  · have h3 : isInside (tr - dirOf (s.board.get sr sc)) tc = true := by
      rw [isInside_iff]; omega
    unfold dirOf at h3
    simp [moveInBounds, hin, hin2, h3]
  · rw [hb]
    simp only [Board.get_set]
    rw [if_neg (by omega), if_neg (by omega)]
    simp
  · rw [hb]
    simp only [Board.get_set]
    rw [if_neg (by omega)]
    simp
  · rw [hb]
    simp
  · intro r c h1 h2 h3
    rw [hb]
    simp only [Board.get_set]
    rw [if_neg h3, if_neg h2, if_neg h1]
  · rw [move_capture]
    simp [hp, hne, hempty, hep]
  · intro hown
    simp only [ownPiece, Bool.and_eq_true, Bool.or_eq_true, bne_iff_ne, Bool.not_eq_true'] at hown
    cases hw : isWhite (s.board.get sr sc)
    · have hpc := not_white_pawn _ hp hw
      have hturn : s.whiteToMove = false := by
        rcases hown.2 with h | h
        · rw [hw] at h; exact absurd h.2 (by decide)
        · exact h.1
      rcases hcase with ⟨h5, -, h4, -⟩ | ⟨-, ht, -⟩
      · have hd : dirOf (s.board.get sr sc) = 1 := by simp [dirOf, hw]
        rw [hd, h5]; simpa using h4
      · rw [hturn] at ht; exact absurd ht (by decide)
    · have hpc := white_pawn _ hp hw
      have hturn : s.whiteToMove = true := by
        rcases hown.2 with h | h
        · exact h.1
        · rw [hpc] at h; exact absurd h.2 (by decide)
      rcases hcase with ⟨-, ht, -⟩ | ⟨h2, -, h3, -⟩
      · rw [hturn] at ht; exact absurd ht (by decide)
      · have hd : dirOf (s.board.get sr sc) = -1 := by simp [dirOf, hw]
        rw [hd, h2]; simpa using h3

theorem reachable_epReady : Reachable epReady :=
  Reachable.ply afterE4A6E5 1 3 3 3
    (Reachable.ply afterE4A6 4 4 3 4
      (Reachable.ply afterE4 1 0 2 0 reachable_afterE4 (by decide!) (by decide!) (by decide!))
      (by decide!) (by decide!) (by decide!))
    (by decide!) (by decide!) (by decide!)

/-- C7 after 1.e4 a6 2.e5 d5: the white pawn on e5 takes the pawn on d5 en passant. -/
theorem move_en_passant_capture_witness :
    moveInBounds epReady 3 4 2 3 = true ∧
    (2 : Int) - dirOf (epReady.board.get 3 4) = 3 ∧
    (move epReady 3 4 2 3).board.get (2 - dirOf (epReady.board.get 3 4)) 3 = '.' ∧
    (move epReady 3 4 2 3).board.get 2 3 = epReady.board.get 3 4 ∧
    (move epReady 3 4 2 3).board.get 3 4 = '.' ∧
    (∀ r c, ¬(r = 2 - dirOf (epReady.board.get 3 4) ∧ c = 3) → ¬(r = 2 ∧ c = 3) →
      ¬(r = 3 ∧ c = 4) → (move epReady 3 4 2 3).board.get r c = epReady.board.get r c) ∧
    (move epReady 3 4 2 3).pendingJustMoved.map (fun pm => pm.capture) = some true ∧
    (ownPiece epReady 3 4 = true →
      epReady.board.get (2 - dirOf (epReady.board.get 3 4)) 3
        = (if isWhite (epReady.board.get 3 4) then 'p' else 'P')) :=
  move_en_passant_capture epReady reachable_epReady 3 4 2 3 (by decide!) (by decide!)
    (by decide!) (by decide!) (by decide!) (by decide!)

/-! ## The en-passant target after a ply -/
theorem clearPremove_enPassant (s : State) : (clearPremove s).enPassant = s.enPassant := by
  simp [clearPremove, render, updateStatus_fields]

theorem finishPromotion_eq_placed (s : State) (p : PromotionPending) (type : Char)
    (hp : s.promotionPending = some p) :
    finishPromotion s type = postMoveUpdate (promotionPlaced s p type) := by
  unfold finishPromotion
  rw [hp]

theorem any_dest_iff (l : List Square) (tr tc : Int) :
    l.any (fun m => m.1 == tr && m.2 == tc) = true ↔ (tr, tc) ∈ l := by
  simp only [List.any_eq_true, Bool.and_eq_true, beq_iff_eq]
  constructor
  · rintro ⟨⟨a, b⟩, hm, h1, h2⟩
    simp only at h1 h2
    subst h1 h2
    exact hm
  · intro h
    exact ⟨(tr, tc), h, rfl, rfl⟩

/-- The en-passant target after `tryApplyPremove()` with a stored premove: the
one set by `move` when the premove is applied, unchanged otherwise. -/
theorem tryApplyPremove_enPassant_eq (post : State → State)
    (hpost : ∀ t, t.premove = none → (post t).enPassant = t.enPassant) (s : State)
    (pm : Premove) (hpm : s.premove = some pm) :
    (tryApplyPremove post s).1.enPassant =
      if s.whiteToMove = pm.white ∧ s.board.get pm.src.1 pm.src.2 ≠ '.' ∧
          isWhite (s.board.get pm.src.1 pm.src.2) = pm.white ∧
          (pm.dst.1, pm.dst.2) ∈ legalMoves s pm.src.1 pm.src.2 ∧
          isPromo s pm.src.1 pm.src.2 pm.dst.1 = false then
        (move s pm.src.1 pm.src.2 pm.dst.1 pm.dst.2).enPassant
      else s.enPassant := by
  unfold tryApplyPremove
  rw [hpm]
  simp only
  by_cases h1 : s.whiteToMove = pm.white
  · have h1' : (!(s.whiteToMove && pm.white || !s.whiteToMove && !pm.white)) = false := by
      rw [h1]; cases pm.white <;> rfl
    rw [h1']
    simp only [Bool.false_eq_true, if_false]
    by_cases h2 : s.board.get pm.src.1 pm.src.2 = '.'
    · rw [if_pos (by simp [h2]), if_neg (fun h => h.2.1 h2)]
      exact clearPremove_enPassant s
    · by_cases h3 : isWhite (s.board.get pm.src.1 pm.src.2) = pm.white
      · rw [if_neg (by simp [h2, h3])]
        by_cases h4 : (pm.dst.1, pm.dst.2) ∈ legalMoves s pm.src.1 pm.src.2
        · rw [if_pos ((any_dest_iff _ _ _).2 h4)]
          by_cases h5 : isPromo s pm.src.1 pm.src.2 pm.dst.1 = true
          · have h5' := h5
            unfold isPromo at h5'
            rw [if_pos h5', if_neg (fun h => by rw [h5] at h; exact absurd h.2.2.2.2 (by decide))]
            rw [clearPremove_enPassant]
            rfl
          · have h5' := h5
            unfold isPromo at h5'
            rw [if_neg h5', if_pos ⟨h1, h2, h3, h4, by simpa using h5⟩]
            rw [hpost _ (clearPremove_premove _), clearPremove_enPassant]
        · rw [if_neg (fun h => h4 ((any_dest_iff _ _ _).1 h)), if_neg (fun h => h4 h.2.2.2.1)]
          exact clearPremove_enPassant s
      · rw [if_pos (by simp [h2, h3]), if_neg (fun h => h3 h.2.2.1)]
        exact clearPremove_enPassant s
  · have h1' : (!(s.whiteToMove && pm.white || !s.whiteToMove && !pm.white)) = true := by
      revert h1; cases s.whiteToMove <;> cases pm.white <;> simp
    rw [h1', if_pos rfl, if_neg (fun h => h1 h.1)]

/-- The en-passant target after `postMoveUpdate()` with a stored premove. -/
theorem postMoveUpdate_enPassant_eq (s : State) (pm : Premove) (hpm : s.premove = some pm) :
    (postMoveUpdate s).enPassant =
      if (postMoveEvaluate s).gameOver = false ∧ (postMoveEvaluate s).whiteToMove = pm.white ∧
          (postMoveEvaluate s).board.get pm.src.1 pm.src.2 ≠ '.' ∧
          isWhite ((postMoveEvaluate s).board.get pm.src.1 pm.src.2) = pm.white ∧
          (pm.dst.1, pm.dst.2) ∈ legalMoves (postMoveEvaluate s) pm.src.1 pm.src.2 ∧
          isPromo (postMoveEvaluate s) pm.src.1 pm.src.2 pm.dst.1 = false then
        (move (postMoveEvaluate s) pm.src.1 pm.src.2 pm.dst.1 pm.dst.2).enPassant
      else s.enPassant := by
  have hev := (postMoveEvaluate_fields s).2.2.1
  have hpmv : (postMoveEvaluate s).premove = some pm :=
    ((postMoveEvaluate_fields s).2.2.2.2.1).trans hpm
  have hrender : ∀ t : State, (render t).enPassant = t.enPassant :=
    fun t => (updateStatus_fields t).2.2.1
  have hpost : ∀ t : State, t.premove = none → (postMoveUpdateAux 1 t).enPassant = t.enPassant := by
    intro t ht
    rw [postMoveUpdateAux_no_premove 0 t ht, hrender, (postMoveEvaluate_fields t).2.2.1]
  have htry := tryApplyPremove_enPassant_eq _ hpost (postMoveEvaluate s) pm hpmv
  rw [hev] at htry
  have key : postMoveUpdate s = _ := postMoveUpdateAux_succ 1 s
  rw [key]
  by_cases hg : (postMoveEvaluate s).gameOver = true
  · rw [if_pos hg, if_neg (fun h => by rw [hg] at h; exact absurd h.1 (by decide)), hrender, hev]
  · rw [if_neg hg]
    have hg' : (postMoveEvaluate s).gameOver = false := by simpa using hg
    have hlhs : (if (tryApplyPremove (postMoveUpdateAux 1) (postMoveEvaluate s)).2 = true then
          (tryApplyPremove (postMoveUpdateAux 1) (postMoveEvaluate s)).1
        else render (tryApplyPremove (postMoveUpdateAux 1) (postMoveEvaluate s)).1).enPassant
        = (tryApplyPremove (postMoveUpdateAux 1) (postMoveEvaluate s)).1.enPassant := by
      split_ifs
      · rfl
      · exact hrender _
    rw [hlhs, htry]
    simp only [hg', true_and]

/-- C8 (as amended): after `move(sr,sc,tr,tc)` the en-passant target is
`[sr+dir, sc]` when the moved piece is a pawn with `|tr - sr| = 2` and absent in
every other case, and a ply with no stored premove (`move` then
`postMoveUpdate`) leaves exactly that target.  `finishPromotion` on a pending
promotion `p` sets the target to absent in the state `promotionPlaced s p type`
it hands to `postMoveUpdate`; with no stored premove the target is absent on
return; with a stored premove `pm` it is, on return, the target set by the
`move` of that premove in the evaluated state `e` (the passed-over square when
the premove is a pawn double-step, absent otherwise) when that `postMoveUpdate`
applies the premove, that is when the game is not over, `pm` belongs to the
side now to move, its piece still stands on the source square, the move is
legal in `e` and is not itself a promotion; it is absent when the premove is
not applied. -/
theorem enPassant_after_move_and_promotion (s : State) :
    (∀ sr sc tr tc : Int, moveInBounds s sr sc tr tc = true →
      (move s sr sc tr tc).enPassant =
        (if (s.board.get sr sc).toLower = 'p' ∧ (tr - sr).natAbs = 2 then
          some (sr + dirOf (s.board.get sr sc), sc)
        else none) ∧
      (s.premove = none →
        (postMoveUpdate (move s sr sc tr tc)).enPassant = (move s sr sc tr tc).enPassant)) ∧
    (∀ (type : Char) (p : PromotionPending), s.promotionPending = some p →
      finishPromotion s type = postMoveUpdate (promotionPlaced s p type) ∧
      (promotionPlaced s p type).enPassant = none ∧
      (s.premove = none → (finishPromotion s type).enPassant = none) ∧
      ∀ (pm : Premove) (e : State), s.premove = some pm →
        e = postMoveEvaluate (promotionPlaced s p type) →
        (finishPromotion s type).enPassant =
          if e.gameOver = false ∧ e.whiteToMove = pm.white ∧
              e.board.get pm.src.1 pm.src.2 ≠ '.' ∧
              isWhite (e.board.get pm.src.1 pm.src.2) = pm.white ∧
              (pm.dst.1, pm.dst.2) ∈ legalMoves e pm.src.1 pm.src.2 ∧
              isPromo e pm.src.1 pm.src.2 pm.dst.1 = false then
            (if (e.board.get pm.src.1 pm.src.2).toLower = 'p' ∧
                (pm.dst.1 - pm.src.1).natAbs = 2 then
              some (pm.src.1 + dirOf (e.board.get pm.src.1 pm.src.2), pm.src.2)
            else none)
          else none) := by
  have hmove : ∀ (t : State) (sr sc tr tc : Int), (move t sr sc tr tc).enPassant =
        (if (t.board.get sr sc).toLower = 'p' ∧ (tr - sr).natAbs = 2 then
          some (sr + dirOf (t.board.get sr sc), sc)
        else none) := by
    intro t sr sc tr tc
    rw [move_enPassant]
    by_cases hc : (t.board.get sr sc).toLower = 'p' ∧ (tr - sr).natAbs = 2
    · simp [hc]
    · rw [if_neg hc, if_neg]
      simpa using hc
  refine ⟨?_, ?_⟩
  · intro sr sc tr tc _
    refine ⟨hmove s sr sc tr tc, ?_⟩
    intro hpm
    rw [postMoveUpdate_no_premove _ (by rw [move_premove]; exact hpm)]
    exact (render_evaluate_fields _).2.2.1
  · intro type p hp
    have heq := finishPromotion_eq_placed s p type hp
    refine ⟨heq, rfl, ?_, ?_⟩
    · intro hpm
      have hpm2 : (promotionPlaced s p type).premove = none := hpm
      rw [heq, postMoveUpdate_no_premove _ hpm2, (render_evaluate_fields _).2.2.1]
      rfl
    · intro pm e hpm he
      subst he
      have hpm2 : (promotionPlaced s p type).premove = some pm := hpm
      rw [heq, postMoveUpdate_enPassant_eq _ pm hpm2, hmove]
      rfl

/-- C8 at the pending promotion a7-a8 with Black's premove h7-h5 stored: the
state handed to `postMoveUpdate` has no target, and the target on return is the
one the premove sets. -/
theorem enPassant_after_move_and_promotion_witness :
    finishPromotion promotionWithPremove 'Q'
        = postMoveUpdate (promotionPlaced promotionWithPremove ⟨1, 0, 0, 0, true⟩ 'Q') ∧
      (promotionPlaced promotionWithPremove ⟨1, 0, 0, 0, true⟩ 'Q').enPassant = none :=
  ⟨((enPassant_after_move_and_promotion promotionWithPremove).2 'Q' ⟨1, 0, 0, 0, true⟩ rfl).1,
    ((enPassant_after_move_and_promotion promotionWithPremove).2 'Q' ⟨1, 0, 0, 0, true⟩ rfl).2.1⟩

/-- C8 (counterexample to "finishPromotion always leaves it null"): called on
the pending promotion a7-a8 while Black's premove h7-h5 is stored,
`finishPromotion` returns with the target h6 set by that premove. -/
theorem finishPromotion_enPassant_not_null :
    promotionWithPremove.promotionPending = some ⟨1, 0, 0, 0, true⟩ ∧
    promotionWithPremove.premove = some ⟨(1, 7), (3, 7), false⟩ ∧
    promotionWithPremove.enPassant = none ∧
    (finishPromotion promotionWithPremove 'Q').enPassant = some (2, 7) := by
  decide!

/-! ## The attack detector meets its specification -/
/-- The test `isSquareAttacked` applies to the first occupied cell of a ray. -/
theorem attacker_iff (p k1 k2 : Char) (w : Bool)
    (h1 : 97 ≤ k1.toNat ∧ k1.toNat ≤ 122) (h2 : 97 ≤ k2.toNat ∧ k2.toNat ≤ 122) :
    ((if w then isWhite p else isBlack p) && (p.toLower == k1 || p.toLower == k2)) = true ↔
      p = pieceOf w k1 ∨ p = pieceOf w k2 := by
  simp only [Bool.and_eq_true, Bool.or_eq_true, beq_iff_eq, pieceOf]
  cases w
  · simp only [Bool.false_eq_true, if_false]
    rw [← isBlack_and_toLower p k1 h1, ← isBlack_and_toLower p k2 h2]
    tauto
  · simp only [if_true]
    rw [← isWhite_and_toLower p k1 h1, ← isWhite_and_toLower p k2 h2]
    tauto

theorem pieceOf_ne_dot (w : Bool) (k : Char) (h : 97 ≤ k.toNat ∧ k.toNat ≤ 122) :
    pieceOf w k ≠ '.' := by
  unfold pieceOf
  rw [Ne, char_eq_iff]
  have h3 : '.'.toNat = 46 := rfl
  cases w
  · simp only [Bool.false_eq_true, if_false]; omega
  · simp only [if_true, toNat_toUpper]
    split_ifs
    all_goals omega

/-- One ray of `isSquareAttacked`, without the step budget in the way: the ray
reports an attacker exactly when, after some number `j` of steps over empty
squares of the board, it stands on a square of the board holding the piece. -/
theorem attackRay_iff (b : Board) (w : Bool) (k1 k2 : Char)
    (h1 : 97 ≤ k1.toNat ∧ k1.toNat ≤ 122) (h2 : 97 ≤ k2.toNat ∧ k2.toNat ≤ 122)
    (dr dc : Int) (n : Nat) :
    ∀ nr nc : Int, attackRay b w k1 k2 dr dc n nr nc = true ↔
      ∃ j : Nat, j < n ∧ (∀ i : Nat, i ≤ j → isInside (nr + i * dr) (nc + i * dc) = true) ∧
        (∀ i : Nat, i < j → b.get (nr + i * dr) (nc + i * dc) = '.') ∧
        (b.get (nr + j * dr) (nc + j * dc) = pieceOf w k1 ∨
          b.get (nr + j * dr) (nc + j * dc) = pieceOf w k2) := by
  induction n with
  | zero => intro nr nc; simp [attackRay]
  | succ n ih =>
    intro nr nc
    rw [attackRay]
    by_cases hin : isInside nr nc = true
    · rw [if_pos hin]
      by_cases hp : b.get nr nc = '.'
      · simp only [hp, bne_self_eq_false, Bool.false_eq_true, if_false]
        rw [ih]
        constructor
        · rintro ⟨j, hj, hins, hemp, hat⟩
          refine ⟨j + 1, by omega, ?_, ?_, ?_⟩
          · intro i hi
            rcases Nat.eq_zero_or_pos i with rfl | hpos
            · simpa using hin
            · have := hins (i - 1) (by omega)
              have e : ((i - 1 : Nat) : Int) = (i : Int) - 1 := by omega
              rw [e] at this
              rw [← this]; congr 1 <;> ring
          · intro i hi
            rcases Nat.eq_zero_or_pos i with rfl | hpos
            · simpa using hp
            · have := hemp (i - 1) (by omega)
              have e : ((i - 1 : Nat) : Int) = (i : Int) - 1 := by omega
              rw [e] at this
              rw [← this]; congr 1 <;> ring
          · have e1 : nr + ((j + 1 : Nat) : Int) * dr = nr + dr + j * dr := by push_cast; ring
            have e2 : nc + ((j + 1 : Nat) : Int) * dc = nc + dc + j * dc := by push_cast; ring
            rw [e1, e2]; exact hat
        · rintro ⟨j, hj, hins, hemp, hat⟩
          rcases Nat.eq_zero_or_pos j with rfl | hpos
          · exfalso
            simp only [Nat.cast_zero, zero_mul, add_zero] at hat
            rw [hp] at hat
            rcases hat with hat | hat
            · exact pieceOf_ne_dot w k1 h1 hat.symm
            · exact pieceOf_ne_dot w k2 h2 hat.symm
          · refine ⟨j - 1, by omega, ?_, ?_, ?_⟩
            · intro i hi
              have := hins (i + 1) (by omega)
              rw [← this]; congr 1 <;> (push_cast; ring)
            · intro i hi
              have := hemp (i + 1) (by omega)
              rw [← this]; congr 1 <;> (push_cast; ring)
            · have e : ((j - 1 : Nat) : Int) = (j : Int) - 1 := by omega
              rw [e]
              have e1 : nr + dr + ((j : Int) - 1) * dr = nr + j * dr := by ring
              have e2 : nc + dc + ((j : Int) - 1) * dc = nc + j * dc := by ring
              rw [e1, e2]; exact hat
      · have hp' : (b.get nr nc != '.') = true := by simpa using hp
        simp only [hp', if_true]
        rw [attacker_iff _ _ _ _ h1 h2]
        constructor
        · intro hat
          refine ⟨0, by omega, ?_, ?_, ?_⟩
          · intro i hi
            have : i = 0 := by omega
            subst this; simpa using hin
          · intro i hi; omega
          · simpa using hat
        · rintro ⟨j, hj, hins, hemp, hat⟩
          rcases Nat.eq_zero_or_pos j with rfl | hpos
          · simpa using hat
          · exfalso
            have := hemp 0 hpos
            simp only [Nat.cast_zero, zero_mul, add_zero] at this
            exact hp this
    · rw [if_neg hin]
      simp only [Bool.false_eq_true, false_iff, not_exists, not_and]
      intro j _ hins
      exfalso
      have := hins 0 (by omega)
      simp only [Nat.cast_zero, zero_mul, add_zero] at this
      exact hin this
/-- A ray of `isSquareAttacked` started next to a square of the board, in the
words of the specification (the budget of 8 steps is never exhausted). -/
theorem attackRay_spec (b : Board) (w : Bool) (k1 k2 : Char)
    (h1 : 97 ≤ k1.toNat ∧ k1.toNat ≤ 122) (h2 : 97 ≤ k2.toNat ∧ k2.toNat ≤ 122)
    (r c : Int) (hin : isInside r c = true) (dr dc : Int)
    (hdr : dr = 1 ∨ dr = -1 ∨ dr = 0) (hdc : dc = 1 ∨ dc = -1 ∨ dc = 0)
    (hne : dr ≠ 0 ∨ dc ≠ 0) :
    attackRay b w k1 k2 dr dc 8 (r + dr) (c + dc) = true ↔
      ∃ k : Nat, 1 ≤ k ∧ isInside (r + k * dr) (c + k * dc) = true ∧
        (b.get (r + k * dr) (c + k * dc) = pieceOf w k1 ∨
          b.get (r + k * dr) (c + k * dc) = pieceOf w k2) ∧
        ∀ j : Nat, 1 ≤ j → j < k → b.get (r + j * dr) (c + j * dc) = '.' := by
  rw [attackRay_iff b w k1 k2 h1 h2]
  have e1 : ∀ i : Nat, r + dr + (i : Int) * dr = r + ((i + 1 : Nat) : Int) * dr := by
    intro i; push_cast; ring
  have e2 : ∀ i : Nat, c + dc + (i : Int) * dc = c + ((i + 1 : Nat) : Int) * dc := by
    intro i; push_cast; ring
  simp only [e1, e2]
  constructor
  · rintro ⟨j, hj, hins, hemp, hat⟩
    refine ⟨j + 1, by omega, hins j (le_refl _), hat, ?_⟩
    intro i hi1 hi2
    have := hemp (i - 1) (by omega)
    have e : i - 1 + 1 = i := by omega
    rw [e] at this
    exact this
  · rintro ⟨k, hk, hink, hat, hemp⟩
    rw [isInside_iff] at hin hink
    refine ⟨k - 1, ?_, ?_, ?_, ?_⟩
    · rcases hdr with rfl | rfl | rfl <;> rcases hdc with rfl | rfl | rfl <;>
        simp only [mul_one, mul_neg, mul_zero, add_zero] at hink <;> omega
    · intro i hi
      rw [isInside_iff]
      rcases hdr with rfl | rfl | rfl <;> rcases hdc with rfl | rfl | rfl <;>
        simp only [mul_one, mul_neg, mul_zero, add_zero] at hink ⊢ <;> push_cast <;> omega
    · intro i hi
      exact hemp (i + 1) (by omega) (by omega)
    · have e : k - 1 + 1 = k := by omega
      rw [e]; exact hat
theorem stepAttacker_iff (p k : Char) (w : Bool) (hk : 97 ≤ k.toNat ∧ k.toNat ≤ 122) :
    (p != '.' && (if w then isWhite p else isBlack p) && p.toLower == k) = true ↔
      p = pieceOf w k := by
  have h := attacker_iff p k k w hk hk
  simp only [Bool.or_self, or_self] at h
  rw [← h]
  simp only [Bool.and_eq_true, bne_iff_ne, ne_eq, beq_iff_eq]
  constructor
  · rintro ⟨⟨-, h1⟩, h2⟩; exact ⟨h1, h2⟩
  · rintro ⟨h1, h2⟩
    refine ⟨⟨?_, h1⟩, h2⟩
    intro hdot
    rw [hdot] at h1
    revert h1
    cases w <;> decide

theorem mem_knightDeltas_iff (dr dc : Int) :
    (dr, dc) ∈ knightDeltas ↔
      (dr.natAbs = 1 ∧ dc.natAbs = 2) ∨ (dr.natAbs = 2 ∧ dc.natAbs = 1) := by
  simp only [knightDeltas, List.mem_cons, List.mem_singleton, Prod.mk.injEq, List.not_mem_nil,
    or_false]
  omega

theorem mem_kingDeltas_iff (dr dc : Int) :
    (dr, dc) ∈ kingDeltas ↔ dr.natAbs ≤ 1 ∧ dc.natAbs ≤ 1 ∧ (dr ≠ 0 ∨ dc ≠ 0) := by
  simp only [kingDeltas, List.mem_cons, List.mem_singleton, Prod.mk.injEq, List.not_mem_nil,
    or_false]
  omega

theorem mem_diagDirs_iff (dr dc : Int) :
    (dr, dc) ∈ diagDirs ↔ dr.natAbs = 1 ∧ dc.natAbs = 1 := by
  simp only [diagDirs, List.mem_cons, List.mem_singleton, Prod.mk.injEq, List.not_mem_nil,
    or_false]
  omega

theorem mem_orthoDirs_iff (dr dc : Int) :
    (dr, dc) ∈ orthoDirs ↔ dr.natAbs + dc.natAbs = 1 := by
  simp only [orthoDirs, List.mem_cons, List.mem_singleton, Prod.mk.injEq, List.not_mem_nil,
    or_false]
  omega

theorem isSquareAttacked_iff (b : Board) (r c : Int) (w d : Bool) (hin : isInside r c = true) :
    isSquareAttacked b r c w d = true ↔ AttackedSpec b r c w := by
  have hl : ∀ k : Char, k ∈ ['p', 'n', 'b', 'r', 'q', 'k'] → 97 ≤ k.toNat ∧ k.toNat ≤ 122 := by
    decide
  unfold isSquareAttacked AttackedSpec
  simp only [Bool.or_eq_true, List.any_eq_true, or_assoc]
  refine or_congr ?_ (or_congr ?_ (or_congr ?_ (or_congr ?_ ?_)))
  · -- pawns
    have hP : pieceOf w 'p' = (if w then 'P' else 'p') := by cases w <;> rfl
    rw [hP]
    constructor
    · rintro ⟨dc, hdc, h⟩
      simp only [Bool.and_eq_true, beq_iff_eq] at h
      refine ⟨c + dc, ?_, h.1, h.2⟩
      simp only [List.mem_cons, List.mem_singleton, List.not_mem_nil, or_false] at hdc
      omega
    · rintro ⟨pc, hpc, h1, h2⟩
      refine ⟨pc - c, ?_, ?_⟩
      · simp only [List.mem_cons, List.mem_singleton, List.not_mem_nil, or_false]
        omega
      · have e : c + (pc - c) = pc := by ring
        simp only [e, Bool.and_eq_true, beq_iff_eq]
        exact ⟨h1, h2⟩
  · -- knights
    constructor
    · rintro ⟨⟨dr, dc⟩, hd, h⟩
      rw [Bool.and_eq_true] at h
      exact ⟨dr, dc, (mem_knightDeltas_iff dr dc).1 hd, h.1,
        (stepAttacker_iff _ 'n' w (hl _ (by decide))).1 h.2⟩
    · rintro ⟨dr, dc, hd, h1, h2⟩
      refine ⟨(dr, dc), (mem_knightDeltas_iff dr dc).2 hd, ?_⟩
      rw [Bool.and_eq_true]
      exact ⟨h1, (stepAttacker_iff _ 'n' w (hl _ (by decide))).2 h2⟩
  · -- diagonals
    constructor
    · rintro ⟨⟨dr, dc⟩, hd, h⟩
      have hd' := (mem_diagDirs_iff dr dc).1 hd
      obtain ⟨k, hk, h1, h2, h3⟩ := (attackRay_spec b w 'b' 'q' (hl _ (by decide))
        (hl _ (by decide)) r c hin dr dc (by omega) (by omega) (by omega)).1 h
      exact ⟨dr, dc, k, hd'.1, hd'.2, hk, h1, h2, h3⟩
    · rintro ⟨dr, dc, k, hd1, hd2, hk, h1, h2, h3⟩
      exact ⟨(dr, dc), (mem_diagDirs_iff dr dc).2 ⟨hd1, hd2⟩,
        (attackRay_spec b w 'b' 'q' (hl _ (by decide)) (hl _ (by decide)) r c hin dr dc
          (by omega) (by omega) (by omega)).2 ⟨k, hk, h1, h2, h3⟩⟩
  · -- straight lines
    constructor
    · rintro ⟨⟨dr, dc⟩, hd, h⟩
      have hd' := (mem_orthoDirs_iff dr dc).1 hd
      obtain ⟨k, hk, h1, h2, h3⟩ := (attackRay_spec b w 'r' 'q' (hl _ (by decide))
        (hl _ (by decide)) r c hin dr dc (by omega) (by omega) (by omega)).1 h
      exact ⟨dr, dc, k, hd', hk, h1, h2, h3⟩
    · rintro ⟨dr, dc, k, hd, hk, h1, h2, h3⟩
      exact ⟨(dr, dc), (mem_orthoDirs_iff dr dc).2 hd,
        (attackRay_spec b w 'r' 'q' (hl _ (by decide)) (hl _ (by decide)) r c hin dr dc
          (by omega) (by omega) (by omega)).2 ⟨k, hk, h1, h2, h3⟩⟩
  · -- king
    constructor
    · rintro ⟨⟨dr, dc⟩, hd, h⟩
      rw [Bool.and_eq_true] at h
      obtain ⟨g1, g2, g3⟩ := (mem_kingDeltas_iff dr dc).1 hd
      exact ⟨dr, dc, g1, g2, g3, h.1,
        (stepAttacker_iff _ 'k' w (hl _ (by decide))).1 h.2⟩
    · rintro ⟨dr, dc, g1, g2, g3, h1, h2⟩
      refine ⟨(dr, dc), (mem_kingDeltas_iff dr dc).2 ⟨g1, g2, g3⟩, ?_⟩
      rw [Bool.and_eq_true]
      exact ⟨h1, (stepAttacker_iff _ 'k' w (hl _ (by decide))).2 h2⟩
theorem step_ne (r c dr dc : Int) (k : Nat) (hk : 1 ≤ k)
    (hdr : dr = 1 ∨ dr = -1 ∨ dr = 0) (hdc : dc = 1 ∨ dc = -1 ∨ dc = 0)
    (hne : dr ≠ 0 ∨ dc ≠ 0) : r + k * dr ≠ r ∨ c + k * dc ≠ c := by
  rcases hdr with rfl | rfl | rfl <;> rcases hdc with rfl | rfl | rfl <;>
    simp only [mul_one, mul_neg, mul_zero, add_zero] <;> omega

/-- The specification's attack relation on `(r,c)` reads the board only at
squares other than `(r,c)`. -/
theorem attackedSpec_of_agree (b b' : Board) (r c : Int) (w : Bool)
    (hag : ∀ r' c' : Int, (r' ≠ r ∨ c' ≠ c) → b'.get r' c' = b.get r' c')
    (h : AttackedSpec b r c w) : AttackedSpec b' r c w := by
  unfold AttackedSpec at h ⊢
  rcases h with ⟨pc, hpc, h1, h2⟩ | ⟨dr, dc, hd, h1, h2⟩ | ⟨dr, dc, k, hd1, hd2, hk, h1, h2, h3⟩ |
    ⟨dr, dc, k, hd, hk, h1, h2, h3⟩ | ⟨dr, dc, g1, g2, g3, h1, h2⟩
  · refine Or.inl ⟨pc, hpc, h1, ?_⟩
    rw [hag _ _ (by omega)]; exact h2
  · refine Or.inr (Or.inl ⟨dr, dc, hd, h1, ?_⟩)
    rw [hag _ _ (by omega)]; exact h2
  · have hs : ∀ j : Nat, 1 ≤ j → (r + j * dr ≠ r ∨ c + j * dc ≠ c) :=
      fun j hj => step_ne r c dr dc j hj (by omega) (by omega) (by omega)
    refine Or.inr (Or.inr (Or.inl ⟨dr, dc, k, hd1, hd2, hk, h1, ?_, ?_⟩))
    · rw [hag _ _ (hs k hk)]; exact h2
    · intro j hj1 hj2
      rw [hag _ _ (hs j hj1)]; exact h3 j hj1 hj2
  · have hs : ∀ j : Nat, 1 ≤ j → (r + j * dr ≠ r ∨ c + j * dc ≠ c) :=
      fun j hj => step_ne r c dr dc j hj (by omega) (by omega) (by omega)
    refine Or.inr (Or.inr (Or.inr (Or.inl ⟨dr, dc, k, hd, hk, h1, ?_, ?_⟩)))
    · rw [hag _ _ (hs k hk)]; exact h2
    · intro j hj1 hj2
      rw [hag _ _ (hs j hj1)]; exact h3 j hj1 hj2
  · refine Or.inr (Or.inr (Or.inr (Or.inr ⟨dr, dc, g1, g2, g3, h1, ?_⟩)))
    rw [hag _ _ (by omega)]; exact h2

/-- `isSquareAttacked` on a square of the board gives the same answer on two
boards that agree everywhere except possibly on that square. -/
theorem isSquareAttacked_of_agree (b b' : Board) (r c : Int) (w d d' : Bool)
    (hin : isInside r c = true)
    (hag : ∀ r' c' : Int, (r' ≠ r ∨ c' ≠ c) → b'.get r' c' = b.get r' c') :
    isSquareAttacked b' r c w d' = isSquareAttacked b r c w d := by
  have h1 := isSquareAttacked_iff b r c w d hin
  have h2 := isSquareAttacked_iff b' r c w d' hin
  have h3 : AttackedSpec b' r c w ↔ AttackedSpec b r c w :=
    ⟨attackedSpec_of_agree b' b r c w (fun r' c' h => (hag r' c' h).symm),
      attackedSpec_of_agree b b' r c w hag⟩
  cases ha : isSquareAttacked b r c w d <;> cases hb : isSquareAttacked b' r c w d' <;>
    simp_all

/-- C2: for every board, every square `(r,c)` of the board and either colour,
`isSquareAttacked(r,c,byWhite,_)` is true exactly when the board holds a piece
of the attacking colour that is a pawn on `(r+1,c-1)` or `(r+1,c+1)` (White
attacking) or on `(r-1,c-1)` or `(r-1,c+1)` (Black attacking), or a knight at
one of the eight L-shaped offsets, or a bishop or queen on a diagonal ray from
`(r,c)` with every square strictly between empty, or a rook or queen on an
orthogonal ray with every square strictly between empty, or a king on one of
the eight adjacent squares; the result depends neither on the fourth argument
nor on what occupies `(r,c)`. -/
theorem isSquareAttacked_spec (b : Board) (r c : Int) (byWhite : Bool)
    (hin : isInside r c = true) :
    (∀ d : Bool, isSquareAttacked b r c byWhite d = true ↔ AttackedSpec b r c byWhite) ∧
    (∀ d d' : Bool, isSquareAttacked b r c byWhite d = isSquareAttacked b r c byWhite d') ∧
    (∀ (v : Char) (d : Bool),
      isSquareAttacked (b.set r c v) r c byWhite d = isSquareAttacked b r c byWhite d) := by
  refine ⟨fun d => isSquareAttacked_iff b r c byWhite d hin, fun d d' => rfl, ?_⟩
  intro v d
  apply isSquareAttacked_of_agree b (b.set r c v) r c byWhite d d hin
  intro r' c' hne
  rw [Board.get_set, if_neg]
  omega

/-- C2 on the initial board at e3, attacked by White. -/
theorem isSquareAttacked_spec_witness :
    (∀ d : Bool, isSquareAttacked initialState.board 5 4 true d = true ↔
      AttackedSpec initialState.board 5 4 true) ∧
    (∀ d d' : Bool, isSquareAttacked initialState.board 5 4 true d
      = isSquareAttacked initialState.board 5 4 true d') ∧
    (∀ (v : Char) (d : Bool),
      isSquareAttacked (initialState.board.set 5 4 v) 5 4 true d
        = isSquareAttacked initialState.board 5 4 true d) :=
  isSquareAttacked_spec initialState.board 5 4 true (by decide)

/-! ## Castling -/
theorem find?_unique {α : Type} (p : α → Bool) (l : List α) (x : α) (hx : x ∈ l) (hp : p x = true)
    (huniq : ∀ y ∈ l, p y = true → y = x) : l.find? p = some x := by
  induction l with
  | nil => exact absurd hx (List.not_mem_nil _)
  | cons a rest ih =>
    by_cases ha : p a = true
    · rw [List.find?_cons_of_pos _ ha, huniq a (List.mem_cons_self _ _) ha]
    · rw [List.find?_cons_of_neg _ ha]
      rcases List.mem_cons.1 hx with rfl | hx'
      · exact absurd hp ha
      · exact ih hx' (fun y hy => huniq y (List.mem_cons_of_mem _ hy))

theorem findKing_unique (b : Board) (white : Bool) (sq : Square) (hin : sq ∈ allSquares)
    (h : b.get sq.1 sq.2 = (if white then 'K' else 'k'))
    (huniq : ∀ sq' ∈ allSquares, b.get sq'.1 sq'.2 = (if white then 'K' else 'k') → sq' = sq) :
    findKing b white = sq := by
  unfold findKing
  simp only
  rw [find?_unique _ allSquares sq hin (by simpa using h)
    (fun y hy hp => huniq y hy (by simpa using hp))]

/-- After castling (wK) the king's destination is attacked exactly when
it was attacked before. -/
theorem attacked_after_castle_wK (b : Board) (hK : b.get 7 4 = 'K')
    (hR : b.get 7 7 = 'R') (he5 : b.get 7 5 = '.') :
    isSquareAttacked ((((b.set 7 6 'K').set 7 4 '.').set 7 5 'R').set 7 7 '.')
        7 6 false true
      = isSquareAttacked b 7 6 false true := by
  simp only [isSquareAttacked, Int.reduceNeg, isInside, Bool.false_eq_true, ↓reduceIte,
    Int.reduceSub, Nat.ofNat_nonneg, decide_True, Int.reduceLT, Bool.and_self, Bool.true_and,
    ↓Char.isValue, Board.get_set, OfNat.ofNat_eq_ofNat, Nat.reduceEqDiff, false_and,
    add_right_eq_self, List.any_cons, Int.reduceAdd, List.any_nil, Bool.or_false, knightDeltas,
    decide_False, Bool.and_false, Bool.and_true, OfNat.ofNat_ne_zero, and_true, and_self,
    one_ne_zero, Bool.false_and, Nat.succ_ne_self, neg_eq_zero, lt_self_iff_false,
    Bool.false_or, diagDirs, Prod.mk_one_one, attackRay, Bool.and_eq_true, decide_eq_true_eq,
    bne_iff_ne, ne_eq, ite_eq_left_iff, not_and, Classical.not_imp, Bool.if_false_right,
    Bool.decide_and, decide_implies, decide_not, dite_eq_ite, Bool.if_true_right, Prod.fst_one,
    Prod.snd_one, not_true_eq_false, imp_self, true_and, not_false_eq_true, implies_true,
    Bool.not_false, Bool.or_self, ite_not, Bool.if_false_left, zero_le_one, Nat.one_lt_ofNat,
    OfNat.one_ne_ofNat, add_neg_cancel, le_refl, Nat.ofNat_pos, OfNat.zero_ne_ofNat, zero_add,
    Left.nonneg_neg_iff, Int.reduceLE, reduceCtorEq, orthoDirs, add_zero, imp_false, and_false,
    Char.reduceEq, Bool.not_true, Bool.or_true, Char.reduceToLower, beq_self_eq_true,
    Char.reduceBEq, kingDeltas, Char.reduceBNe, bne_self_eq_false, nonneg_add_self_iff,
    add_self_eq_zero, neg_lt_self_iff, hK, hR, he5]

theorem castle_wK_iff (s : State) (hK : s.board.get 7 4 = 'K')
    (honly : ∀ sq ∈ allSquares, s.board.get sq.1 sq.2 = 'K' → sq = (7, 4))
    (hR : s.board.get 7 7 = 'R') :
    ((7, 6) : Square) ∈ legalMoves s 7 4 ↔
      s.castle.wK = true ∧ s.board.get 7 5 = '.' ∧ s.board.get 7 6 = '.' ∧
      isSquareAttacked s.board 7 4 false true = false ∧
      isSquareAttacked s.board 7 5 false true = false ∧
      isSquareAttacked s.board 7 6 false true = false := by
  have hlow : (s.board.get 7 4).toLower = 'k' := by rw [hK]; rfl
  have hw : isWhite (s.board.get 7 4) = true := by rw [hK]; rfl
  rw [mem_legalMoves, pseudoLegalMoves_king s 7 4 hlow, mem_kingMoves_iff, hw]
  have hsteps : ((7, 6) : Square) ∉
      kingDeltas.foldl (fun moves d => add s.board true moves (7 + d.1) (4 + d.2)) [] := by
    intro hmem
    have := (mem_kingSteps _ _ _ _ _ hmem).2.1
    simp at this
  have hcond : (s.castle.wK && s.board.get 7 5 == '.' && s.board.get 7 6 == '.'
        && !isSquareAttacked s.board 7 4 false true && !isSquareAttacked s.board 7 5 false true && !isSquareAttacked s.board 7 6 false true) = true ↔
      (s.castle.wK = true ∧ s.board.get 7 5 = '.' ∧ s.board.get 7 6 = '.' ∧
      isSquareAttacked s.board 7 4 false true = false ∧
      isSquareAttacked s.board 7 5 false true = false ∧
      isSquareAttacked s.board 7 6 false true = false) := by
    simp only [Bool.and_eq_true, beq_iff_eq, Bool.not_eq_true', and_assoc]
  simp only [hsteps, false_or, true_and, hcond]
  constructor
  · rintro ⟨-, h, -⟩
    simpa using h
  · intro h
    refine ⟨by rw [hK]; decide, by simpa using h, ?_⟩
    obtain ⟨-, he5, he6, -, -, ha⟩ := h
    have hb : (applyMoveForTest s 7 4 7 6).board =
        (((s.board.set 7 6 'K').set 7 4 '.').set 7 5 'R').set 7 7 '.' := by
      rw [applyMoveForTest_board]
      have hwK : isWhite 'K' = true := by decide
      have hlK : ('K' : Char).toLower = 'k' := by decide
      simp [epStage, placeStageTest, queenStage, hK, hR, hwK, hlK]
    have hking : findKing (applyMoveForTest s 7 4 7 6).board true = (7, 6) := by
      apply findKing_unique _ true (7, 6) (by decide)
      · rw [hb]; simp
      · intro sq hsq hget
        rw [hb] at hget
        simp only [Board.get_set, if_true, Bool.false_eq_true, if_false] at hget
        split_ifs at hget with c1 c2 c3 c4
        · exact absurd hget (by decide)
        · exact absurd hget (by decide)
        · exact absurd hget (by decide)
        · exact Prod.ext c4.1 c4.2
        · have := honly sq hsq hget
          rw [this] at c3
          exact absurd ⟨rfl, rfl⟩ c3
    unfold isOwnKingInCheck
    rw [hking, hb]
    exact (attacked_after_castle_wK s.board hK hR he5).trans ha

/-- After castling (wQ) the king's destination is attacked exactly when
it was attacked before. -/
theorem attacked_after_castle_wQ (b : Board) (hK : b.get 7 4 = 'K')
    (hR : b.get 7 0 = 'R') (he1 : b.get 7 1 = '.') (he3 : b.get 7 3 = '.') :
    isSquareAttacked ((((b.set 7 2 'K').set 7 4 '.').set 7 3 'R').set 7 0 '.')
        7 2 false true
      = isSquareAttacked b 7 2 false true := by
  simp only [isSquareAttacked, Int.reduceNeg, isInside, Bool.false_eq_true, ↓reduceIte,
    Int.reduceSub, Nat.ofNat_nonneg, decide_True, Int.reduceLT, Bool.and_self, Bool.true_and,
    ↓Char.isValue, Board.get_set, OfNat.ofNat_eq_ofNat, Nat.reduceEqDiff, false_and,
    add_right_eq_self, List.any_cons, Int.reduceAdd, List.any_nil, Bool.or_false, knightDeltas,
    decide_False, Bool.and_false, Bool.and_true, OfNat.ofNat_ne_zero, and_true, and_self,
    one_ne_zero, Bool.false_and, Nat.succ_ne_self, neg_eq_zero, lt_self_iff_false,
    Bool.false_or, diagDirs, Prod.mk_one_one, attackRay, Bool.and_eq_true, decide_eq_true_eq,
    bne_iff_ne, ne_eq, ite_eq_left_iff, not_and, Classical.not_imp, Bool.if_false_right,
    Bool.decide_and, decide_implies, decide_not, dite_eq_ite, Bool.if_true_right, Prod.fst_one,
    Prod.snd_one, not_true_eq_false, imp_self, true_and, not_false_eq_true, implies_true,
    Bool.not_false, Bool.or_self, ite_not, Bool.if_false_left, zero_le_one, Nat.one_lt_ofNat,
    OfNat.one_ne_ofNat, add_neg_cancel, le_refl, Nat.ofNat_pos, OfNat.zero_ne_ofNat, zero_add,
    Left.nonneg_neg_iff, Int.reduceLE, reduceCtorEq, orthoDirs, add_zero, imp_false, and_false,
    Char.reduceEq, Bool.not_true, Bool.or_true, Char.reduceToLower, beq_self_eq_true,
    Char.reduceBEq, kingDeltas, Char.reduceBNe, bne_self_eq_false, nonneg_add_self_iff,
    add_self_eq_zero, neg_lt_self_iff, hK, hR, he1, he3]

theorem castle_wQ_iff (s : State) (hK : s.board.get 7 4 = 'K')
    (honly : ∀ sq ∈ allSquares, s.board.get sq.1 sq.2 = 'K' → sq = (7, 4))
    (hR : s.board.get 7 0 = 'R') :
    ((7, 2) : Square) ∈ legalMoves s 7 4 ↔
      s.castle.wQ = true ∧ s.board.get 7 1 = '.' ∧ s.board.get 7 2 = '.' ∧ s.board.get 7 3 = '.' ∧
      isSquareAttacked s.board 7 4 false true = false ∧
      isSquareAttacked s.board 7 3 false true = false ∧
      isSquareAttacked s.board 7 2 false true = false := by
  have hlow : (s.board.get 7 4).toLower = 'k' := by rw [hK]; rfl
  have hw : isWhite (s.board.get 7 4) = true := by rw [hK]; rfl
  rw [mem_legalMoves, pseudoLegalMoves_king s 7 4 hlow, mem_kingMoves_iff, hw]
  have hsteps : ((7, 2) : Square) ∉
      kingDeltas.foldl (fun moves d => add s.board true moves (7 + d.1) (4 + d.2)) [] := by
    intro hmem
    have := (mem_kingSteps _ _ _ _ _ hmem).2.1
    simp at this
  have hcond : (s.castle.wQ && s.board.get 7 1 == '.' && s.board.get 7 2 == '.' && s.board.get 7 3 == '.'
        && !isSquareAttacked s.board 7 4 false true && !isSquareAttacked s.board 7 3 false true && !isSquareAttacked s.board 7 2 false true) = true ↔
      (s.castle.wQ = true ∧ s.board.get 7 1 = '.' ∧ s.board.get 7 2 = '.' ∧ s.board.get 7 3 = '.' ∧
      isSquareAttacked s.board 7 4 false true = false ∧
      isSquareAttacked s.board 7 3 false true = false ∧
      isSquareAttacked s.board 7 2 false true = false) := by
    simp only [Bool.and_eq_true, beq_iff_eq, Bool.not_eq_true', and_assoc]
  simp only [hsteps, false_or, true_and, hcond]
  constructor
  · rintro ⟨-, h, -⟩
    simpa using h
  · intro h
    refine ⟨by rw [hK]; decide, by simpa using h, ?_⟩
    obtain ⟨-, he1, he2, he3, -, -, ha⟩ := h
    have hb : (applyMoveForTest s 7 4 7 2).board =
        (((s.board.set 7 2 'K').set 7 4 '.').set 7 3 'R').set 7 0 '.' := by
      rw [applyMoveForTest_board]
      have hwK : isWhite 'K' = true := by decide
      have hlK : ('K' : Char).toLower = 'k' := by decide
      simp [epStage, placeStageTest, queenStage, hK, hR, hwK, hlK]
    have hking : findKing (applyMoveForTest s 7 4 7 2).board true = (7, 2) := by
      apply findKing_unique _ true (7, 2) (by decide)
      · rw [hb]; simp
      · intro sq hsq hget
        rw [hb] at hget
        simp only [Board.get_set, if_true, Bool.false_eq_true, if_false] at hget
        split_ifs at hget with c1 c2 c3 c4
        · exact absurd hget (by decide)
        · exact absurd hget (by decide)
        · exact absurd hget (by decide)
        · exact Prod.ext c4.1 c4.2
        · have := honly sq hsq hget
          rw [this] at c3
          exact absurd ⟨rfl, rfl⟩ c3
    unfold isOwnKingInCheck
    rw [hking, hb]
    exact (attacked_after_castle_wQ s.board hK hR he1 he3).trans ha

/-- After castling (bK) the king's destination is attacked exactly when
it was attacked before. -/
theorem attacked_after_castle_bK (b : Board) (hK : b.get 0 4 = 'k')
    (hR : b.get 0 7 = 'r') (he5 : b.get 0 5 = '.') :
    isSquareAttacked ((((b.set 0 6 'k').set 0 4 '.').set 0 5 'r').set 0 7 '.')
        0 6 true false
      = isSquareAttacked b 0 6 true false := by
  simp only [isSquareAttacked, Int.reduceNeg, isInside, Bool.false_eq_true, ↓reduceIte,
    Int.reduceSub, Nat.ofNat_nonneg, decide_True, Int.reduceLT, Bool.and_self, Bool.true_and,
    ↓Char.isValue, Board.get_set, OfNat.ofNat_eq_ofNat, Nat.reduceEqDiff, false_and,
    add_right_eq_self, List.any_cons, Int.reduceAdd, List.any_nil, Bool.or_false, knightDeltas,
    decide_False, Bool.and_false, Bool.and_true, OfNat.ofNat_ne_zero, and_true, and_self,
    one_ne_zero, Bool.false_and, Nat.succ_ne_self, neg_eq_zero, lt_self_iff_false,
    Bool.false_or, diagDirs, Prod.mk_one_one, attackRay, Bool.and_eq_true, decide_eq_true_eq,
    bne_iff_ne, ne_eq, ite_eq_left_iff, not_and, Classical.not_imp, Bool.if_false_right,
    Bool.decide_and, decide_implies, decide_not, dite_eq_ite, Bool.if_true_right, Prod.fst_one,
    Prod.snd_one, not_true_eq_false, imp_self, true_and, not_false_eq_true, implies_true,
    Bool.not_false, Bool.or_self, ite_not, Bool.if_false_left, zero_le_one, Nat.one_lt_ofNat,
    OfNat.one_ne_ofNat, add_neg_cancel, le_refl, Nat.ofNat_pos, OfNat.zero_ne_ofNat, zero_add,
    Left.nonneg_neg_iff, Int.reduceLE, reduceCtorEq, orthoDirs, add_zero, imp_false, and_false,
    Char.reduceEq, Bool.not_true, Bool.or_true, Char.reduceToLower, beq_self_eq_true,
    Char.reduceBEq, kingDeltas, Char.reduceBNe, bne_self_eq_false, nonneg_add_self_iff,
    add_self_eq_zero, neg_lt_self_iff, hK, hR, he5]

theorem castle_bK_iff (s : State) (hK : s.board.get 0 4 = 'k')
    (honly : ∀ sq ∈ allSquares, s.board.get sq.1 sq.2 = 'k' → sq = (0, 4))
    (hR : s.board.get 0 7 = 'r') :
    ((0, 6) : Square) ∈ legalMoves s 0 4 ↔
      s.castle.bK = true ∧ s.board.get 0 5 = '.' ∧ s.board.get 0 6 = '.' ∧
      isSquareAttacked s.board 0 4 true false = false ∧
      isSquareAttacked s.board 0 5 true false = false ∧
      isSquareAttacked s.board 0 6 true false = false := by
  have hlow : (s.board.get 0 4).toLower = 'k' := by rw [hK]; rfl
  have hw : isWhite (s.board.get 0 4) = false := by rw [hK]; rfl
  rw [mem_legalMoves, pseudoLegalMoves_king s 0 4 hlow, mem_kingMoves_iff, hw]
  have hsteps : ((0, 6) : Square) ∉
      kingDeltas.foldl (fun moves d => add s.board false moves (0 + d.1) (4 + d.2)) [] := by
    intro hmem
    have := (mem_kingSteps _ _ _ _ _ hmem).2.1
    simp at this
  have hcond : (s.castle.bK && s.board.get 0 5 == '.' && s.board.get 0 6 == '.'
        && !isSquareAttacked s.board 0 4 true false && !isSquareAttacked s.board 0 5 true false && !isSquareAttacked s.board 0 6 true false) = true ↔
      (s.castle.bK = true ∧ s.board.get 0 5 = '.' ∧ s.board.get 0 6 = '.' ∧
      isSquareAttacked s.board 0 4 true false = false ∧
      isSquareAttacked s.board 0 5 true false = false ∧
      isSquareAttacked s.board 0 6 true false = false) := by
    simp only [Bool.and_eq_true, beq_iff_eq, Bool.not_eq_true', and_assoc]
  simp only [hsteps, false_or, true_and, hcond]
  constructor
  · rintro ⟨-, h, -⟩
    simpa using h
  · intro h
    refine ⟨by rw [hK]; decide, by simpa using h, ?_⟩
    obtain ⟨-, he5, he6, -, -, ha⟩ := h
    have hb : (applyMoveForTest s 0 4 0 6).board =
        (((s.board.set 0 6 'k').set 0 4 '.').set 0 5 'r').set 0 7 '.' := by
      rw [applyMoveForTest_board]
      have hwK : isWhite 'k' = false := by decide
      have hlK : ('k' : Char).toLower = 'k' := by decide
      simp [epStage, placeStageTest, queenStage, hK, hR, hwK, hlK]
    have hking : findKing (applyMoveForTest s 0 4 0 6).board false = (0, 6) := by
      apply findKing_unique _ false (0, 6) (by decide)
      · rw [hb]; simp
      · intro sq hsq hget
        rw [hb] at hget
        simp only [Board.get_set, if_true, Bool.false_eq_true, if_false] at hget
        split_ifs at hget with c1 c2 c3 c4
        · exact absurd hget (by decide)
        · exact absurd hget (by decide)
        · exact absurd hget (by decide)
        · exact Prod.ext c4.1 c4.2
        · have := honly sq hsq hget
          rw [this] at c3
          exact absurd ⟨rfl, rfl⟩ c3
    unfold isOwnKingInCheck
    rw [hking, hb]
    exact (attacked_after_castle_bK s.board hK hR he5).trans ha

/-- After castling (bQ) the king's destination is attacked exactly when
it was attacked before. -/
theorem attacked_after_castle_bQ (b : Board) (hK : b.get 0 4 = 'k')
    (hR : b.get 0 0 = 'r') (he1 : b.get 0 1 = '.') (he3 : b.get 0 3 = '.') :
    isSquareAttacked ((((b.set 0 2 'k').set 0 4 '.').set 0 3 'r').set 0 0 '.')
        0 2 true false
      = isSquareAttacked b 0 2 true false := by
  simp only [isSquareAttacked, Int.reduceNeg, isInside, Bool.false_eq_true, ↓reduceIte,
    Int.reduceSub, Nat.ofNat_nonneg, decide_True, Int.reduceLT, Bool.and_self, Bool.true_and,
    ↓Char.isValue, Board.get_set, OfNat.ofNat_eq_ofNat, Nat.reduceEqDiff, false_and,
    add_right_eq_self, List.any_cons, Int.reduceAdd, List.any_nil, Bool.or_false, knightDeltas,
    decide_False, Bool.and_false, Bool.and_true, OfNat.ofNat_ne_zero, and_true, and_self,
    one_ne_zero, Bool.false_and, Nat.succ_ne_self, neg_eq_zero, lt_self_iff_false,
    Bool.false_or, diagDirs, Prod.mk_one_one, attackRay, Bool.and_eq_true, decide_eq_true_eq,
    bne_iff_ne, ne_eq, ite_eq_left_iff, not_and, Classical.not_imp, Bool.if_false_right,
    Bool.decide_and, decide_implies, decide_not, dite_eq_ite, Bool.if_true_right, Prod.fst_one,
    Prod.snd_one, not_true_eq_false, imp_self, true_and, not_false_eq_true, implies_true,
    Bool.not_false, Bool.or_self, ite_not, Bool.if_false_left, zero_le_one, Nat.one_lt_ofNat,
    OfNat.one_ne_ofNat, add_neg_cancel, le_refl, Nat.ofNat_pos, OfNat.zero_ne_ofNat, zero_add,
    Left.nonneg_neg_iff, Int.reduceLE, reduceCtorEq, orthoDirs, add_zero, imp_false, and_false,
    Char.reduceEq, Bool.not_true, Bool.or_true, Char.reduceToLower, beq_self_eq_true,
    Char.reduceBEq, kingDeltas, Char.reduceBNe, bne_self_eq_false, nonneg_add_self_iff,
    add_self_eq_zero, neg_lt_self_iff, hK, hR, he1, he3]

theorem castle_bQ_iff (s : State) (hK : s.board.get 0 4 = 'k')
    (honly : ∀ sq ∈ allSquares, s.board.get sq.1 sq.2 = 'k' → sq = (0, 4))
    (hR : s.board.get 0 0 = 'r') :
    ((0, 2) : Square) ∈ legalMoves s 0 4 ↔
      s.castle.bQ = true ∧ s.board.get 0 1 = '.' ∧ s.board.get 0 2 = '.' ∧ s.board.get 0 3 = '.' ∧
      isSquareAttacked s.board 0 4 true false = false ∧
      isSquareAttacked s.board 0 3 true false = false ∧
      isSquareAttacked s.board 0 2 true false = false := by
  have hlow : (s.board.get 0 4).toLower = 'k' := by rw [hK]; rfl
  have hw : isWhite (s.board.get 0 4) = false := by rw [hK]; rfl
  rw [mem_legalMoves, pseudoLegalMoves_king s 0 4 hlow, mem_kingMoves_iff, hw]
  have hsteps : ((0, 2) : Square) ∉
      kingDeltas.foldl (fun moves d => add s.board false moves (0 + d.1) (4 + d.2)) [] := by
    intro hmem
    have := (mem_kingSteps _ _ _ _ _ hmem).2.1
    simp at this
  have hcond : (s.castle.bQ && s.board.get 0 1 == '.' && s.board.get 0 2 == '.' && s.board.get 0 3 == '.'
        && !isSquareAttacked s.board 0 4 true false && !isSquareAttacked s.board 0 3 true false && !isSquareAttacked s.board 0 2 true false) = true ↔
      (s.castle.bQ = true ∧ s.board.get 0 1 = '.' ∧ s.board.get 0 2 = '.' ∧ s.board.get 0 3 = '.' ∧
      isSquareAttacked s.board 0 4 true false = false ∧
      isSquareAttacked s.board 0 3 true false = false ∧
      isSquareAttacked s.board 0 2 true false = false) := by
    simp only [Bool.and_eq_true, beq_iff_eq, Bool.not_eq_true', and_assoc]
  simp only [hsteps, false_or, true_and, hcond]
  constructor
  · rintro ⟨-, h, -⟩
    simpa using h
  · intro h
    refine ⟨by rw [hK]; decide, by simpa using h, ?_⟩
    obtain ⟨-, he1, he2, he3, -, -, ha⟩ := h
    have hb : (applyMoveForTest s 0 4 0 2).board =
        (((s.board.set 0 2 'k').set 0 4 '.').set 0 3 'r').set 0 0 '.' := by
      rw [applyMoveForTest_board]
      have hwK : isWhite 'k' = false := by decide
      have hlK : ('k' : Char).toLower = 'k' := by decide
      simp [epStage, placeStageTest, queenStage, hK, hR, hwK, hlK]
    have hking : findKing (applyMoveForTest s 0 4 0 2).board false = (0, 2) := by
      apply findKing_unique _ false (0, 2) (by decide)
      · rw [hb]; simp
      · intro sq hsq hget
        rw [hb] at hget
        simp only [Board.get_set, if_true, Bool.false_eq_true, if_false] at hget
        split_ifs at hget with c1 c2 c3 c4
        · exact absurd hget (by decide)
        · exact absurd hget (by decide)
        · exact absurd hget (by decide)
        · exact Prod.ext c4.1 c4.2
        · have := honly sq hsq hget
          rw [this] at c3
          exact absurd ⟨rfl, rfl⟩ c3
    unfold isOwnKingInCheck
    rw [hking, hb]
    exact (attacked_after_castle_bQ s.board hK hR he1 he3).trans ha

/-- C3: for each of the four castling options, in a position whose king
concerned stands on its home square (e1, e8), is the only king of its colour on
the board and has the rook concerned on its home corner, the two-file king
destination (g- or c-file) is among `legalMoves` of the king's square exactly
when the corresponding right is held, every square strictly between king and
rook is empty (f and g; b, c and d), and none of the king's origin, transit and
destination squares (e, f, g; e, d, c) is attacked by the opponent.  The
queenside b-file square has to be empty but need not be unattacked. -/
theorem castling_offered_iff (s : State) :
    (s.board.get 7 4 = 'K' →
      (∀ sq ∈ allSquares, s.board.get sq.1 sq.2 = 'K' → sq = (7, 4)) →
      s.board.get 7 7 = 'R' →
      (((7, 6) : Square) ∈ legalMoves s 7 4 ↔
        s.castle.wK = true ∧ s.board.get 7 5 = '.' ∧ s.board.get 7 6 = '.' ∧
        isSquareAttacked s.board 7 4 false true = false ∧
        isSquareAttacked s.board 7 5 false true = false ∧
        isSquareAttacked s.board 7 6 false true = false)) ∧
    (s.board.get 7 4 = 'K' →
      (∀ sq ∈ allSquares, s.board.get sq.1 sq.2 = 'K' → sq = (7, 4)) →
      s.board.get 7 0 = 'R' →
      (((7, 2) : Square) ∈ legalMoves s 7 4 ↔
        s.castle.wQ = true ∧ s.board.get 7 1 = '.' ∧ s.board.get 7 2 = '.' ∧
        s.board.get 7 3 = '.' ∧
        isSquareAttacked s.board 7 4 false true = false ∧
        isSquareAttacked s.board 7 3 false true = false ∧
        isSquareAttacked s.board 7 2 false true = false)) ∧
    (s.board.get 0 4 = 'k' →
      (∀ sq ∈ allSquares, s.board.get sq.1 sq.2 = 'k' → sq = (0, 4)) →
      s.board.get 0 7 = 'r' →
      (((0, 6) : Square) ∈ legalMoves s 0 4 ↔
        s.castle.bK = true ∧ s.board.get 0 5 = '.' ∧ s.board.get 0 6 = '.' ∧
        isSquareAttacked s.board 0 4 true false = false ∧
        isSquareAttacked s.board 0 5 true false = false ∧
        isSquareAttacked s.board 0 6 true false = false)) ∧
    (s.board.get 0 4 = 'k' →
      (∀ sq ∈ allSquares, s.board.get sq.1 sq.2 = 'k' → sq = (0, 4)) →
      s.board.get 0 0 = 'r' →
      (((0, 2) : Square) ∈ legalMoves s 0 4 ↔
        s.castle.bQ = true ∧ s.board.get 0 1 = '.' ∧ s.board.get 0 2 = '.' ∧
        s.board.get 0 3 = '.' ∧
        isSquareAttacked s.board 0 4 true false = false ∧
        isSquareAttacked s.board 0 3 true false = false ∧
        isSquareAttacked s.board 0 2 true false = false)) :=
  ⟨castle_wK_iff s, castle_wQ_iff s, castle_bK_iff s, castle_bQ_iff s⟩

/-- C3 on a position where Black attacks b1 and f1: White's queenside castling
is characterised by the theorem and is offered although b1 is attacked, while
kingside castling, whose transit square f1 is attacked, is not offered. -/
theorem castling_offered_iff_witness :
    (((7, 2) : Square) ∈ legalMoves castleProbe 7 4 ↔
      castleProbe.castle.wQ = true ∧ castleProbe.board.get 7 1 = '.' ∧
      castleProbe.board.get 7 2 = '.' ∧ castleProbe.board.get 7 3 = '.' ∧
      isSquareAttacked castleProbe.board 7 4 false true = false ∧
      isSquareAttacked castleProbe.board 7 3 false true = false ∧
      isSquareAttacked castleProbe.board 7 2 false true = false) ∧
    isSquareAttacked castleProbe.board 7 1 false true = true ∧
    ((7, 2) : Square) ∈ legalMoves castleProbe 7 4 ∧
    isSquareAttacked castleProbe.board 7 5 false true = true ∧
    ((7, 6) : Square) ∉ legalMoves castleProbe 7 4 :=
  ⟨(castling_offered_iff castleProbe).2.1 (by decide!) (by decide!) (by decide!), by decide!⟩

/-! ## The step budgets of the move generator are enough -/

/-- Extra budget changes nothing for a ray of the move generator that has left
the board after `n` steps. -/
theorem slideLoop_extra (b : Board) (w : Bool) (dr dc : Int) (m : Nat) :
    ∀ (n : Nat) (tr tc : Int) (moves : List Square),
      isInside (tr + n * dr) (tc + n * dc) = false →
      slideLoop b w dr dc (n + m) tr tc moves = slideLoop b w dr dc n tr tc moves := by
  intro n
  induction n with
  | zero =>
    intro tr tc moves h
    simp only [Nat.cast_zero, zero_mul, add_zero] at h
    cases m with
    | zero => rfl
    | succ m => simp [slideLoop, h]
  | succ n ih =>
    intro tr tc moves h
    have e : n + 1 + m = (n + m) + 1 := by omega
    rw [e, slideLoop, slideLoop]
    have h' : isInside (tr + dr + n * dr) (tc + dc + n * dc) = false := by
      rw [← h]; congr 1 <;> (push_cast; ring)
    rw [ih _ _ _ h']

theorem legalMovesForLoop_extra (b : Board) (w : Bool) (dr dc : Int) (m : Nat) :
    ∀ (n : Nat) (tr tc : Int) (moves : List Square),
      isInside (tr + n * dr) (tc + n * dc) = false →
      legalMovesForLoop b w dr dc (n + m) tr tc moves
        = legalMovesForLoop b w dr dc n tr tc moves := by
  intro n
  induction n with
  | zero =>
    intro tr tc moves h
    simp only [Nat.cast_zero, zero_mul, add_zero] at h
    cases m with
    | zero => rfl
    | succ m => simp [legalMovesForLoop, h]
  | succ n ih =>
    intro tr tc moves h
    have e : n + 1 + m = (n + m) + 1 := by omega
    rw [e, legalMovesForLoop, legalMovesForLoop]
    have h' : isInside (tr + dr + n * dr) (tc + dc + n * dc) = false := by
      rw [← h]; congr 1 <;> (push_cast; ring)
    simp only [ih _ _ _ h']

/-- Nine steps from a square of the board along a non-zero direction end off the board. -/
theorem off_board_after_eight (r c dr dc : Int) (hin : isInside r c = true)
    (hdr : dr = 1 ∨ dr = -1 ∨ dr = 0) (hdc : dc = 1 ∨ dc = -1 ∨ dc = 0)
    (hne : dr ≠ 0 ∨ dc ≠ 0) :
    isInside (r + dr + (8 : Nat) * dr) (c + dc + (8 : Nat) * dc) = false := by
  rw [isInside_iff] at hin
  rw [← Bool.not_eq_true, isInside_iff]
  rcases hdr with rfl | rfl | rfl <;> rcases hdc with rfl | rfl | rfl <;>
    simp only [mul_one, mul_neg, mul_zero, add_zero] <;> omega

/-- The budget of 8 steps given to the rays of the move generator is enough:
from a square of the board, any larger budget yields the same list. -/
theorem slide_budget (b : Board) (w : Bool) (r c dr dc : Int) (hin : isInside r c = true)
    (hdr : dr = 1 ∨ dr = -1 ∨ dr = 0) (hdc : dc = 1 ∨ dc = -1 ∨ dc = 0)
    (hne : dr ≠ 0 ∨ dc ≠ 0) (m : Nat) (moves : List Square) :
    slideLoop b w dr dc (8 + m) (r + dr) (c + dc) moves
        = slideLoop b w dr dc 8 (r + dr) (c + dc) moves ∧
    legalMovesForLoop b w dr dc (8 + m) (r + dr) (c + dc) moves
        = legalMovesForLoop b w dr dc 8 (r + dr) (c + dc) moves :=
  ⟨slideLoop_extra b w dr dc m 8 _ _ moves (off_board_after_eight r c dr dc hin hdr hdc hne),
   legalMovesForLoop_extra b w dr dc m 8 _ _ moves
     (off_board_after_eight r c dr dc hin hdr hdc hne)⟩

/-! ## The board after `move`: castling, plain moves, promotion -/

theorem king_not_pawn (p : Char) (h : p.toLower = 'k') :
    (p.toLower == 'p') = false ∧ (p == 'P') = false ∧ (p == 'p') = false := by
  rcases (toLower_eq_k_iff p).1 h with rfl | rfl <;> decide

/-- The board after a two-file move of a king along its home row, from its home
square. -/
theorem move_castling_squares (s : State) (sr sc tr tc : Int)
    (hk : (s.board.get sr sc).toLower = 'k')
    (hhome : sr = (if isWhite (s.board.get sr sc) then 7 else 0) ∧ sc = 4)
    (hrow : tr = sr) (hcol : tc = 6 ∨ tc = 2) :
    (move s sr sc tr tc).board.get tr tc = s.board.get sr sc ∧
    (move s sr sc tr tc).board.get sr sc = '.' ∧
    (move s sr sc tr tc).board.get sr (if tc = 6 then 5 else 3)
      = s.board.get sr (if tc = 6 then 7 else 0) ∧
    (move s sr sc tr tc).board.get sr (if tc = 6 then 7 else 0) = '.' ∧
    (∀ r c : Int, ¬(r = tr ∧ c = tc) → ¬(r = sr ∧ c = sc) →
      ¬(r = sr ∧ c = (if tc = 6 then 5 else 3)) → ¬(r = sr ∧ c = (if tc = 6 then 7 else 0)) →
      (move s sr sc tr tc).board.get r c = s.board.get r c) := by
  obtain ⟨hp1, hp2, hp3⟩ := king_not_pawn _ hk
  obtain ⟨h1, rfl⟩ := hhome
  subst hrow
  have hb : (move s tr 4 tr tc).board =
      placeStage s.board (s.board.get tr 4) (isWhite (s.board.get tr 4)) tr 4 tr tc := by
    rw [move_board]
    simp [epStage, queenStage, hp1, hp2, hp3]
  rw [hb]
  cases hw : isWhite (s.board.get tr 4) <;> rw [hw] at h1 <;>
    simp only [Bool.false_eq_true, if_false, if_true] at h1 <;> subst h1 <;>
    rcases hcol with rfl | rfl <;>
    simp [placeStage, hk] <;>
    (intro r c h1 h2 h3 h4
     rw [if_neg (fun h => h4 h.1 h.2), if_neg (fun h => h3 h.1 h.2),
       if_neg (fun h => h2 h.1 h.2), if_neg (fun h => h1 h.1 h.2)])

/-- C11: when a king standing on its home square (e1 for a white king, e8 for a
black one) moves two files along its home row, `move` puts the king on the
destination, empties the king's source, moves what stands on the corner of
that side (h-file for the g-file destination, a-file for the c-file
destination) to the square the king passed over (f- resp. d-file), empties
that corner and leaves every other square as it was. -/
theorem move_castling_board (s : State) (sr sc tr tc : Int)
    (hk : (s.board.get sr sc).toLower = 'k')
    (hhome : sr = (if isWhite (s.board.get sr sc) then 7 else 0) ∧ sc = 4)
    (hrow : tr = sr) (hcol : tc = 6 ∨ tc = 2) :
    (move s sr sc tr tc).board.get tr tc = s.board.get sr sc ∧
    (move s sr sc tr tc).board.get sr sc = '.' ∧
    (move s sr sc tr tc).board.get sr (if tc = 6 then 5 else 3)
      = s.board.get sr (if tc = 6 then 7 else 0) ∧
    (move s sr sc tr tc).board.get sr (if tc = 6 then 7 else 0) = '.' ∧
    (∀ r c : Int, ¬(r = tr ∧ c = tc) → ¬(r = sr ∧ c = sc) →
      ¬(r = sr ∧ c = (if tc = 6 then 5 else 3)) → ¬(r = sr ∧ c = (if tc = 6 then 7 else 0)) →
      (move s sr sc tr tc).board.get r c = s.board.get r c) :=
  move_castling_squares s sr sc tr tc hk hhome hrow hcol

/-- C11 on the position with both white rooks and the king at home: castling
queenside from e1 to c1. -/
theorem move_castling_board_witness :
    (move castleProbe 7 4 7 2).board.get 7 2 = castleProbe.board.get 7 4 ∧
    (move castleProbe 7 4 7 2).board.get 7 4 = '.' ∧
    (move castleProbe 7 4 7 2).board.get 7 (if (2 : Int) = 6 then 5 else 3)
      = castleProbe.board.get 7 (if (2 : Int) = 6 then 7 else 0) ∧
    (move castleProbe 7 4 7 2).board.get 7 (if (2 : Int) = 6 then 7 else 0) = '.' ∧
    (∀ r c : Int, ¬(r = 7 ∧ c = 2) → ¬(r = 7 ∧ c = 4) →
      ¬(r = 7 ∧ c = (if (2 : Int) = 6 then 5 else 3)) →
      ¬(r = 7 ∧ c = (if (2 : Int) = 6 then 7 else 0)) →
      (move castleProbe 7 4 7 2).board.get r c = castleProbe.board.get r c) :=
  move_castling_board castleProbe 7 4 7 2 (by decide!) (by decide!) rfl (Or.inr rfl)

/-- C12: for a move between two different squares that is neither an en-passant
capture, nor a two-file king move, nor a pawn arriving on its final rank, the
board after `move(sr,sc,tr,tc)` is the old board with the piece of `(sr,sc)`
written on `(tr,tc)` (over whatever stood there) and `(sr,sc)` emptied; every
other square is unchanged. -/
theorem move_plain_board (s : State) (sr sc tr tc : Int)
    (hne : ¬(sr = tr ∧ sc = tc))
    (hep : ¬((s.board.get sr sc).toLower = 'p' ∧ sc ≠ tc ∧ s.board.get tr tc = '.' ∧
      s.enPassant = some (tr, tc)))
    (hking : ¬((s.board.get sr sc).toLower = 'k' ∧ (tc - sc).natAbs = 2))
    (hpromo : ¬(s.board.get sr sc = 'P' ∧ tr = 0) ∧ ¬(s.board.get sr sc = 'p' ∧ tr = 7)) :
    (move s sr sc tr tc).board = (s.board.set tr tc (s.board.get sr sc)).set sr sc '.' ∧
    (move s sr sc tr tc).board.get tr tc = s.board.get sr sc ∧
    (move s sr sc tr tc).board.get sr sc = '.' ∧
    (∀ r c : Int, ¬(r = tr ∧ c = tc) → ¬(r = sr ∧ c = sc) →
      (move s sr sc tr tc).board.get r c = s.board.get r c) := by
  have hb : (move s sr sc tr tc).board
      = (s.board.set tr tc (s.board.get sr sc)).set sr sc '.' := by
    rw [move_board]
    have h1 : ((s.board.get sr sc).toLower == 'p' && sc != tc && s.board.get tr tc == '.'
        && s.enPassant == some (tr, tc)) = false := by
      rw [← Bool.not_eq_true]
      intro h
      simp only [Bool.and_eq_true, beq_iff_eq, bne_iff_ne, ne_eq] at h
      exact hep ⟨h.1.1.1, h.1.1.2, h.1.2, h.2⟩
    have h2 : ((s.board.get sr sc).toLower == 'k' && (tc - sc).natAbs == 2) = false := by
      rw [← Bool.not_eq_true]
      intro h
      simp only [Bool.and_eq_true, beq_iff_eq] at h
      exact hking h
    have h3 : (s.board.get sr sc == 'P' && tr == 0) = false := by
      rw [← Bool.not_eq_true]
      intro h
      simp only [Bool.and_eq_true, beq_iff_eq] at h
      exact hpromo.1 h
    have h4 : (s.board.get sr sc == 'p' && tr == 7) = false := by
      rw [← Bool.not_eq_true]
      intro h
      simp only [Bool.and_eq_true, beq_iff_eq] at h
      exact hpromo.2 h
    simp only [epStage, placeStage, queenStage, h1, h2, h3, h4, Bool.false_eq_true, if_false]
  refine ⟨hb, ?_, ?_, ?_⟩
  · rw [hb, Board.get_set, if_neg (fun h => hne ⟨h.1.symm, h.2.symm⟩), Board.get_set]
    simp
  · rw [hb, Board.get_set]; simp
  · intro r c h1 h2
    rw [hb, Board.get_set, if_neg h2, Board.get_set, if_neg h1]

/-- C12 at White's first move g1-f3. -/
theorem move_plain_board_witness :
    (move initialState 7 6 5 5).board
      = (initialState.board.set 5 5 (initialState.board.get 7 6)).set 7 6 '.' ∧
    (move initialState 7 6 5 5).board.get 5 5 = initialState.board.get 7 6 ∧
    (move initialState 7 6 5 5).board.get 7 6 = '.' ∧
    (∀ r c : Int, ¬(r = 5 ∧ c = 5) → ¬(r = 7 ∧ c = 6) →
      (move initialState 7 6 5 5).board.get r c = initialState.board.get r c) :=
  move_plain_board initialState 7 6 5 5 (by decide) (by decide!) (by decide!) (by decide!)

theorem move_board_final_rank (s : State) (sr sc tr tc : Int)
    (hne : ¬(sr = tr ∧ sc = tc))
    (h : (s.board.get sr sc = 'P' ∧ tr = 0) ∨ (s.board.get sr sc = 'p' ∧ tr = 7)) :
    (move s sr sc tr tc).board.get tr tc = (if s.board.get sr sc = 'P' then 'Q' else 'q') ∧
    (move s sr sc tr tc).board.get sr sc = '.' := by
  rw [move_board]
  rcases h with ⟨hp, rfl⟩ | ⟨hp, rfl⟩
  · rw [hp]
    have hl : ('P' : Char).toLower = 'p' := by decide
    simp only [queenStage, placeStage, hl, Board.get_set]
    simp [hne]
  · rw [hp]
    have hl : ('p' : Char).toLower = 'p' := by decide
    simp only [queenStage, placeStage, hl, Board.get_set]
    simp [hne]

/-- C13: when `move` carries a white pawn to row 0 or a black pawn to row 7 from
another square, the destination afterwards holds a queen of the pawn's colour
(`'Q'` for a white pawn, `'q'` for a black one) and the source is empty. -/
theorem move_auto_queen (s : State) (sr sc tr tc : Int)
    (hne : ¬(sr = tr ∧ sc = tc))
    (h : (s.board.get sr sc = 'P' ∧ tr = 0) ∨ (s.board.get sr sc = 'p' ∧ tr = 7)) :
    (move s sr sc tr tc).board.get tr tc = (if s.board.get sr sc = 'P' then 'Q' else 'q') ∧
    isWhite ((move s sr sc tr tc).board.get tr tc) = isWhite (s.board.get sr sc) ∧
    (move s sr sc tr tc).board.get sr sc = '.' := by
  obtain ⟨h1, h2⟩ := move_board_final_rank s sr sc tr tc hne h
  refine ⟨h1, ?_, h2⟩
  rw [h1]
  rcases h with ⟨hp, -⟩ | ⟨hp, -⟩ <;> rw [hp] <;> decide

/-- C13 for the white pawn on a7 that steps to a8. -/
theorem move_auto_queen_witness :
    (move pawnOnSeventh 1 0 0 0).board.get 0 0
      = (if pawnOnSeventh.board.get 1 0 = 'P' then 'Q' else 'q') ∧
    isWhite ((move pawnOnSeventh 1 0 0 0).board.get 0 0)
      = isWhite (pawnOnSeventh.board.get 1 0) ∧
    (move pawnOnSeventh 1 0 0 0).board.get 1 0 = '.' :=
  move_auto_queen pawnOnSeventh 1 0 0 0 (by decide) (Or.inl ⟨by decide!, rfl⟩)

/-! ## The filter only removes candidates; the trial move and `move` agree -/

/-- C17: for every position and every square, each destination `legalMoves`
returns is among the candidates generated for the piece on that square, and the
returned list is a sublist of the candidate list (same destinations, same
order, some removed); `filterSelfCheckMoves` returns a sublist of whatever
list it is given. -/
theorem legalMoves_subset_pseudoLegalMoves (s : State) (r c : Int) :
    legalMoves s r c ⊆ pseudoLegalMoves s r c ∧
    (legalMoves s r c).Sublist (pseudoLegalMoves s r c) ∧
    (∀ moves : List Square, (filterSelfCheckMoves s r c moves).Sublist moves) := by
  have hf : ∀ moves : List Square, (filterSelfCheckMoves s r c moves).Sublist moves := by
    intro moves
    simp only [filterSelfCheckMoves, filterSelfCheckLoop_eq]
    exact List.filter_sublist moves
  have hsub : (legalMoves s r c).Sublist (pseudoLegalMoves s r c) := by
    unfold legalMoves
    split_ifs
    · exact List.nil_sublist _
    · exact hf _
  exact ⟨hsub.subset, hsub, hf⟩

/-- C26: when the moving piece is not a king moving two files, or is a king on
its home square (row 7 column 4 for White, row 0 column 4 for Black) moving two
files along its home row, the board after `applyMoveForTest(sr,sc,tr,tc)` is the
board after `move(sr,sc,tr,tc)`. -/
theorem applyMoveForTest_board_eq_move (s : State) (sr sc tr tc : Int)
    (h : ¬((s.board.get sr sc).toLower = 'k' ∧ (tc - sc).natAbs = 2) ∨
      (sr = (if isWhite (s.board.get sr sc) then 7 else 0) ∧ sc = 4 ∧ tr = sr)) :
    (applyMoveForTest s sr sc tr tc).board = (move s sr sc tr tc).board := by
  rw [move_board, applyMoveForTest_board, placeStage_eq_test]
  rcases h with h | h
  · left
    intro hk
    simp only [Bool.and_eq_true, beq_iff_eq] at hk
    exact h hk
  · exact Or.inr h

/-- C26 for White castling kingside with king and rook at home. -/
theorem applyMoveForTest_board_eq_move_witness :
    (applyMoveForTest castleProbe 7 4 7 6).board = (move castleProbe 7 4 7 6).board :=
  applyMoveForTest_board_eq_move castleProbe 7 4 7 6 (Or.inr (by decide!))

/-! ## Castling rights are never given back -/

theorem CastleRights.le_refl (a : CastleRights) : a.le a :=
  ⟨id, id, id, id⟩

theorem CastleRights.le_trans (a b c : CastleRights) (h1 : a.le b) (h2 : b.le c) : a.le c :=
  ⟨fun h => h2.1 (h1.1 h), fun h => h2.2.1 (h1.2.1 h), fun h => h2.2.2.1 (h1.2.2.1 h),
    fun h => h2.2.2.2 (h1.2.2.2 h)⟩

theorem move_castle_le (s : State) (sr sc tr tc : Int) :
    (move s sr sc tr tc).castle.le s.castle := by
  rw [move_castle]
  obtain ⟨a1, a2, a3, a4⟩ := revokeOnCapture_le (move s sr sc tr tc).board tr tc
    (castleAfterSource s.castle (s.board.get sr sc) sr sc)
  obtain ⟨b1, b2, b3, b4⟩ := castleAfterSource_le s.castle (s.board.get sr sc) sr sc
  exact ⟨fun h => (b1 (a1 h)).1, fun h => (b2 (a2 h)).1, fun h => (b3 (a3 h)).1,
    fun h => (b4 (a4 h)).1⟩

theorem clearPremove_castle (s : State) : (clearPremove s).castle = s.castle := by
  simp [clearPremove, render, updateStatus_fields]

theorem tryApplyPremove_castle_le (post : State → State)
    (hpost : ∀ t, (post t).castle.le t.castle) (s : State) :
    (tryApplyPremove post s).1.castle.le s.castle := by
  unfold tryApplyPremove
  cases hpm : s.premove with
  | none => exact CastleRights.le_refl _
  | some pm =>
    simp only
    split_ifs
    · exact CastleRights.le_refl _
    · rw [clearPremove_castle]; exact CastleRights.le_refl _
    · rw [clearPremove_castle]; exact CastleRights.le_refl _
    · refine CastleRights.le_trans _ _ _ (hpost _) ?_
      rw [clearPremove_castle]
      exact move_castle_le _ _ _ _ _
    · rw [clearPremove_castle]; exact CastleRights.le_refl _

theorem postMoveUpdateAux_castle_le (n : Nat) :
    ∀ s : State, (postMoveUpdateAux n s).castle.le s.castle := by
  induction n with
  | zero => intro s; exact CastleRights.le_refl _
  | succ n ih =>
    intro s
    have he : (postMoveEvaluate s).castle = s.castle := (postMoveEvaluate_fields s).2.2.2.1
    have ht := tryApplyPremove_castle_le (postMoveUpdateAux n) ih (postMoveEvaluate s)
    rw [he] at ht
    rw [postMoveUpdateAux_succ]
    split_ifs
    · rw [render, (updateStatus_fields _).2.2.2.1, he]; exact CastleRights.le_refl _
    · exact ht
    · rw [render, (updateStatus_fields _).2.2.2.1]; exact ht

theorem finishPromotion_castle_le (s : State) (type : Char) :
    (finishPromotion s type).castle.le s.castle := by
  cases hp : s.promotionPending with
  | none =>
    have : finishPromotion s type = s := by
      unfold finishPromotion
      rw [hp]
    rw [this]
    exact CastleRights.le_refl _
  | some p =>
    obtain ⟨s', hs', -, -, hc, -⟩ := finishPromotion_pending s p type hp
    rw [hs']
    refine CastleRights.le_trans _ _ _ (postMoveUpdateAux_castle_le 2 s') ?_
    rw [hc]
    exact revokeOnCapture_le _ _ _ _

theorem legalMovesRun_eq (s : State) (r c : Int) :
    legalMovesRun s r c = (s, legalMoves s r c) := by
  unfold legalMovesRun legalMoves filterSelfCheckMoves
  split_ifs
  · rfl
  · rw [filterSelfCheckLoop_eq]

theorem foldl_find_state {σ α : Type} (s : σ) (p : α → Bool) (f : σ × Bool → α → σ × Bool)
    (hf : ∀ found a, f (s, found) a = (s, found || p a)) (l : List α) :
    ∀ found, l.foldl f (s, found) = (s, found || l.any p) := by
  induction l with
  | nil => intro found; simp
  | cons a rest ih =>
    intro found
    rw [List.foldl_cons, hf, ih, List.any_cons, Bool.or_assoc]

theorem any_allSquares (f : Int → Int → Bool) :
    (allSquares.any fun sq => f sq.1 sq.2) = idx.any fun r => idx.any fun c => f r c := by
  simp only [allSquares, List.any_flatMap, List.any_map]
  rfl

theorem hasAnyLegalMovesRun_eq (s : State) (forWhite : Bool) :
    hasAnyLegalMovesRun s forWhite = (s, hasAnyLegalMoves s forWhite) := by
  have h := foldl_find_state s
    (fun (sq : Square) =>
      let p := s.board.get sq.1 sq.2
      if p == '.' then false
      else if forWhite && !isWhite p then false
      else if !forWhite && !isBlack p then false
      else decide ((legalMoves s sq.1 sq.2).length > 0))
    (fun (acc : State × Bool) (sq : Square) =>
      if acc.2 then acc
      else
        let p := acc.1.board.get sq.1 sq.2
        if p == '.' then acc
        else if forWhite && !isWhite p then acc
        else if !forWhite && !isBlack p then acc
        else
          let res := legalMovesRun acc.1 sq.1 sq.2
          (res.1, decide (res.2.length > 0)))
    (by
      intro found a
      cases found
      · simp only [Bool.false_eq_true, if_false, legalMovesRun_eq, Bool.false_or]
        split_ifs <;> rfl
      · simp)
    allSquares false
  unfold hasAnyLegalMovesRun
  rw [h, Bool.false_or]
  rw [any_allSquares (fun r c =>
    let p := s.board.get r c
    if p == '.' then false
    else if forWhite && !isWhite p then false
    else if !forWhite && !isBlack p then false
    else decide ((legalMoves s r c).length > 0))]
  rfl

/-- C15: every castling right held after a call of `move`, of `finishPromotion`
or of `postMoveUpdate` was held before it, so a right that is false before the
call is false after it; a `legalMoves` or `hasAnyLegalMoves` query leaves the
rights exactly as they were.  In particular, once the rook on h1 has moved away
the right `wK` is false and stays false through every later `move` (such as
the rook going back to h1), and likewise for the other three corners. -/
theorem castling_rights_monotone (s : State) :
    (∀ sr sc tr tc : Int, (move s sr sc tr tc).castle.le s.castle) ∧
    (∀ type : Char, (finishPromotion s type).castle.le s.castle) ∧
    (postMoveUpdate s).castle.le s.castle ∧
    (∀ r c : Int, (legalMovesRun s r c).1.castle = s.castle) ∧
    (∀ w : Bool, (hasAnyLegalMovesRun s w).1.castle = s.castle) ∧
    (∀ tr tc : Int, s.board.get 7 7 = 'R' → (move s 7 7 tr tc).castle.wK = false) ∧
    (∀ tr tc : Int, s.board.get 7 0 = 'R' → (move s 7 0 tr tc).castle.wQ = false) ∧
    (∀ tr tc : Int, s.board.get 0 7 = 'r' → (move s 0 7 tr tc).castle.bK = false) ∧
    (∀ tr tc : Int, s.board.get 0 0 = 'r' → (move s 0 0 tr tc).castle.bQ = false) ∧
    (∀ sr sc tr tc : Int, s.castle.wK = false →
      (postMoveUpdate (move s sr sc tr tc)).castle.wK = false) ∧
    (∀ sr sc tr tc : Int, s.castle.wQ = false →
      (postMoveUpdate (move s sr sc tr tc)).castle.wQ = false) ∧
    (∀ sr sc tr tc : Int, s.castle.bK = false →
      (postMoveUpdate (move s sr sc tr tc)).castle.bK = false) ∧
    (∀ sr sc tr tc : Int, s.castle.bQ = false →
      (postMoveUpdate (move s sr sc tr tc)).castle.bQ = false) := by
  have hply : ∀ sr sc tr tc : Int, (postMoveUpdate (move s sr sc tr tc)).castle.le s.castle :=
    fun sr sc tr tc => CastleRights.le_trans _ _ _ (postMoveUpdateAux_castle_le 2 _)
      (move_castle_le s sr sc tr tc)
  have hsrc : ∀ (p : Char) (sr sc tr tc : Int), s.board.get sr sc = p →
      (move s sr sc tr tc).castle.le (castleAfterSource s.castle p sr sc) := by
    intro p sr sc tr tc hp
    rw [move_castle, hp]
    exact revokeOnCapture_le _ _ _ _
  refine ⟨move_castle_le s, finishPromotion_castle_le s, postMoveUpdateAux_castle_le 2 s,
    fun r c => by rw [legalMovesRun_eq], fun w => by rw [hasAnyLegalMovesRun_eq],
    ?_, ?_, ?_, ?_, ?_, ?_, ?_, ?_⟩
  · intro tr tc hp
    have h := (hsrc 'R' 7 7 tr tc hp).1
    cases hc : (move s 7 7 tr tc).castle.wK
    · rfl
    · have := h hc
      simp [castleAfterSource] at this
  · intro tr tc hp
    have h := (hsrc 'R' 7 0 tr tc hp).2.1
    cases hc : (move s 7 0 tr tc).castle.wQ
    · rfl
    · have := h hc
      simp [castleAfterSource] at this
  · intro tr tc hp
    have h := (hsrc 'r' 0 7 tr tc hp).2.2.1
    cases hc : (move s 0 7 tr tc).castle.bK
    · rfl
    · have := h hc
      simp [castleAfterSource] at this
  · intro tr tc hp
    have h := (hsrc 'r' 0 0 tr tc hp).2.2.2
    cases hc : (move s 0 0 tr tc).castle.bQ
    · rfl
    · have := h hc
      simp [castleAfterSource] at this
  · intro sr sc tr tc h0
    cases hc : (postMoveUpdate (move s sr sc tr tc)).castle.wK
    · rfl
    · rw [(hply sr sc tr tc).1 hc] at h0; cases h0
  · intro sr sc tr tc h0
    cases hc : (postMoveUpdate (move s sr sc tr tc)).castle.wQ
    · rfl
    · rw [(hply sr sc tr tc).2.1 hc] at h0; cases h0
  · intro sr sc tr tc h0
    cases hc : (postMoveUpdate (move s sr sc tr tc)).castle.bK
    · rfl
    · rw [(hply sr sc tr tc).2.2.1 hc] at h0; cases h0
  · intro sr sc tr tc h0
    cases hc : (postMoveUpdate (move s sr sc tr tc)).castle.bQ
    · rfl
    · rw [(hply sr sc tr tc).2.2.2 hc] at h0; cases h0

/-- C15 on the position with kings and rooks at home: the rook leaves h1 for
h3, and the right `wK` is false after that move. -/
theorem castling_rights_monotone_witness :
    (move castleProbe 7 7 5 7).castle.wK = false :=
  (castling_rights_monotone castleProbe).2.2.2.2.2.1 5 7 (by decide!)

/-! ## Queries leave the position as it was -/

/-- C23: a call of `legalMoves(r,c)` returns the state it was given, for every
state and every square, and so does `hasAnyLegalMoves`: the loop of the
self-check filter ends in the state it started in, because restoring the
snapshot taken before a trial move undoes that trial move.  In particular the
board, the en-passant target, the side to move and the castling rights are
unchanged.  (`isSquareAttacked` contains no assignment to a module variable; in
the embedding it is a function of the board that returns a truth value.) -/
theorem legalMoves_leaves_position (s : State) (r c : Int) :
    legalMovesRun s r c = (s, legalMoves s r c) ∧
    (∀ w : Bool, hasAnyLegalMovesRun s w = (s, hasAnyLegalMoves s w)) ∧
    (∀ moves : List Square, (filterSelfCheckLoop s r c moves).1 = s) ∧
    (∀ tr tc : Int, restoreSnapshot (applyMoveForTest s r c tr tc) (makeSnapshot s) = s) ∧
    (legalMovesRun s r c).1.board = s.board ∧
    (legalMovesRun s r c).1.enPassant = s.enPassant ∧
    (legalMovesRun s r c).1.whiteToMove = s.whiteToMove ∧
    (legalMovesRun s r c).1.castle = s.castle := by
  refine ⟨legalMovesRun_eq s r c, hasAnyLegalMovesRun_eq s, ?_, fun _ _ => rfl, ?_, ?_, ?_, ?_⟩
  · intro moves
    rw [filterSelfCheckLoop_eq]
  all_goals rw [legalMovesRun_eq]

/-! ## An explicit promotion piece -/

/-- C14: with a promotion pending from `(sr,sc)` to a different square
`(tr,tc)`, `finishPromotion(type)` hands to `postMoveUpdate` a board on which
`(tr,tc)` holds `type` for White and the lower-case letter of `type` for Black
and `(sr,sc)` is empty, and that is the board it returns when no premove is
stored.  `applyEngineMove` with a five-character string whose first four
characters name the squares `(sr,sc)` and `(tr,tc)` of the board, where a white
pawn reaches row 0 or a black pawn row 7, hands to `postMoveUpdate` a board on
which `(tr,tc)` holds the fifth character in upper case for the white pawn and
in lower case for the black pawn, and `(sr,sc)` is empty; that is the board it
returns when no premove is stored. -/
theorem explicit_promotion_piece (s : State) :
    (∀ (p : PromotionPending) (type : Char), s.promotionPending = some p →
      ¬(p.sr = p.tr ∧ p.sc = p.tc) →
      ∃ s' : State, finishPromotion s type = postMoveUpdate s' ∧
        s'.board.get p.tr p.tc = (if p.white then type else type.toLower) ∧
        s'.board.get p.sr p.sc = '.' ∧
        (s.premove = none →
          (finishPromotion s type).board.get p.tr p.tc
            = (if p.white then type else type.toLower) ∧
          (finishPromotion s type).board.get p.sr p.sc = '.')) ∧
    (∀ (f1 r1 f2 r2 pr : Char) (sr sc tr tc : Int),
      coordFromAlg [f1, r1] = (some sr, some sc) →
      coordFromAlg [f2, r2] = (some tr, some tc) →
      isInside sr sc = true → isInside tr tc = true → ¬(sr = tr ∧ sc = tc) →
      (s.board.get sr sc = 'P' ∧ tr = 0) ∨ (s.board.get sr sc = 'p' ∧ tr = 7) →
      ∃ s' : State, applyEngineMove s [f1, r1, f2, r2, pr] = some (postMoveUpdate s') ∧
        s'.board.get tr tc = (if s.board.get sr sc = 'P' then pr.toUpper else pr.toLower) ∧
        s'.board.get sr sc = '.' ∧
        (s.premove = none →
          (applyEngineMove s [f1, r1, f2, r2, pr]).map (fun t => (t.board.get tr tc, t.board.get sr sc))
            = some ((if s.board.get sr sc = 'P' then pr.toUpper else pr.toLower), '.'))) := by
  constructor
  · intro p type hp hne
    obtain ⟨s', hs', hb, -, -, hpm, -⟩ := finishPromotion_pending s p type hp
    have h1 : s'.board.get p.tr p.tc = (if p.white then type else type.toLower) := by
      rw [hb, Board.get_set, if_neg (fun h => hne ⟨h.1.symm, h.2.symm⟩), Board.get_set]
      simp
    have h2 : s'.board.get p.sr p.sc = '.' := by
      rw [hb, Board.get_set]; simp
    refine ⟨s', hs', h1, h2, ?_⟩
    intro hnone
    rw [hs', postMoveUpdate_no_premove s' (hpm.trans hnone), (render_evaluate_fields s').1]
    exact ⟨h1, h2⟩
  · intro f1 r1 f2 r2 pr sr sc tr tc hsrc hdst hin1 hin2 hne hpromo
    rw [isInside_iff] at hin1 hin2
    have hmoving : s.board.get sr sc ≠ '.' := by
      rcases hpromo with ⟨h, -⟩ | ⟨h, -⟩ <;> rw [h] <;> decide
    have hdefined : s.board.get sr sc ≠ undefinedCell := by
      rcases hpromo with ⟨h, -⟩ | ⟨h, -⟩ <;> rw [h] <;> decide
    have hisPromo : ((s.board.get sr sc == 'P' && tr == 0) || (s.board.get sr sc == 'p' && tr == 7))
        = true := by
      rcases hpromo with ⟨h, rfl⟩ | ⟨h, rfl⟩ <;> rw [h] <;> decide
    have hlast : (!(decide (0 ≤ tr - (if isWhite (s.board.get sr sc) then (-1 : Int) else 1))
        && decide (tr - (if isWhite (s.board.get sr sc) then (-1 : Int) else 1) < 8))) = false := by
      rcases hpromo with ⟨h, rfl⟩ | ⟨h, rfl⟩ <;> rw [h] <;> decide
    have hrow : ((s.board.get sr sc).toLower == 'p' && sc != tc && s.board.get tr tc == '.'
        && s.enPassant == some (tr, tc)
        && !(decide (0 ≤ tr - (if isWhite (s.board.get sr sc) then (-1 : Int) else 1))
          && decide (tr - (if isWhite (s.board.get sr sc) then (-1 : Int) else 1) < 8))) = false := by
      rw [hlast, Bool.and_false]
    have hq : (move s sr sc tr tc).board.get sr sc = '.' :=
      (move_board_final_rank s sr sc tr tc hne hpromo).2
    have key : applyEngineMove s [f1, r1, f2, r2, pr] = some (postMoveUpdate
        { move s sr sc tr tc with
          board := (move s sr sc tr tc).board.set tr tc
            (if s.board.get sr sc = 'P' then pr.toUpper else pr.toLower) }) := by
      unfold applyEngineMove
      have e1 : List.take 2 [f1, r1, f2, r2, pr] = [f1, r1] := rfl
      have e2 : List.take 2 (List.drop 2 [f1, r1, f2, r2, pr]) = [f2, r2] := rfl
      simp only [e1, e2, hsrc, hdst, List.length_cons, List.length_nil]
      have e3 : [f1, r1, f2, r2, pr].get? 4 = some pr := rfl
      simp only [e3, hrow, hisPromo, if_true, if_false]
      simp [hin1.1, hin1.2.1, hin2.1, hin2.2.1, hmoving, hdefined]
    obtain ⟨s2, hb, hp, key⟩ : ∃ s2 : State,
        s2.board = (move s sr sc tr tc).board.set tr tc
          (if s.board.get sr sc = 'P' then pr.toUpper else pr.toLower) ∧
        s2.premove = s.premove ∧
        applyEngineMove s [f1, r1, f2, r2, pr] = some (postMoveUpdate s2) :=
      ⟨{ move s sr sc tr tc with
          board := (move s sr sc tr tc).board.set tr tc
            (if s.board.get sr sc = 'P' then pr.toUpper else pr.toLower) }, rfl, rfl, key⟩
    have h1 : s2.board.get tr tc
        = (if s.board.get sr sc = 'P' then pr.toUpper else pr.toLower) := by
      rw [hb]; simp
    have h2 : s2.board.get sr sc = '.' := by
      rw [hb, Board.get_set, if_neg hne]
      exact hq
    refine ⟨s2, key, h1, h2, ?_⟩
    intro hnone
    rw [key, Option.map_some', postMoveUpdate_no_premove s2 (hp.trans hnone),
      (render_evaluate_fields s2).1, h1, h2]

/-- C14 for the white pawn on a7 with its promotion on a8 pending: the knight
chosen is written on a8. -/
theorem explicit_promotion_piece_witness :
    ∃ s' : State,
      finishPromotion (openPromotion pawnOnSeventh true 1 0 0 0) 'N' = postMoveUpdate s' ∧
      s'.board.get 0 0 = (if true then 'N' else ('N' : Char).toLower) ∧
      s'.board.get 1 0 = '.' ∧
      ((openPromotion pawnOnSeventh true 1 0 0 0).premove = none →
        (finishPromotion (openPromotion pawnOnSeventh true 1 0 0 0) 'N').board.get 0 0
          = (if true then 'N' else ('N' : Char).toLower) ∧
        (finishPromotion (openPromotion pawnOnSeventh true 1 0 0 0) 'N').board.get 1 0 = '.') :=
  (explicit_promotion_piece (openPromotion pawnOnSeventh true 1 0 0 0)).1
    ⟨1, 0, 0, 0, true⟩ 'N' rfl (by decide)

/-! ## Commands that are rejected -/

theorem positionOf_render (s : State) : positionOf (render s) = positionOf s := by
  obtain ⟨h1, h2, h3, h4, h5, -⟩ := updateStatus_fields s
  simp only [positionOf, render, h1, h2, h3, h4, h5]

theorem positionOf_setPremove (s : State) (src dst : Square) :
    positionOf (setPremove s src dst) = positionOf s := by
  simp only [setPremove]
  split_ifs
  · rfl
  · rfl
  · rw [positionOf_render]; rfl

theorem onSquareClick_not_legal (s : State) (r c sr sc : Int)
    (hsel : s.selected = some (sr, sc)) (hnot : (r, c) ∉ legalMoves s sr sc) :
    positionOf (onSquareClick s r c) = positionOf s := by
  have hany : (legalMoves s sr sc).any (fun m => m.1 == r && m.2 == c) = false := by
    rw [← Bool.not_eq_true, any_dest_iff]
    exact hnot
  unfold onSquareClick
  rw [hsel]
  simp only [hany, Bool.false_eq_true, if_false]
  split_ifs
  · rfl
  · rw [positionOf_render]; rfl
  · rw [positionOf_render]; rfl
  · rw [positionOf_render]
    exact positionOf_setPremove s _ _
  · rfl

theorem onDrop_not_legal (s : State) (r c sr sc : Int)
    (hdrag : s.dragFrom = some (sr, sc)) (hnot : (r, c) ∉ legalMoves s sr sc) :
    positionOf (onDrop s r c) = positionOf s := by
  have hany : (legalMoves { s with dragFrom := none } sr sc).any
      (fun m => m.1 == r && m.2 == c) = false := by
    rw [← Bool.not_eq_true, any_dest_iff,
      legalMoves_congr { s with dragFrom := none } s rfl rfl rfl sr sc]
    exact hnot
  unfold onDrop
  rw [hdrag]
  simp only [hany, Bool.false_eq_true, if_false]
  split_ifs
  · rfl
  · exact positionOf_setPremove _ _ _
  · rfl

/-- C19: a click on an empty square with nothing selected returns the state
unchanged; a click on `(r,c)` while `(sr,sc)` is selected, and a drop on
`(r,c)` of a drag started on `(sr,sc)`, with `(r,c)` not among
`legalMoves(sr,sc)`, leave the board, the side to move, the castling rights, the
en-passant target and `gameOver` as they were (the selection, the highlighted
squares, the stored premove, the drag source and the status text are the only
fields that may differ). -/
theorem rejected_attempt_keeps_position (s : State) (r c : Int) :
    (s.selected = none → s.board.get r c = '.' → onSquareClick s r c = s) ∧
    (∀ sr sc : Int, s.selected = some (sr, sc) → (r, c) ∉ legalMoves s sr sc →
      positionOf (onSquareClick s r c) = positionOf s) ∧
    (∀ sr sc : Int, s.dragFrom = some (sr, sc) → (r, c) ∉ legalMoves s sr sc →
      positionOf (onDrop s r c) = positionOf s) ∧
    (s.dragFrom = none → onDrop s r c = s) := by
  refine ⟨?_, fun sr sc => onSquareClick_not_legal s r c sr sc,
    fun sr sc => onDrop_not_legal s r c sr sc, ?_⟩
  · intro hsel hdot
    unfold onSquareClick
    rw [hsel]
    simp [hdot]
  · intro hdrag
    unfold onDrop
    rw [hdrag]

/-- C19 in the initial position with the pawn on e2 selected: a click on e5,
which is not a legal destination, leaves the position as it was. -/
theorem rejected_attempt_keeps_position_witness :
    positionOf (onSquareClick { initialState with selected := some (6, 4) } 3 4)
      = positionOf { initialState with selected := some (6, 4) } :=
  (rejected_attempt_keeps_position { initialState with selected := some (6, 4) } 3 4).2.1
    6 4 rfl (by decide!)

/-- C18 (the code at the failing input): with `gameOver` true, `onSquareClick`
returns the state unchanged and `onDrop` only forgets the drag source; but
`applyEngineMove` has no such test.  After the fool's mate (game over, White
checkmated and to move) `applyEngineMove("e2e4")` moves the pawn from e2 to e4,
passes the move to Black and sets the en-passant target e3, while `gameOver`
stays true. -/
theorem engine_move_applied_after_game_over :
    (∀ (s : State) (r c : Int),
      onSquareClick { s with gameOver := true } r c = { s with gameOver := true }) ∧
    (∀ (s : State) (r c : Int),
      positionOf (onDrop { s with gameOver := true } r c)
        = positionOf { s with gameOver := true }) ∧
    foolsMate4.gameOver = true ∧
    foolsMate4.whiteToMove = true ∧
    foolsMate4.board.get 6 4 = 'P' ∧
    foolsMate4.board.get 4 4 = '.' ∧
    foolsMate4.enPassant = none ∧
    (applyEngineMove foolsMate4 ['e', '2', 'e', '4']).map
        (fun t => (t.gameOver, t.whiteToMove, t.board.get 6 4, t.board.get 4 4))
      = some (true, false, '.', 'P') ∧
    (applyEngineMove foolsMate4 ['e', '2', 'e', '4']).map (fun t => t.enPassant)
      = some (some (5, 4)) := by
  refine ⟨?_, ?_, by decide!, by decide!, by decide!, by decide!, by decide!, by decide!,
    by decide!⟩
  · intro s r c
    simp [onSquareClick]
  · intro s r c
    unfold onDrop
    cases hd : s.dragFrom <;> simp [hd, positionOf]

/-- C20 (the code at the failing inputs): from the initial position,
`applyEngineMove("e2e9")` and `applyEngineMove("e9e4")` raise a `TypeError`
(the row `board[-1]` does not exist); `applyEngineMove("e2i4")`, whose
destination column 8 is off the board, empties e2, writes the pawn into
`board[4][8]` and passes the move to Black.  Only an empty source square
(`"e4e5"`) and a source column off the board (`"i2e4"`) are ignored. -/
theorem engine_move_off_board :
    (applyEngineMove initialState ['e', '2', 'e', '9']).isNone = true ∧
    (applyEngineMove initialState ['e', '9', 'e', '4']).isNone = true ∧
    initialState.whiteToMove = true ∧
    initialState.board.get 6 4 = 'P' ∧
    (applyEngineMove initialState ['e', '2', 'i', '4']).map
        (fun t => (t.whiteToMove, t.board.get 6 4, t.board.get 4 8))
      = some (false, '.', 'P') ∧
    (applyEngineMove initialState ['e', '4', 'e', '5']).map positionOf
      = some (positionOf initialState) ∧
    (applyEngineMove initialState ['i', '2', 'e', '4']).map positionOf
      = some (positionOf initialState) := by
  refine ⟨by decide!, by decide!, by decide!, by decide!, by decide!, rfl, rfl⟩

/-- C28 (the code at the failing input): with the white king on a1, the black
king on b3 and a black pawn on a2, Black's legal move Kb3-a3 leaves White
without a legal move and not in check; `postMoveUpdate` ends the game as a
draw by stalemate, and the notation it records for the move is `Ka3#`. -/
theorem stalemate_recorded_with_mate_sign :
    beforeStalemate.whiteToMove = false ∧
    ((5, 0) : Square) ∈ legalMoves beforeStalemate 5 1 ∧
    (postMoveUpdate (move beforeStalemate 5 1 5 0)).whiteToMove = true ∧
    hasAnyLegalMoves (postMoveUpdate (move beforeStalemate 5 1 5 0)) true = false ∧
    isOwnKingInCheck (postMoveUpdate (move beforeStalemate 5 1 5 0)).board true = false ∧
    (postMoveUpdate (move beforeStalemate 5 1 5 0)).gameOver = true ∧
    (postMoveUpdate (move beforeStalemate 5 1 5 0)).status = "Draw • Stalemate" ∧
    (postMoveUpdate (move beforeStalemate 5 1 5 0)).moveHistory.map (fun e => e.san)
      = ["Ka3#"] := by
  decide!

/-! ## The FEN string -/

theorem isDigit_digitChar : ∀ k : Nat, k < 10 → (Nat.digitChar k).isDigit = true := by
  decide

theorem isDigit_of_mem_toDigitsCore (fuel : Nat) : ∀ (n : Nat) (ds : List Char),
    (∀ c ∈ ds, c.isDigit = true) → ∀ c ∈ Nat.toDigitsCore 10 fuel n ds, c.isDigit = true := by
  induction fuel with
  | zero =>
    intro n ds h c hc
    exact h c (by simpa [Nat.toDigitsCore] using hc)
  | succ fuel ih =>
    intro n ds h c hc
    have hd : (Nat.digitChar (n % 10)).isDigit = true :=
      isDigit_digitChar _ (Nat.mod_lt _ (by decide))
    have hds : ∀ c ∈ Nat.digitChar (n % 10) :: ds, c.isDigit = true := by
      intro c hc
      rcases List.mem_cons.1 hc with rfl | hc
      · exact hd
      · exact h c hc
    rw [Nat.toDigitsCore] at hc
    split_ifs at hc
    · exact hds c hc
    · exact ih _ _ hds c hc

theorem isDigit_of_mem_toDigits (n : Nat) : ∀ c ∈ Nat.toDigits 10 n, c.isDigit = true :=
  isDigit_of_mem_toDigitsCore _ _ _ (by simp)

theorem toDigits_small : ∀ n : Nat, n < 10 → Nat.toDigits 10 n = [Nat.digitChar n] := by
  decide

theorem isCell_iff (ch : Char) :
    isCell ch = true ↔ ch ∈ ['.', 'p', 'r', 'n', 'b', 'q', 'k', 'P', 'R', 'N', 'B', 'Q', 'K'] := by
  simp [isCell]

theorem isCell_not_digit (ch : Char) (h : isCell ch = true) :
    ch.isDigit = false ∧ ch ≠ ' ' ∧ ch ≠ '/' := by
  rw [isCell_iff] at h
  simp only [List.mem_cons, List.mem_singleton, List.not_mem_nil, or_false] at h
  rcases h with rfl | rfl | rfl | rfl | rfl | rfl | rfl | rfl | rfl | rfl | rfl | rfl | rfl <;>
    decide

theorem foldl_fen (f : List Char × Nat → Char → List Char × Nat)
    (hf1 : ∀ acc n ch, ch = '.' → f (acc, n) ch = (acc, n + 1))
    (hf2 : ∀ acc n ch, ch ≠ '.' →
      f (acc, n) ch = ((if n != 0 then acc ++ Nat.toDigits 10 n else acc) ++ [ch], 0))
    (cells : List Char) :
    ∀ (acc : List Char) (n : Nat),
      (if (cells.foldl f (acc, n)).2 != 0 then
        (cells.foldl f (acc, n)).1 ++ Nat.toDigits 10 (cells.foldl f (acc, n)).2
      else (cells.foldl f (acc, n)).1) = acc ++ fenFrom n cells := by
  induction cells with
  | nil =>
    intro acc n
    simp only [List.foldl_nil, fenFrom]
    split_ifs <;> simp
  | cons ch rest ih =>
    intro acc n
    rw [List.foldl_cons]
    by_cases hch : ch = '.'
    · rw [hf1 acc n ch hch, ih]
      simp [fenFrom, hch]
    · rw [hf2 acc n ch hch, ih]
      simp only [fenFrom, beq_iff_eq, hch, if_false]
      split_ifs <;> simp

theorem fenRow_eq (b : Board) (r : Int) : fenRow b r = fenFrom 0 (rowCells b r) := by
  have h := foldl_fen
    (fun (acc : List Char × Nat) (ch : Char) =>
      if ch == '.' then (acc.1, acc.2 + 1)
      else ((if acc.2 != 0 then acc.1 ++ Nat.toDigits 10 acc.2 else acc.1) ++ [ch], 0))
    (by intro acc n ch hch; simp [hch])
    (by intro acc n ch hch; simp [hch])
    (rowCells b r) [] 0
  simpa [fenRow, fenRowLoop] using h

theorem isRunLength_fenFrom (cells : List Char) :
    ∀ n : Nat, IsRunLength (List.replicate n '.' ++ cells) (fenFrom n cells) := by
  induction cells with
  | nil =>
    intro n
    by_cases hn : n = 0
    · subst hn
      simpa [fenFrom] using IsRunLength.nil
    · have h := IsRunLength.run n [] [] (by omega) (by simp) IsRunLength.nil
      simpa [fenFrom, hn] using h
  | cons ch rest ih =>
    intro n
    by_cases hch : ch = '.'
    · subst hch
      have h := ih (n + 1)
      have e : List.replicate (n + 1) '.' ++ rest = List.replicate n '.' ++ '.' :: rest := by
        rw [List.replicate_succ', List.append_assoc]
        rfl
      rw [e] at h
      simpa [fenFrom] using h
    · have h0 : IsRunLength rest (fenFrom 0 rest) := by simpa using ih 0
      have h1 : IsRunLength (ch :: rest) (ch :: fenFrom 0 rest) :=
        IsRunLength.piece ch rest _ hch h0
      by_cases hn : n = 0
      · subst hn
        simpa [fenFrom, hch] using h1
      · have h2 := IsRunLength.run n (ch :: rest) _ (by omega)
          (by simpa using hch) h1
        simpa [fenFrom, hch, hn] using h2

theorem expandRank_append (a b : List Char) :
    expandRank (a ++ b) = expandRank a ++ expandRank b := by
  simp [expandRank, List.flatMap_append]

theorem expandRank_cons_cell (ch : Char) (l : List Char) (h : ch.isDigit = false) :
    expandRank (ch :: l) = ch :: expandRank l := by
  simp [expandRank, List.flatMap_cons, h]

theorem expandRank_digits : ∀ n : Nat, n < 10 → 1 ≤ n →
    expandRank (Nat.toDigits 10 n) = List.replicate n '.' := by
  decide

theorem expandRank_fenFrom (cells : List Char) (hc : ∀ ch ∈ cells, isCell ch = true) :
    ∀ n : Nat, n + cells.length ≤ 9 →
      expandRank (fenFrom n cells) = List.replicate n '.' ++ cells := by
  induction cells with
  | nil =>
    intro n hn
    by_cases h0 : n = 0
    · subst h0
      simp [fenFrom, expandRank]
    · simp only [fenFrom, bne_iff_ne, ne_eq, h0, not_false_eq_true, if_true, List.append_nil]
      exact expandRank_digits n (by simp at hn; omega) (by omega)
  | cons ch rest ih =>
    intro n hn
    have hrest : ∀ ch ∈ rest, isCell ch = true := fun x hx => hc x (List.mem_cons_of_mem _ hx)
    simp only [List.length_cons] at hn
    by_cases hch : ch = '.'
    · subst hch
      have h := ih hrest (n + 1) (by omega)
      simp only [fenFrom, beq_self_eq_true, if_true]
      rw [h, List.replicate_succ', List.append_assoc]
      rfl
    · have hd : ch.isDigit = false := (isCell_not_digit ch (hc ch (List.mem_cons_self _ _))).1
      have h := ih hrest 0 (by omega)
      simp only [List.replicate_zero, List.nil_append] at h
      simp only [fenFrom, beq_iff_eq, hch, if_false]
      by_cases h0 : n = 0
      · subst h0
        simp [expandRank_cons_cell ch _ hd, h]
      · simp only [bne_iff_ne, ne_eq, h0, not_false_eq_true, if_true]
        rw [expandRank_append, expandRank_digits n (by omega) (by omega),
          expandRank_cons_cell ch _ hd, h]

theorem mem_fenFrom (cells : List Char) :
    ∀ (n : Nat) (x : Char), x ∈ fenFrom n cells → x.isDigit = true ∨ x ∈ cells := by
  induction cells with
  | nil =>
    intro n x hx
    simp only [fenFrom] at hx
    split_ifs at hx
    · exact Or.inl (isDigit_of_mem_toDigits n x hx)
    · simp at hx
  | cons ch rest ih =>
    intro n x hx
    simp only [fenFrom] at hx
    split_ifs at hx
    · rcases ih _ x hx with h | h
      · exact Or.inl h
      · exact Or.inr (List.mem_cons_of_mem _ h)
    · rcases List.mem_append.1 hx with h | h
      · exact Or.inl (isDigit_of_mem_toDigits n x h)
      · rcases List.mem_cons.1 h with rfl | h
        · exact Or.inr (List.mem_cons_self _ _)
        · rcases ih _ x h with h | h
          · exact Or.inl h
          · exact Or.inr (List.mem_cons_of_mem _ h)
    · rcases List.mem_append.1 hx with h | h
      · simp at h
      · rcases List.mem_cons.1 h with rfl | h
        · exact Or.inr (List.mem_cons_self _ _)
        · rcases ih _ x h with h | h
          · exact Or.inl h
          · exact Or.inr (List.mem_cons_of_mem _ h)

theorem zero_not_mem_digits : ∀ n : Nat, n < 10 → 1 ≤ n → '0' ∉ Nat.toDigits 10 n := by
  decide

theorem zero_not_mem_fenFrom (cells : List Char) (hc : ∀ ch ∈ cells, isCell ch = true) :
    ∀ n : Nat, n + cells.length ≤ 9 → '0' ∉ fenFrom n cells := by
  induction cells with
  | nil =>
    intro n hn
    simp only [fenFrom]
    split_ifs with h0
    · simp only [bne_iff_ne, ne_eq] at h0
      exact zero_not_mem_digits n (by simp at hn; omega) (by omega)
    · simp
  | cons ch rest ih =>
    intro n hn
    have hrest : ∀ ch ∈ rest, isCell ch = true := fun x hx => hc x (List.mem_cons_of_mem _ hx)
    simp only [List.length_cons] at hn
    have hd : ch.isDigit = false := (isCell_not_digit ch (hc ch (List.mem_cons_self _ _))).1
    have hne : '0' ≠ ch := by
      intro h
      rw [← h] at hd
      exact absurd hd (by decide)
    simp only [fenFrom]
    split_ifs with h1 h0
    · exact ih hrest _ (by omega)
    · simp only [bne_iff_ne, ne_eq] at h0
      simp only [List.mem_append, List.mem_cons, not_or]
      exact ⟨zero_not_mem_digits n (by omega) (by omega), hne, ih hrest 0 (by omega)⟩
    · simp only [List.nil_append, List.mem_cons, not_or]
      exact ⟨hne, ih hrest 0 (by omega)⟩

theorem chain_fenFrom (cells : List Char) (hc : ∀ ch ∈ cells, isCell ch = true) :
    ∀ n : Nat, n + cells.length ≤ 9 →
      List.Chain' (fun x y : Char => ¬(x.isDigit = true ∧ y.isDigit = true))
        (fenFrom n cells) := by
  induction cells with
  | nil =>
    intro n hn
    simp only [fenFrom]
    split_ifs with h0
    · simp only [bne_iff_ne, ne_eq] at h0
      rw [toDigits_small n (by simp at hn; omega)]
      exact List.chain'_singleton _
    · exact List.chain'_nil
  | cons ch rest ih =>
    intro n hn
    have hrest : ∀ ch ∈ rest, isCell ch = true := fun x hx => hc x (List.mem_cons_of_mem _ hx)
    simp only [List.length_cons] at hn
    have hd : ch.isDigit = false := (isCell_not_digit ch (hc ch (List.mem_cons_self _ _))).1
    have hcons : List.Chain' (fun x y : Char => ¬(x.isDigit = true ∧ y.isDigit = true))
        (ch :: fenFrom 0 rest) := by
      rw [List.chain'_cons']
      refine ⟨?_, ih hrest 0 (by omega)⟩
      intro y _ hxy
      rw [hd] at hxy
      exact absurd hxy.1 (by decide)
    simp only [fenFrom]
    split_ifs with h1 h0
    · exact ih hrest _ (by omega)
    · rw [toDigits_small n (by omega)]
      refine List.Chain'.cons ?_ hcons
      intro hxy
      rw [hd] at hxy
      exact absurd hxy.2 (by decide)
    · exact hcons

theorem rowCells_length (b : Board) (r : Int) : (rowCells b r).length = 8 := rfl

theorem rowCells_valid (b : Board) (hv : ValidBoard b) (r : Int) (hr : r ∈ idx) :
    ∀ ch ∈ rowCells b r, isCell ch = true := by
  intro ch hch
  simp only [rowCells, List.mem_map] at hch
  obtain ⟨c, hc, rfl⟩ := hch
  rw [mem_idx_iff] at hr hc
  exact hv r c ((isInside_iff r c).2 ⟨hr.1, hr.2, hc.1, hc.2⟩)

theorem fenRow_no_sep (b : Board) (hv : ValidBoard b) (r : Int) (hr : r ∈ idx) (x : Char)
    (hx : x ∈ fenRow b r) : x ≠ ' ' ∧ x ≠ '/' := by
  rw [fenRow_eq] at hx
  rcases mem_fenFrom _ _ _ hx with h | h
  · constructor <;> (intro e; rw [e] at h; exact absurd h (by decide))
  · exact (isCell_not_digit x (rowCells_valid b hv r hr x h)).2

theorem fenPlacement_splitOn (b : Board) (hv : ValidBoard b) :
    (fenPlacement b).splitOn '/' = idx.map fun r => fenRow b r := by
  unfold fenPlacement
  apply List.splitOn_intercalate
  · intro l hl hmem
    simp only [List.mem_map] at hl
    obtain ⟨r, hr, rfl⟩ := hl
    exact (fenRow_no_sep b hv r hr _ hmem).2 rfl
  · simp [idx]

theorem fenPlacement_no_space (b : Board) (hv : ValidBoard b) : ' ' ∉ fenPlacement b := by
  intro h
  unfold fenPlacement at h
  have hjoin : ∀ (ls : List (List Char)), (∀ l ∈ ls, ' ' ∉ l) →
      ' ' ∉ List.intercalate ['/'] ls := by
    intro ls
    induction ls with
    | nil => intro _; simp [List.intercalate]
    | cons l rest ih =>
      intro hall
      cases rest with
      | nil =>
        simpa [List.intercalate] using hall l (List.mem_cons_self _ _)
      | cons l2 rest2 =>
        have h1 := hall l (List.mem_cons_self _ _)
        have h2 := ih (fun x hx => hall x (List.mem_cons_of_mem _ hx))
        simp only [List.intercalate, List.intersperse, List.flatten, List.mem_append,
          not_or] at h2 ⊢
        refine ⟨h1, by decide, h2⟩
  refine hjoin _ ?_ h
  intro l hl hmem
  simp only [List.mem_map] at hl
  obtain ⟨r, hr, rfl⟩ := hl
  exact (fenRow_no_sep b hv r hr _ hmem).1 rfl

theorem toNat_ofNat_cases (n : Nat) : (Char.ofNat n).toNat = n ∨ (Char.ofNat n).toNat = 0 := by
  by_cases hv : n.isValidChar
  · left
    simp only [Char.ofNat, hv, dite_true]
    rfl
  · right
    simp only [Char.ofNat, hv, dite_false]
    rfl

theorem digits_no_space (n : Nat) : ' ' ∉ Nat.toDigits 10 n := by
  intro h
  exact absurd (isDigit_of_mem_toDigits n _ h) (by decide)

theorem int_toString_no_space (i : Int) : ' ' ∉ (toString i).toList := by
  cases i with
  | ofNat m => exact digits_no_space m
  | negSucc m =>
    show ' ' ∉ '-' :: Nat.toDigits 10 (m + 1)
    simp only [List.mem_cons, not_or]
    exact ⟨by decide, digits_no_space _⟩

theorem fenEnPassant_no_space (ep : Option Square) : ' ' ∉ fenEnPassant ep := by
  cases ep with
  | none => simp [fenEnPassant]
  | some sq =>
    obtain ⟨r, c⟩ := sq
    show ' ' ∉ Char.ofNat (97 + c.toNat) :: (toString (8 - r)).toList
    simp only [List.mem_cons, not_or]
    refine ⟨?_, int_toString_no_space _⟩
    intro h
    have h' := congrArg Char.toNat h
    have h32 : ' '.toNat = 32 := rfl
    rw [h32] at h'
    rcases toNat_ofNat_cases (97 + c.toNat) with e | e <;> omega

theorem fenEnPassant_inside (r c : Int) (h : isInside r c = true) :
    fenEnPassant (some (r, c)) = [Char.ofNat (97 + c.toNat), Nat.digitChar (8 - r).toNat] := by
  rw [isInside_iff] at h
  obtain ⟨h1, h2, h3, h4⟩ := h
  interval_cases r <;> interval_cases c <;> rfl

theorem fenRights_spec (ca : CastleRights) :
    fenRights ca =
      if ca.wK || ca.wQ || ca.bK || ca.bQ then
        [('K', ca.wK), ('Q', ca.wQ), ('k', ca.bK), ('q', ca.bQ)].filterMap
          fun p => if p.2 then some p.1 else none
      else ['-'] := by
  obtain ⟨a, b, c, d⟩ := ca
  cases a <;> cases b <;> cases c <;> cases d <;> rfl

theorem fenRights_no_space (ca : CastleRights) : ' ' ∉ fenRights ca := by
  obtain ⟨a, b, c, d⟩ := ca
  cases a <;> cases b <;> cases c <;> cases d <;> decide

theorem toFENChars_eq (s : State) :
    toFENChars s = List.intercalate [' ']
      [fenPlacement s.board, if s.whiteToMove then ['w'] else ['b'], fenRights s.castle,
        fenEnPassant s.enPassant, ['0'], (toString (1 + s.plyCount / 2)).toList] := by
  have hfull : (toString (1 + s.plyCount / 2)).toList = Nat.toDigits 10 (1 + s.plyCount / 2) :=
    rfl
  have hhalf : Nat.toDigits 10 0 = ['0'] := rfl
  rw [hfull]
  simp only [toFENChars, hhalf, List.intercalate, List.intersperse, List.flatten,
    List.append_assoc, List.append_nil]

theorem toFENChars_splitOn (s : State) (hv : ValidBoard s.board) :
    (toFENChars s).splitOn ' ' =
      [fenPlacement s.board, if s.whiteToMove then ['w'] else ['b'], fenRights s.castle,
        fenEnPassant s.enPassant, ['0'], (toString (1 + s.plyCount / 2)).toList] := by
  rw [toFENChars_eq]
  apply List.splitOn_intercalate
  · intro l hl
    simp only [List.mem_cons, List.mem_singleton, List.not_mem_nil, or_false] at hl
    rcases hl with rfl | rfl | rfl | rfl | rfl | rfl
    · exact fenPlacement_no_space _ hv
    · cases s.whiteToMove <;> decide
    · exact fenRights_no_space _
    · exact fenEnPassant_no_space _
    · decide
    · exact digits_no_space _
  · simp

theorem validBoard_initial : ValidBoard initialState.board := by
  intro r c h
  rw [isInside_iff] at h
  obtain ⟨h1, h2, h3, h4⟩ := h
  interval_cases r <;> interval_cases c <;> rfl

/-- C21: for every state, the string `toFEN()` returns is the six fields
placement, side, rights, en-passant target, `0` and full-move number `1 +
floor(plyCount / 2)`, with one space between neighbours; none of the fields
contains a space when the board holds piece letters and `'.'`, so that splitting
the string at the spaces gives back exactly these six fields.  The placement is
the eight row strings (row 0 to row 7) joined by `'/'`, and each row string is
the run-length encoding of its row: a piece letter stands for itself and each
maximal run of empty squares is written as its length.  The side is `w` or
`b`; the rights are the held ones of `K`, `Q`, `k`, `q` in that order, or `-`
when none is held; the en-passant target `(r,c)` of the board is written as
the file letter of `c` followed by the digit `8 - r`, and as `-` when there is
none.  For the initial position the string is
`rnbqkbnr/pppppppp/8/8/8/8/PPPPPPPP/RNBQKBNR w KQkq - 0 1`. -/
theorem toFEN_fields (s : State) :
    toFENChars s = List.intercalate [' ']
      [fenPlacement s.board, if s.whiteToMove then ['w'] else ['b'], fenRights s.castle,
        fenEnPassant s.enPassant, ['0'], (toString (1 + s.plyCount / 2)).toList] ∧
    (ValidBoard s.board →
      (toFENChars s).splitOn ' ' =
        [fenPlacement s.board, if s.whiteToMove then ['w'] else ['b'], fenRights s.castle,
          fenEnPassant s.enPassant, ['0'], (toString (1 + s.plyCount / 2)).toList]) ∧
    fenPlacement s.board = List.intercalate ['/']
      [fenRow s.board 0, fenRow s.board 1, fenRow s.board 2, fenRow s.board 3,
        fenRow s.board 4, fenRow s.board 5, fenRow s.board 6, fenRow s.board 7] ∧
    (∀ r : Int, IsRunLength (rowCells s.board r) (fenRow s.board r)) ∧
    fenRights s.castle =
      (if s.castle.wK || s.castle.wQ || s.castle.bK || s.castle.bQ then
        [('K', s.castle.wK), ('Q', s.castle.wQ), ('k', s.castle.bK), ('q', s.castle.bQ)].filterMap
          fun p => if p.2 then some p.1 else none
      else ['-']) ∧
    (∀ r c : Int, s.enPassant = some (r, c) → isInside r c = true →
      fenEnPassant s.enPassant = [Char.ofNat (97 + c.toNat), Nat.digitChar (8 - r).toNat]) ∧
    (s.enPassant = none → fenEnPassant s.enPassant = ['-']) ∧
    toFEN initialState = "rnbqkbnr/pppppppp/8/8/8/8/PPPPPPPP/RNBQKBNR w KQkq - 0 1" := by
  refine ⟨toFENChars_eq s, toFENChars_splitOn s, rfl, ?_, fenRights_spec _, ?_, ?_, by decide!⟩
  · intro r
    rw [fenRow_eq]
    simpa using isRunLength_fenFrom (rowCells s.board r) 0
  · intro r c hep hin
    rw [hep]
    exact fenEnPassant_inside r c hin
  · intro hep
    rw [hep]
    rfl

/-- C21 after 1.e4: the six fields of the FEN string, the target written `e3`. -/
theorem toFEN_fields_witness :
    (toFENChars initialState).splitOn ' ' =
      [fenPlacement initialState.board, if initialState.whiteToMove then ['w'] else ['b'],
        fenRights initialState.castle, fenEnPassant initialState.enPassant, ['0'],
        (toString (1 + initialState.plyCount / 2)).toList] ∧
    fenEnPassant afterE4.enPassant = [Char.ofNat (97 + (4 : Int).toNat), Nat.digitChar (8 - 5 : Int).toNat] ∧
    toFEN afterE4 = "rnbqkbnr/pppppppp/8/8/4P3/8/PPPP1PPP/RNBQKBNR b KQkq e3 0 1" :=
  ⟨(toFEN_fields initialState).2.1 validBoard_initial,
    (toFEN_fields afterE4).2.2.2.2.2.1 5 4 (by decide!) (by decide), by decide!⟩

/-- C29: for a board of piece letters and `'.'`, the first of the
space-separated fields of the FEN string is the placement; splitting the
placement at `'/'` gives exactly the 8 row strings; replacing every digit `d` of
a row string by `d` copies of `'.'` gives back the cells of that row of the
board, 8 of them, so the rows read back from the placement are rows 0 to 7 of
the board; and no row string has two adjacent digits or contains the digit 0. -/
theorem fen_placement_determines_board (s : State) (hv : ValidBoard s.board) :
    ((toFENChars s).splitOn ' ').head? = some (fenPlacement s.board) ∧
    (fenPlacement s.board).splitOn '/' = idx.map (fun r => fenRow s.board r) ∧
    ((fenPlacement s.board).splitOn '/').length = 8 ∧
    ((fenPlacement s.board).splitOn '/').map expandRank = idx.map (fun r => rowCells s.board r) ∧
    (∀ r ∈ idx, (expandRank (fenRow s.board r)).length = 8) ∧
    (∀ r ∈ idx, ∀ c ∈ idx, (expandRank (fenRow s.board r)).get? c.toNat = some (s.board.get r c)) ∧
    (∀ rank ∈ (fenPlacement s.board).splitOn '/',
      List.Chain' (fun x y : Char => ¬(x.isDigit = true ∧ y.isDigit = true)) rank ∧
      '0' ∉ rank) := by
  have hexp : ∀ r ∈ idx, expandRank (fenRow s.board r) = rowCells s.board r := by
    intro r hr
    rw [fenRow_eq]
    simpa using expandRank_fenFrom _ (rowCells_valid s.board hv r hr) 0 (by simp [rowCells_length])
  refine ⟨?_, fenPlacement_splitOn _ hv, ?_, ?_, ?_, ?_, ?_⟩
  · rw [toFENChars_splitOn s hv]
    rfl
  · rw [fenPlacement_splitOn _ hv]
    rfl
  · rw [fenPlacement_splitOn _ hv, List.map_map]
    apply List.map_congr_left
    intro r hr
    exact hexp r hr
  · intro r hr
    rw [hexp r hr]
    rfl
  · intro r hr c hc
    rw [hexp r hr]
    rw [mem_idx_iff] at hc
    obtain ⟨h1, h2⟩ := hc
    interval_cases c <;> rfl
  · intro rank hrank
    rw [fenPlacement_splitOn _ hv] at hrank
    simp only [List.mem_map] at hrank
    obtain ⟨r, hr, rfl⟩ := hrank
    rw [fenRow_eq]
    exact ⟨chain_fenFrom _ (rowCells_valid s.board hv r hr) 0 (by simp [rowCells_length]),
      zero_not_mem_fenFrom _ (rowCells_valid s.board hv r hr) 0 (by simp [rowCells_length])⟩

/-- C29 for the initial position. -/
theorem fen_placement_determines_board_witness :
    ((toFENChars initialState).splitOn ' ').head? = some (fenPlacement initialState.board) ∧
    (fenPlacement initialState.board).splitOn '/'
      = idx.map (fun r => fenRow initialState.board r) ∧
    ((fenPlacement initialState.board).splitOn '/').length = 8 ∧
    ((fenPlacement initialState.board).splitOn '/').map expandRank
      = idx.map (fun r => rowCells initialState.board r) ∧
    (∀ r ∈ idx, (expandRank (fenRow initialState.board r)).length = 8) ∧
    (∀ r ∈ idx, ∀ c ∈ idx, (expandRank (fenRow initialState.board r)).get? c.toNat
      = some (initialState.board.get r c)) ∧
    (∀ rank ∈ (fenPlacement initialState.board).splitOn '/',
      List.Chain' (fun x y : Char => ¬(x.isDigit = true ∧ y.isDigit = true)) rank ∧
      '0' ∉ rank) :=
  fen_placement_determines_board initialState validBoard_initial

/-! ## The class `ChessGame`: no move is accepted while it is White's turn -/

theorem isCell_toLower_ne_w (ch : Char) (h : isCell ch = true) : ch.toLower ≠ 'w' := by
  rw [isCell_iff] at h
  simp only [List.mem_cons, List.mem_singleton, List.not_mem_nil, or_false] at h
  rcases h with rfl | rfl | rfl | rfl | rfl | rfl | rfl | rfl | rfl | rfl | rfl | rfl | rfl <;>
    decide

theorem mem_of_row (g : ChessGame) (r : Int) (row : List Char) (h : g.row r = some row) :
    row ∈ g.board := by
  unfold ChessGame.row at h
  split_ifs at h
  exact List.get?_mem h

theorem mem_of_charAt (row : List Char) (c : Int) (ch : Char) (h : charAt row c = some ch) :
    ch ∈ row := by
  unfold charAt at h
  split_ifs at h
  exact List.get?_mem h

theorem isValidMove_white (g : ChessGame) (hturn : g.currentTurn = "white")
    (hcells : ∀ row ∈ g.board, ∀ ch ∈ row, isCell ch = true) (fuel : Nat) (src dst : Square) :
    g.isValidMove (fuel + 1) src dst =
      if g.gameOver then some false
      else match g.row src.1 with
        | none => none
        | some _ => some false := by
  rw [ChessGame.isValidMove]
  by_cases hg : g.gameOver = true
  · simp [hg]
  · simp only [hg, if_false, Bool.false_eq_true]
    cases hrow : g.row src.1 with
    | none => rfl
    | some srcRow =>
      simp only
      cases hch : charAt srcRow src.2 with
      | none => rfl
      | some piece =>
        have hcell := hcells srcRow (mem_of_row g _ _ hrow) piece (mem_of_charAt _ _ _ hch)
        have hne : (some piece.toLower != g.currentTurn.toList.head?) = true := by
          rw [hturn]
          have : ("white" : String).toList.head? = some 'w' := rfl
          rw [this]
          simpa using isCell_toLower_ne_w piece hcell
        simp only [hne, if_true]

theorem makeMove_white (g : ChessGame) (hturn : g.currentTurn = "white")
    (hcells : ∀ row ∈ g.board, ∀ ch ∈ row, isCell ch = true) (fuel : Nat) (src dst : Square) :
    g.makeMove (fuel + 1) src dst =
      if g.gameOver then some (g, false)
      else match g.row src.1 with
        | none => none
        | some _ => some (g, false) := by
  unfold ChessGame.makeMove
  rw [isValidMove_white g hturn hcells]
  by_cases hg : g.gameOver = true
  · simp [hg]
  · simp only [hg, if_false, Bool.false_eq_true]
    cases g.row src.1 <;> rfl

theorem row_some (g : ChessGame) (r : Int) (h : 0 ≤ r ∧ r.toNat < g.board.length) :
    ∃ row, g.row r = some row := by
  unfold ChessGame.row
  rw [if_pos h.1]
  exact ⟨g.board.get ⟨r.toNat, h.2⟩, List.get?_eq_get h.2⟩

theorem play_white (g : ChessGame) (hturn : g.currentTurn = "white")
    (hcells : ∀ row ∈ g.board, ∀ ch ∈ row, isCell ch = true) (fuel : Nat)
    (moves : List (Square × Square)) :
    (∀ out, g.play (fuel + 1) moves = some out →
      out.1 = g ∧ out.2 = moves.map fun _ => false) ∧
    ((∀ m ∈ moves, 0 ≤ m.1.1 ∧ m.1.1.toNat < g.board.length) →
      g.play (fuel + 1) moves = some (g, moves.map fun _ => false)) := by
  induction moves with
  | nil =>
    refine ⟨?_, fun _ => rfl⟩
    intro out h
    simp only [ChessGame.play, Option.some.injEq] at h
    rw [← h]
    exact ⟨rfl, rfl⟩
  | cons m rest ih =>
    have hmk := makeMove_white g hturn hcells fuel m.1 m.2
    constructor
    · intro out h
      rw [ChessGame.play] at h
      cases hm : g.makeMove (fuel + 1) m.1 m.2 with
      | none => rw [hm] at h; simp at h
      | some res =>
        have hres : res = (g, false) := by
          rw [hm] at hmk
          by_cases hg : g.gameOver = true
          · simpa [hg] using hmk
          · simp only [hg, if_false, Bool.false_eq_true] at hmk
            cases hrow : g.row m.1.1 with
            | none => rw [hrow] at hmk; simp at hmk
            | some row => rw [hrow] at hmk; simpa using hmk
        subst hres
        rw [hm] at h
        simp only [Option.map_eq_some'] at h
        obtain ⟨out', hout', rfl⟩ := h
        obtain ⟨h1, h2⟩ := ih.1 out' hout'
        simp [h1, h2]
    · intro hall
      obtain ⟨row, hrow⟩ := row_some g m.1.1 (hall m (List.mem_cons_self _ _))
      have hm : g.makeMove (fuel + 1) m.1 m.2 = some (g, false) := by
        rw [hmk, hrow]
        split_ifs <;> rfl
      rw [ChessGame.play, hm]
      simp only
      rw [ih.2 (fun x hx => hall x (List.mem_cons_of_mem _ hx))]
      rfl

theorem new_cells : ∀ row ∈ ChessGame.new.board, ∀ ch ∈ row, isCell ch = true := by
  decide

/-- C30: in a `ChessGame` whose `currentTurn` is `'white'` and whose board holds
piece letters and `'.'`, `isValidMove(from, to)` returns `false` for every
source square in a row of the board and every destination (with any positive
bound on the depth of its calls), `makeMove(from, to)` then returns `false` and
leaves the game as it was, and a call that does not return `false` raises an
exception (the source row does not exist).  Hence every sequence of calls of
`makeMove` on `new ChessGame()` with sources on the board returns `false` each
time and ends in the initial game: no move is ever accepted. -/
theorem chessGame_white_never_moves (g : ChessGame) (hturn : g.currentTurn = "white")
    (hcells : ∀ row ∈ g.board, ∀ ch ∈ row, isCell ch = true) (fuel : Nat) (src dst : Square) :
    ((0 ≤ src.1 ∧ src.1.toNat < g.board.length) →
      g.isValidMove (fuel + 1) src dst = some false ∧
      g.makeMove (fuel + 1) src dst = some (g, false)) ∧
    g.isValidMove (fuel + 1) src dst ≠ some true ∧
    (∀ out, g.makeMove (fuel + 1) src dst = some out → out = (g, false)) ∧
    (∀ moves : List (Square × Square),
      (∀ m ∈ moves, 0 ≤ m.1.1 ∧ m.1.1.toNat < g.board.length) →
      g.play (fuel + 1) moves = some (g, moves.map fun _ => false)) ∧
    (∀ (moves : List (Square × Square)) (out : ChessGame × List Bool),
      g.play (fuel + 1) moves = some out → out.1 = g ∧ out.2 = moves.map fun _ => false) := by
  have hv := isValidMove_white g hturn hcells fuel src dst
  have hm := makeMove_white g hturn hcells fuel src dst
  refine ⟨?_, ?_, ?_, fun moves => (play_white g hturn hcells fuel moves).2,
    fun moves => (play_white g hturn hcells fuel moves).1⟩
  · intro hin
    obtain ⟨row, hrow⟩ := row_some g src.1 hin
    rw [hv, hm, hrow]
    constructor <;> split_ifs <;> rfl
  · rw [hv]
    split_ifs
    · simp
    · cases g.row src.1 <;> simp
  · intro out hout
    rw [hm] at hout
    split_ifs at hout
    · simpa using hout.symm
    · cases hrow : g.row src.1 with
      | none => rw [hrow] at hout; simp at hout
      | some row => rw [hrow] at hout; simpa using hout.symm

/-- C30 for the game `new ChessGame()` and the pawn move e2-e4. -/
theorem chessGame_white_never_moves_witness :
    ((0 ≤ ((6, 4) : Square).1 ∧ ((6, 4) : Square).1.toNat < ChessGame.new.board.length) →
      ChessGame.new.isValidMove (0 + 1) (6, 4) (4, 4) = some false ∧
      ChessGame.new.makeMove (0 + 1) (6, 4) (4, 4) = some (ChessGame.new, false)) ∧
    ChessGame.new.isValidMove (0 + 1) (6, 4) (4, 4) ≠ some true :=
  ⟨(chessGame_white_never_moves ChessGame.new rfl new_cells 0 (6, 4) (4, 4)).1,
    (chessGame_white_never_moves ChessGame.new rfl new_cells 0 (6, 4) (4, 4)).2.1⟩

/-! ## Where the candidates of a piece lie -/

end Chess
